import Mathlib

/-!
# MinecraftDiff: record classifier, chunk bounds, raster geometry and slime oracle

A shallow embedding of `src/world/world.cc` and `src/world/dimension_data.cc`.

Conventions of the embedding:

* a C++ `int32_t` / `int64_t` value is a Lean `Int`; where the C++ arithmetic can leave the
  range of its type the result is wrapped explicitly (`wrapInt32`, `wrapInt64`);
* a byte is a `Fin 256`; a LevelDB slice (key or value) is the list of its bytes;
* the calls that `dbParse` makes into the accumulators and into the tag-tree decoder are
  recorded as a list of `Action`s, in program order; logging is not modelled.
-/

namespace mcpe_viz

/-! ## Machine integers -/

/-- Value held by a signed 32-bit register that is assigned the integer `x`. -/
def wrapInt32 (x : Int) : Int := (x + 2^31) % 2^32 - 2^31

/-- Value held by a signed 64-bit register that is assigned the integer `x`. -/
def wrapInt64 (x : Int) : Int := (x + 2^63) % 2^64 - 2^63

/-- The conversion `unsigned(x)` of a signed value to a 32-bit unsigned one. -/
def toUnsigned32 (x : Int) : Nat := (x % 2^32).toNat

/-- A byte of a key or of a value. -/
abbrev Byte := Fin 256

/-! ## The standard generator used by the slime oracle

`std::mt19937` belongs to the C++ standard library.  Only its first output after `seed(s)` is
needed; it is written here from the definition of `mersenne_twister_engine<uint_fast32_t, 32,
624, 397, 31, 0x9908b0df, 11, 0xffffffff, 7, 0x9d2c5680, 15, 0xefc60000, 18, 1812433253>`. -/

/-- The seeding recurrence `x[i] = (1812433253 * (x[i-1] ^ (x[i-1] >> 30)) + i) mod 2^32`:
starting from the word `x` at index `i`, the word at index `i + k`. -/
def mtWalk : Nat → Nat → Nat → Nat
  | 0, _, x => x
  | k+1, i, x => mtWalk k (i+1) ((1812433253 * (x ^^^ (x >>> 30)) + (i+1)) % 2^32)

/-- The output tempering of the generator. -/
def mtTemper (y0 : Nat) : Nat :=
  let y1 := y0 ^^^ ((y0 >>> 11) &&& 0xffffffff)
  let y2 := y1 ^^^ ((y1 <<< 7) &&& 0x9d2c5680)
  let y3 := y2 ^^^ ((y2 <<< 15) &&& 0xefc60000)
  y3 ^^^ (y3 >>> 18)

/-- The value returned by the first call `random()` after `random.seed(seed)`: word 0 of the
first state transition (built from the seeded words 0, 1 and 397), tempered.  The result type
carries 32 bits. -/
def mt19937_first (seed : Nat) : Nat :=
  let x0 := mtWalk 0 0 (seed % 2^32)
  let x1 := mtWalk 1 0 (seed % 2^32)
  let x397 := mtWalk 397 0 (seed % 2^32)
  let y := (x0 &&& 0x80000000) ||| (x1 &&& 0x7fffffff)
  mtTemper (x397 ^^^ (y >>> 1) ^^^ (if y % 2 = 1 then 0x9908b0df else 0)) % 2^32

/-! ## Per-dimension state -/

/-- Modelled from the spec: the per-chunk projection (`ChunkData_LevelDB`, declared in a header
that is not among the sources): the chunk coordinate and the 16x16 grids read by the raster
passes as `it->blocks[cx][cz]`, `it->data[cx][cz]`, `it->topBlockY[cx][cz]`,
`it->heightCol[cx][cz]`, `it->grassAndBiome[cx][cz]` and `it->topLight[cx][cz]`. -/
structure ChunkData_LevelDB where
  chunkX : Int
  chunkZ : Int
  blocks : Nat → Nat → Int
  data : Nat → Nat → Int
  topBlockY : Nat → Nat → Nat
  heightCol : Nat → Nat → Nat
  grassAndBiome : Nat → Nat → Int
  topLight : Nat → Nat → Nat

/-- Modelled from the spec: the members of `DimensionData_LevelDB` (declared in a header that is
not among the sources) that the two source files read or write: identity, world info set by
`setWorldInfo`, the running chunk bounds with their validity flag, and the chunk map, kept as the
list of its values (a chunk is stored under its own coordinate). -/
structure DimensionData_LevelDB where
  dimId : Int
  name : String
  worldName : String
  worldSpawnX : Int
  worldSpawnZ : Int
  worldSeed : Int
  minChunkX : Int
  maxChunkX : Int
  minChunkZ : Int
  maxChunkZ : Int
  chunkBoundsValid : Bool
  chunks : List ChunkData_LevelDB

/-! ## `DimensionData_LevelDB::isSlimeChunk_MCPE` -/

/-- The magic multiplier `m = 0xcccccccdL`. -/
def slimeMagic : Int := 0xcccccccd

/-- Lines `product = n * m` to `res = ...` of `isSlimeChunk_MCPE`, on `int64_t` values. -/
def slimeRes (n : Int) : Int :=
  let m : Int := slimeMagic
  let product : Int := wrapInt64 (n * m)
  let hi : Int := Int.land (product >>> (32 : Nat)) 0xffffffff
  let hi_shift3 : Int := Int.land (hi >>> (0x3 : Nat)) 0xffffffff
  Int.land
    (wrapInt64 (Int.land (wrapInt64 (hi_shift3 + wrapInt64 (hi_shift3 * 0x4))) 0xffffffff * 0x2))
    0xffffffff

/-- The seed handed to `random.seed`: `unsigned((chunkX_uint * 0x1f1f1f1fL) ^ chunkZ_uint)`. -/
def slimeSeed (cX cZ : Int) : Nat :=
  let chunkX_uint : Int := Int.land cX 0xffffffff
  let chunkZ_uint : Int := Int.land cZ 0xffffffff
  let seed : Int := Int.xor (wrapInt64 (chunkX_uint * 0x1f1f1f1f)) chunkZ_uint
  toUnsigned32 seed

/-- The method `isSlimeChunk_MCPE(cX, cZ)`: the returned boolean, and the object after the call.
The method is not `const`, so the object is threaded through; the generator is a local. -/
def isSlimeChunk_MCPE (self : DimensionData_LevelDB) (cX cZ : Int) :
    Bool × DimensionData_LevelDB :=
  let n : Int := (mt19937_first (slimeSeed cX cZ) : Nat)
  let res : Int := slimeRes n
  (decide (n = res), self)

/-! ### The unsigned 32-bit reading of the slime test -/

/-- The seed as the specification words it: `((cX mod 2^32) * 0x1f1f1f1f) XOR (cZ mod 2^32)`,
reduced mod `2^32`. -/
def slimeSeedU32 (cX cZ : Int) : Nat :=
  (((cX % 2^32).toNat * 0x1f1f1f1f) ^^^ (cZ % 2^32).toNat) % 2^32

/-- Bits 32..63 of the unsigned 64-bit product `n * 0xcccccccd`. -/
def high32 (n : Nat) : Nat := (n * 0xcccccccd % 2^64) / 2^32

/-- The specification's `res = (((hi >> 3) * 5) * 2) mod 2^32`. -/
def slimeResU32 (n : Nat) : Nat := (((high32 n >>> 3) * 5) * 2) % 2^32

/-- The specification's slime predicate. -/
def isSlimeChunkU32 (cX cZ : Int) : Bool :=
  let n := mt19937_first (slimeSeedU32 cX cZ)
  decide (n = slimeResU32 n)

/-! ## Keys, values and what lies outside the embedding -/

/-- What the embedding takes from outside: the bytes found in memory behind a key and behind a
value (only looked at where the code reads past the end of a slice), and the return code of the
tag-tree decoder `parseNbt` on a value (0 on success). -/
structure Env where
  keyPast : Nat → Byte
  valuePast : Byte
  parseNbt : List Byte → Int

/-- The pointer `key = skey.data()`: byte `i` of the key, or of the memory behind it. -/
def keyAt (env : Env) (key : List Byte) (i : Nat) : Byte := key.getD i (env.keyPast i)

/-- The read `cdata[0]` on `cdata = svalue.data()`. -/
def cdata0 (env : Env) (cdata : List Byte) : Byte := cdata.getD 0 env.valuePast

/-- Modelled from the spec: `myParseInt32(p, startByte)` (a helper of a header that is not among
the sources): the 32-bit integer stored in bytes `startByte .. startByte + 3`, copied as the
little-endian host stores it, as a signed value. -/
def myParseInt32 (p : Nat → Byte) (startByte : Nat) : Int :=
  wrapInt32 ((p startByte).val + 256 * (p (startByte + 1)).val
    + 65536 * (p (startByte + 2)).val + 16777216 * (p (startByte + 3)).val)

/-- Modelled from the spec: `myParseInt8(p, startByte)` (same header): the byte at `startByte`. -/
def myParseInt8 (p : Nat → Byte) (startByte : Nat) : Int := (p startByte).val

/-- Modelled from the spec: dimension id 0 is the overworld. -/
def kDimIdOverworld : Int := 0

/-- Modelled from the spec: dimension id 1 is the nether. -/
def kDimIdNether : Int := 1

/-- Modelled from the spec: dimension id 2 is the-end. -/
def kDimIdTheEnd : Int := 2

/-- Modelled from the spec: the number of dimensions of `dimDataList`. -/
def kDimIdCount : Nat := 3

/-- The function `legalChunkPos` of `world.cc`. -/
def legalChunkPos (chunkX chunkZ : Int) : Bool :=
  if toUnsigned32 chunkX = 0x80000000 ∧ toUnsigned32 chunkZ = 0x80000000 then false else true

/-- The test `strncmp(s1, s2, n) == 0` of the C library, from position `i` on: `s1` is a raw
pointer, `s2` a string literal given by its characters (its terminating NUL is implicit). The
comparison stops at the first difference, at a NUL common to both, or after `n` characters. -/
def strncmpEq (s1 : Nat → Byte) (s2 : List Byte) : Nat → Nat → Bool
  | 0, _ => true
  | n+1, i =>
    if s1 i ≠ s2.getD i 0 then false
    else if s1 i = 0 then true
    else strncmpEq s1 s2 n (i + 1)

/-- The characters of `"BiomeData"`. -/
def name_BiomeData : List Byte := [66, 105, 111, 109, 101, 68, 97, 116, 97]

/-- The characters of `"Overworld"`. -/
def name_Overworld : List Byte := [79, 118, 101, 114, 119, 111, 114, 108, 100]

/-- The characters of `"~local_player"`. -/
def name_local_player : List Byte :=
  [126, 108, 111, 99, 97, 108, 95, 112, 108, 97, 121, 101, 114]

/-- The characters of `"player_"`. -/
def name_player_ : List Byte := [112, 108, 97, 121, 101, 114, 95]

/-- The characters of `"villages"`. -/
def name_villages : List Byte := [118, 105, 108, 108, 97, 103, 101, 115]

/-- The characters of `"mVillages"`. -/
def name_mVillages : List Byte := [109, 86, 105, 108, 108, 97, 103, 101, 115]

/-- The characters of `"game_flatworldlayers"`. -/
def name_game_flatworldlayers : List Byte :=
  [103, 97, 109, 101, 95, 102, 108, 97, 116, 119, 111, 114, 108, 100, 108, 97, 121, 101, 114, 115]

/-- The characters of `"idcounts"`. -/
def name_idcounts : List Byte := [105, 100, 99, 111, 117, 110, 116, 115]

/-- The characters of `"Nether"`. -/
def name_Nether : List Byte := [78, 101, 116, 104, 101, 114]

/-- The characters of `"portals"`. -/
def name_portals : List Byte := [112, 111, 114, 116, 97, 108, 115]

/-- The characters of `"AutonomousEntities"`. -/
def name_AutonomousEntities : List Byte :=
  [65, 117, 116, 111, 110, 111, 109, 111, 117, 115, 69, 110, 116, 105, 116, 105, 101, 115]

/-- The characters of `"dimension"`. -/
def name_dimension : List Byte := [100, 105, 109, 101, 110, 115, 105, 111, 110]

/-! ## `MinecraftWorld_LevelDB::dbParse` -/

/-- The branches of the text-key chain of `dbParse`, in source order. -/
inductive NamedKind
  | BiomeData
  | Overworld
  | local_player
  | remote_player
  | villages
  | mVillages
  | game_flatworldlayers
  | idcounts
  | Nether
  | portals
  | AutonomousEntities
  | dimension
  deriving DecidableEq, Repr

/-- The calls `dbParse` makes into the tag-tree decoder and into the dimension accumulators. -/
inductive Action
  | parseNbt (hdr : String) (cdata : List Byte)
  | parseNbt_entity (dimId : Int) (dimName : String) (playerLocalFlag playerRemoteFlag : Bool)
      (playerType : String) (playerId : List Byte)
  | parseNbt_mVillages
  | parseNbt_portals
  | parseNbt_tileEntity (dimId : Int) (dimName : String)
  | addChunk (dimId : Int) (chunkFormatVersion : Int) (chunkX chunkY chunkZ : Int)
      (cdata : List Byte)
  | addChunkColumnData (dimId : Int) (chunkFormatVersion : Int) (chunkX chunkZ : Int)
      (cdata : List Byte)
  deriving DecidableEq, Repr

/-- The text-key chain of `dbParse` (from `strncmp(key, "BiomeData", key_size)` down to
`strncmp(key, "dimension", 9)`): the first branch whose test succeeds, if any. -/
def classifyNamed (env : Env) (key : List Byte) : Option NamedKind :=
  let key_size := key.length
  let k := keyAt env key
  if strncmpEq k name_BiomeData key_size 0 then some .BiomeData
  else if strncmpEq k name_Overworld key_size 0 then some .Overworld
  else if strncmpEq k name_local_player key_size 0 then some .local_player
  else if key_size ≥ 7 ∧ strncmpEq k name_player_ 7 0 then some .remote_player
  else if strncmpEq k name_villages key_size 0 then some .villages
  else if strncmpEq k name_mVillages key_size 0 then some .mVillages
  else if strncmpEq k name_game_flatworldlayers key_size 0 then some .game_flatworldlayers
  else if strncmpEq k name_idcounts key_size 0 then some .idcounts
  else if strncmpEq k name_Nether key_size 0 then some .Nether
  else if strncmpEq k name_portals key_size 0 then some .portals
  else if strncmpEq k name_AutonomousEntities key_size 0 then some .AutonomousEntities
  else if strncmpEq k name_dimension 9 0 then some .dimension
  else none

/-- The bodies of the branches of the text-key chain. -/
def namedActions (env : Env) (key cdata : List Byte) : NamedKind → List Action
  | .BiomeData => [.parseNbt "BiomeData: " cdata]
  | .Overworld => [.parseNbt "Overworld: " cdata]
  | .local_player =>
    .parseNbt "Local Player: " cdata ::
      (if env.parseNbt cdata = 0 then
        [.parseNbt_entity (-1) "" true false "Local Player" []] else [])
  | .remote_player =>
    .parseNbt "Remote Player: " cdata ::
      (if env.parseNbt cdata = 0 then
        [.parseNbt_entity (-1) "" false true "Remote Player" (key.drop 7)] else [])
  | .villages => [.parseNbt "villages: " cdata]
  | .mVillages =>
    .parseNbt "mVillages: " cdata :: (if env.parseNbt cdata = 0 then [.parseNbt_mVillages] else [])
  | .game_flatworldlayers => []
  | .idcounts => [.parseNbt "idcounts: " cdata]
  | .Nether => [.parseNbt "Nether: " cdata]
  | .portals =>
    .parseNbt "portals: " cdata :: (if env.parseNbt cdata = 0 then [.parseNbt_portals] else [])
  | .AutonomousEntities => [.parseNbt "AutonomousEntities: " cdata]
  | .dimension => [.parseNbt "Dimension: " cdata]

/-- The locals set from a chunk key. -/
structure ChunkKeyInfo where
  chunkX : Int
  chunkZ : Int
  chunkDimId : Int
  chunkType : Int
  chunkTypeSub : Int
  dimName : String
  chunkFormatVersion : Int
  deriving DecidableEq, Repr

/-- The two statements under `// adjust weird dim id's`. -/
def adjustDimId (chunkDimId : Int) : Int :=
  let d := if chunkDimId = 0x32373639 then kDimIdTheEnd else chunkDimId
  if d = 0x33373639 then kDimIdNether else d

/-- The key parsing at the head of the chunk branch of `dbParse`, for a key of size 9, 10, 13 or
14 (the only sizes the branch is entered with): the locals it sets, or `none` where the code
leaves the record with `continue` because of an unknown dimension id. -/
def parseChunkKey (env : Env) (key : List Byte) : Option ChunkKeyInfo :=
  let key_size := key.length
  let k := keyAt env key
  if key_size = 9 then
    some { chunkX := myParseInt32 k 0, chunkZ := myParseInt32 k 4, chunkDimId := kDimIdOverworld,
           chunkType := myParseInt8 k 8, chunkTypeSub := 0, dimName := "overworld",
           chunkFormatVersion := 2 }
  else if key_size = 10 then
    some { chunkX := myParseInt32 k 0, chunkZ := myParseInt32 k 4, chunkDimId := kDimIdOverworld,
           chunkType := myParseInt8 k 8, chunkTypeSub := myParseInt8 k 9, dimName := "overworld",
           chunkFormatVersion := 3 }
  else if key_size = 13 then
    let chunkDimId := adjustDimId (myParseInt32 k 8)
    if chunkDimId ≠ kDimIdNether ∧ chunkDimId ≠ kDimIdTheEnd then none
    else
      some { chunkX := myParseInt32 k 0, chunkZ := myParseInt32 k 4, chunkDimId := chunkDimId,
             chunkType := myParseInt8 k 12, chunkTypeSub := 0, dimName := "nether",
             chunkFormatVersion := 2 }
  else if key_size = 14 then
    let chunkDimId := adjustDimId (myParseInt32 k 8)
    if chunkDimId ≠ kDimIdNether ∧ chunkDimId ≠ kDimIdTheEnd then none
    else
      some { chunkX := myParseInt32 k 0, chunkZ := myParseInt32 k 4, chunkDimId := chunkDimId,
             chunkType := myParseInt8 k 12, chunkTypeSub := myParseInt8 k 13, dimName := "nether",
             chunkFormatVersion := 3 }
  else none

/-- The `switch (chunkType)` of `dbParse`. The cases 0x33, 0x34, 0x35, 0x36, 0x39, 0x3b, 0x76 and
`default` only log. -/
def chunkSwitch (env : Env) (r : ChunkKeyInfo) (cdata : List Byte) : List Action :=
  if r.chunkType = 0x30 then
    [.addChunk r.chunkDimId 2 r.chunkX 0 r.chunkZ cdata]
  else if r.chunkType = 0x31 then
    .parseNbt "0x31-te: " cdata ::
      (if env.parseNbt cdata = 0 then
        [.parseNbt_tileEntity r.chunkDimId (r.dimName ++ "-")] else [])
  else if r.chunkType = 0x32 then
    .parseNbt "0x32-e: " cdata ::
      (if env.parseNbt cdata = 0 then
        [.parseNbt_entity r.chunkDimId (r.dimName ++ "-") false false "" []] else [])
  else if r.chunkType = 0x2f then
    let chunkY := r.chunkTypeSub
    if cdata0 env cdata ≠ 0 then
      [.addChunk r.chunkDimId 7 r.chunkX chunkY r.chunkZ cdata]
    else
      [.addChunk r.chunkDimId r.chunkFormatVersion r.chunkX chunkY r.chunkZ cdata]
  else if r.chunkType = 0x2d then
    [.addChunkColumnData r.chunkDimId 3 r.chunkX r.chunkZ cdata]
  else []

/-- The chunk branch of `dbParse` (`key_size == 9 || key_size == 10 || key_size == 13 ||
key_size == 14`): key parsing, the corrupt-coordinate check, then the type switch. -/
def chunkRecord (env : Env) (key cdata : List Byte) : List Action :=
  match parseChunkKey env key with
  | none => []
  | some r =>
    if !legalChunkPos r.chunkX r.chunkZ then []
    else chunkSwitch env r cdata

/-- One iteration of the record loop of `dbParse` on the record `(key, cdata)`. -/
def dbParseRecord (env : Env) (key cdata : List Byte) : List Action :=
  match classifyNamed env key with
  | some kind => namedActions env key cdata kind
  | none =>
    if key.length = 9 ∨ key.length = 10 ∨ key.length = 13 ∨ key.length = 14 then
      chunkRecord env key cdata
    else []

/-- The records a scan visits: all of them, or the first 1000 under `control.shortRunFlag`. -/
def scannedRecords (shortRunFlag : Bool) (db : List (List Byte × List Byte)) :
    List (List Byte × List Byte) :=
  if shortRunFlag then db.take 1000 else db

/-- The record loop of `dbParse` (the `for (iter->SeekToFirst(); ..)` loop) over the store
`db`: the calls it makes, in iteration order. -/
def dbParseLoop (env : Env) (shortRunFlag : Bool) (db : List (List Byte × List Byte)) :
    List Action :=
  (scannedRecords shortRunFlag db).flatMap (fun kv => dbParseRecord env kv.1 kv.2)

/-- The dimension a call of `dbParse` is made on or given as argument
(`dimDataList[chunkDimId]->addChunk(..)`, `parseNbt_entity(chunkDimId, ..)`); the plain
tag-tree decodes, the village and the portal calls have none. -/
def Action.dimIdOf : Action → Option Int
  | .parseNbt _ _ => none
  | .parseNbt_entity dimId _ _ _ _ _ => some dimId
  | .parseNbt_mVillages => none
  | .parseNbt_portals => none
  | .parseNbt_tileEntity dimId _ => some dimId
  | .addChunk dimId _ _ _ _ _ => some dimId
  | .addChunkColumnData dimId _ _ _ _ => some dimId

/-- The sub-format test of `generateSlices` on a found cubic record, `rchunk[0] != 0x0` with
`rchunk = svalue.data()` of a `std::string` (NUL-terminated): true when the payload is transcoded
with `convertChunkV7toV3` and read in word mode. -/
def generateSlices_wordModeFlag (svalue : List Byte) : Bool :=
  decide (svalue.getD 0 0 ≠ 0)

/-! ## Chunk bounds -/

/-- Modelled from the spec: `unsetChunkBoundsValid` clears the running bounds (no chunk seen
yet: the minima at the largest, the maxima at the smallest 32-bit value) and the flag. -/
def DimensionData_LevelDB.unsetChunkBoundsValid (d : DimensionData_LevelDB) :
    DimensionData_LevelDB :=
  { d with minChunkX := 2147483647, maxChunkX := -2147483648,
           minChunkZ := 2147483647, maxChunkZ := -2147483648, chunkBoundsValid := false }

/-- Modelled from the spec: `setChunkBoundsValid` raises the validity flag. -/
def DimensionData_LevelDB.setChunkBoundsValid (d : DimensionData_LevelDB) :
    DimensionData_LevelDB :=
  { d with chunkBoundsValid := true }

/-- Modelled from the spec: `addToChunkBounds` keeps the running minimum and maximum. -/
def DimensionData_LevelDB.addToChunkBounds (d : DimensionData_LevelDB) (chunkX chunkZ : Int) :
    DimensionData_LevelDB :=
  { d with minChunkX := min d.minChunkX chunkX, maxChunkX := max d.maxChunkX chunkX,
           minChunkZ := min d.minChunkZ chunkZ, maxChunkZ := max d.maxChunkZ chunkZ }

/-- The dimension objects as the constructor of `MinecraftWorld_LevelDB` creates them. -/
def newDimensionData (i : Int) (name : String) : DimensionData_LevelDB :=
  DimensionData_LevelDB.unsetChunkBoundsValid
    { dimId := i, name := name, worldName := "", worldSpawnX := 0, worldSpawnZ := 0,
      worldSeed := 0, minChunkX := 0, maxChunkX := 0, minChunkZ := 0, maxChunkZ := 0,
      chunkBoundsValid := false, chunks := [] }

/-- The list `dimDataList` after construction. -/
def newDimDataList : List DimensionData_LevelDB :=
  [newDimensionData 0 "overworld", newDimensionData 1 "nether", newDimensionData 2 "the-end"]

/-- Apply `f` to element `i` of a list. -/
def modifyAt {α : Type} (f : α → α) : List α → Nat → List α
  | [], _ => []
  | a :: l, 0 => f a :: l
  | a :: l, i+1 => a :: modifyAt f l i

/-- The statement `dimDataList[chunkDimId]->addToChunkBounds(chunkX, chunkZ)`: `none` when the
index is outside the vector (`operator[]` does not check it). -/
def addToChunkBoundsAt (dimDataList : List DimensionData_LevelDB) (chunkDimId chunkX chunkZ : Int) :
    Option (List DimensionData_LevelDB) :=
  if 0 ≤ chunkDimId ∧ chunkDimId < dimDataList.length then
    some (modifyAt (fun d => d.addToChunkBounds chunkX chunkZ) dimDataList chunkDimId.toNat)
  else none

/-- One iteration of the key loop of `calcChunkBounds`. -/
def calcChunkBoundsRecord (env : Env) (dimDataList : List DimensionData_LevelDB)
    (key : List Byte) : Option (List DimensionData_LevelDB) :=
  let key_size := key.length
  let k := keyAt env key
  let afterNine : Option (List DimensionData_LevelDB) :=
    if key_size = 9 then
      if myParseInt8 k 8 = 0x30 then
        if legalChunkPos (myParseInt32 k 0) (myParseInt32 k 4) then
          addToChunkBoundsAt dimDataList 0 (myParseInt32 k 0) (myParseInt32 k 4)
        else some dimDataList
      else some dimDataList
    else some dimDataList
  match afterNine with
  | none => none
  | some dims =>
    if key_size = 10 then
      if myParseInt8 k 8 = 0x2f then
        if legalChunkPos (myParseInt32 k 0) (myParseInt32 k 4) then
          addToChunkBoundsAt dims 0 (myParseInt32 k 0) (myParseInt32 k 4)
        else some dims
      else some dims
    else if key_size = 13 then
      if myParseInt8 k 12 = 0x30 then
        if legalChunkPos (myParseInt32 k 0) (myParseInt32 k 4) then
          addToChunkBoundsAt dims (myParseInt32 k 8) (myParseInt32 k 0) (myParseInt32 k 4)
        else some dims
      else some dims
    else if key_size = 14 then
      if myParseInt8 k 12 = 0x2f then
        if legalChunkPos (myParseInt32 k 0) (myParseInt32 k 4) then
          addToChunkBoundsAt dims (myParseInt32 k 8) (myParseInt32 k 0) (myParseInt32 k 4)
        else some dims
      else some dims
    else some dims

/-- The key loop of `calcChunkBounds` over the keys of the scanned records. -/
def calcChunkBoundsLoop (env : Env) :
    List DimensionData_LevelDB → List (List Byte) → Option (List DimensionData_LevelDB)
  | dims, [] => some dims
  | dims, key :: keys =>
    match calcChunkBoundsRecord env dims key with
    | none => none
    | some dims1 => calcChunkBoundsLoop env dims1 keys

/-- The method `calcChunkBounds`: nothing is done when every dimension already has valid bounds;
otherwise the bounds are cleared, recomputed by a scan of the keys and marked valid. `none`
stands for a scan that indexes `dimDataList` outside its range. -/
def calcChunkBounds (env : Env) (shortRunFlag : Bool) (dimDataList : List DimensionData_LevelDB)
    (db : List (List Byte × List Byte)) : Option (List DimensionData_LevelDB) :=
  if dimDataList.all (fun d => d.chunkBoundsValid) then some dimDataList
  else
    match calcChunkBoundsLoop env (dimDataList.map (fun d => d.unsetChunkBoundsValid))
        ((scannedRecords shortRunFlag db).map (fun kv => kv.1)) with
    | none => none
    | some dims => some (dims.map (fun d => d.setChunkBoundsValid))

/-! ## Reading a key as the specification does -/

/-- Byte `i` of a slice (0 where the slice has no such byte). -/
def byteAt (s : List Byte) (i : Nat) : Byte := s.getD i 0

/-- The bounds of a dimension, as a tuple `(minChunkX, maxChunkX, minChunkZ, maxChunkZ)`. -/
def boundsOf (d : DimensionData_LevelDB) : Int × Int × Int × Int :=
  (d.minChunkX, d.maxChunkX, d.minChunkZ, d.maxChunkZ)

/-! ## Concrete records used in the evaluations -/

/-- A fixed environment for concrete evaluations: zero bytes behind every slice, and a tag-tree
decoder that succeeds. -/
def env0 : Env := { keyPast := fun _ => 0, valuePast := 0, parseNbt := fun _ => 0 }

/-- The key `"player_10"` of a remote player whose id is `10`; its byte 8 is `0x30`. -/
def key_player_10 : List Byte := [112, 108, 97, 121, 101, 114, 95, 49, 48]

/-- The key `"player_1/0"` (10 bytes); its byte 8 is `0x2f`. -/
def key_player_1_0 : List Byte := [112, 108, 97, 121, 101, 114, 95, 49, 47, 48]

/-- A 9-byte key with the corrupt coordinate pair and type tag `0x30`. -/
def key_corrupt9 : List Byte := [0, 0, 0, 0x80, 0, 0, 0, 0x80, 0x30]

/-- A 9-byte chunk key: chunk (1, -1), type tag `0x30`. -/
def key_chunk9 : List Byte := [1, 0, 0, 0, 0xff, 0xff, 0xff, 0xff, 0x30]

/-- A 10-byte chunk key: chunk (1, -1), type tag `0x2f`, subchunk 5. -/
def key_chunk10 : List Byte := [1, 0, 0, 0, 0xff, 0xff, 0xff, 0xff, 0x2f, 5]

/-- A 13-byte chunk key: chunk (1, -1), dimension id 1, type tag `0x30`. -/
def key_chunk13 : List Byte := [1, 0, 0, 0, 0xff, 0xff, 0xff, 0xff, 1, 0, 0, 0, 0x30]

/-- A 14-byte chunk key: chunk (1, -1), dimension id `0x32373639`, type tag `0x2f`, subchunk 5. -/
def key_chunk14_alt : List Byte :=
  [1, 0, 0, 0, 0xff, 0xff, 0xff, 0xff, 0x39, 0x36, 0x37, 0x32, 0x2f, 5]

/-- A 13-byte key: chunk (1, -1), dimension id 0, type tag `0x30`. -/
def key_chunk13_dim0 : List Byte := [1, 0, 0, 0, 0xff, 0xff, 0xff, 0xff, 0, 0, 0, 0, 0x30]

/-- A 9-byte key: chunk (7, 3), type tag `0x2f`. -/
def key_chunk9_tag2f : List Byte := [7, 0, 0, 0, 3, 0, 0, 0, 0x2f]

/-- The five characters `"Biome"`, a proper initial segment of `"BiomeData"`. -/
def key_Biome : List Byte := [66, 105, 111, 109, 101]

/-- The key `"Nether"` followed by a NUL byte and two more bytes. -/
def key_Nether_nul : List Byte := [78, 101, 116, 104, 101, 114, 0, 1, 2]

/-- The key `"player_1234567"` (14 bytes) of a remote player. -/
def key_player_1234567 : List Byte :=
  [112, 108, 97, 121, 101, 114, 95, 49, 50, 51, 52, 53, 54, 55]

/-! ## `DimensionData_LevelDB::generateImage`: where the columns are drawn -/

/-- Modelled from the spec: the eight render modes of the composite image (`ImageModeType`,
declared in a header that is not among the sources). -/
inductive ImageModeType
  | kImageModeTerrain
  | kImageModeBiome
  | kImageModeGrass
  | kImageModeHeightCol
  | kImageModeHeightColGrayscale
  | kImageModeHeightColAlpha
  | kImageModeBlockLight
  | kImageModeSkyLight
  deriving DecidableEq, Repr

/-- The local `bpp`: 4 in the height-alpha mode, 3 otherwise. -/
def bytesPerPixel (imageMode : ImageModeType) : Int :=
  if imageMode = ImageModeType.kImageModeHeightColAlpha then 4 else 3

/-- The constants computed at the head of `generateImage` (and of `generateSlices`), in 32-bit
signed arithmetic. -/
structure ImageGeometry where
  chunkOffsetX : Int
  chunkOffsetZ : Int
  chunkW : Int
  chunkH : Int
  imageW : Int
  imageH : Int
  deriving DecidableEq, Repr

/-- The head of `generateImage`: offsets, size in chunks and size in pixels. -/
def imageGeometry (d : DimensionData_LevelDB) : ImageGeometry :=
  let chunkOffsetX := wrapInt32 (-d.minChunkX)
  let chunkOffsetZ := wrapInt32 (-d.minChunkZ)
  let chunkW := wrapInt32 (wrapInt32 (d.maxChunkX - d.minChunkX) + 1)
  let chunkH := wrapInt32 (wrapInt32 (d.maxChunkZ - d.minChunkZ) + 1)
  { chunkOffsetX := chunkOffsetX, chunkOffsetZ := chunkOffsetZ, chunkW := chunkW,
    chunkH := chunkH, imageW := wrapInt32 (chunkW * 16), imageH := wrapInt32 (chunkH * 16) }

/-- The size in bytes of the band buffer, `imageW * 16 * bpp`. -/
def bandBufferSize (d : DimensionData_LevelDB) (imageMode : ImageModeType) : Int :=
  wrapInt32 (wrapInt32 ((imageGeometry d).imageW * 16) * bytesPerPixel imageMode)

/-- The lookup `chunks_has_key(chunks, chunkKey)` followed by `chunks.at(chunkKey)`. -/
def chunks_find (chunks : List ChunkData_LevelDB) (chunkX chunkZ : Int) :
    Option ChunkData_LevelDB :=
  chunks.find? (fun c => decide (c.chunkX = chunkX ∧ c.chunkZ = chunkZ))

/-- Number of iterations of a loop `for (i = 0; i < limit; i += 16)`. -/
def bandSteps (limit : Int) : Nat := ((limit + 15) / 16).toNat

/-- One execution of the pixel copy at the end of the `cx` loop body of `generateImage`. -/
structure ColumnWrite where
  /-- Number of bands written to the encoder before this one: the band buffer holds the image
  rows `16 * band .. 16 * band + 15`. -/
  band : Nat
  /-- The member `it->chunkX` of the chunk being drawn. -/
  chunkX : Int
  /-- The member `it->chunkZ` of the chunk being drawn. -/
  chunkZ : Int
  cx : Nat
  cz : Nat
  /-- The local `imageX = (it->chunkX + chunkOffsetX) * 16`. -/
  imageX : Int
  /-- The local `imageZ = (it->chunkZ + chunkOffsetZ) * 16`. -/
  imageZ : Int
  /-- Index in `buf` of the first byte written. -/
  offset : Int
  /-- Number of bytes written. -/
  count : Int
  deriving DecidableEq, Repr

/-- The `cz` and `cx` loops of `generateImage` for the chunk `it` met in band `band`: one pixel
copy per column, at byte index `((cz) * imageW + (imageX + cx)) * unit` of `buf`. -/
def chunkColumns (g : ImageGeometry) (unit : Int) (band : Nat) (it : ChunkData_LevelDB) :
    List ColumnWrite :=
  let imageX := wrapInt32 (wrapInt32 (it.chunkX + g.chunkOffsetX) * 16)
  let imageZ := wrapInt32 (wrapInt32 (it.chunkZ + g.chunkOffsetZ) * 16)
  (List.range 16).flatMap fun cz =>
    (List.range 16).map fun cx =>
      { band := band, chunkX := it.chunkX, chunkZ := it.chunkZ, cx := cx, cz := cz,
        imageX := imageX, imageZ := imageZ,
        offset :=
          wrapInt32 (wrapInt32 (wrapInt32 (cz * g.imageW) + wrapInt32 (imageX + cx)) * unit),
        count := unit }

/-- The number of bytes one pixel copy moves. The flag `pixelCopyMemcpy` says whether
`PIXEL_COPY_MEMCPY` is defined: with it `bpp` bytes are copied to
`buf[(cz * imageW + imageX + cx) * bpp]`, without it three bytes are stored from
`buf[(cz * imageW + imageX + cx) * 3]` on. -/
def pixelUnit (imageMode : ImageModeType) (pixelCopyMemcpy : Bool) : Int :=
  if pixelCopyMemcpy then bytesPerPixel imageMode else 3

/-- The pixel copies of `generateImage`, in execution order: the band loop over
`(iz, chunkZ)`, the loop over `(ix, chunkX)`, the chunk lookup, then the column loops. -/
def generateImage_columns (d : DimensionData_LevelDB) (imageMode : ImageModeType)
    (pixelCopyMemcpy : Bool) : List ColumnWrite :=
  let g := imageGeometry d
  (List.range (bandSteps g.imageH)).flatMap fun kz =>
    (List.range (bandSteps g.imageW)).flatMap fun kx =>
      match chunks_find d.chunks (wrapInt32 (d.minChunkX + kx)) (wrapInt32 (d.minChunkZ + kz)) with
      | none => []
      | some it => chunkColumns g (pixelUnit imageMode pixelCopyMemcpy) kz it

/-- A chunk projection with all grids zero. -/
def emptyChunk (chunkX chunkZ : Int) : ChunkData_LevelDB :=
  { chunkX := chunkX, chunkZ := chunkZ, blocks := fun _ _ => 0, data := fun _ _ => 0,
    topBlockY := fun _ _ => 0, heightCol := fun _ _ => 0, grassAndBiome := fun _ _ => 0,
    topLight := fun _ _ => 0 }

/-- A dimension whose bounds are chunkX in -1..0 and chunkZ in 2..3, holding the chunks
(-1, 2) and (0, 3). -/
def dimSmall : DimensionData_LevelDB :=
  { newDimensionData 0 "overworld" with
    minChunkX := -1, maxChunkX := 0, minChunkZ := 2, maxChunkZ := 3, chunkBoundsValid := true,
    chunks := [emptyChunk (-1) 2, emptyChunk 0 3] }

/-- A dimension whose bounds span chunkX 0 .. 2^27 (as after a scan that met the chunks (0, 0)
and (134217728, 0)), holding the chunk (0, 0). -/
def dimWide : DimensionData_LevelDB :=
  { newDimensionData 0 "overworld" with
    minChunkX := 0, maxChunkX := 134217728, minChunkZ := 0, maxChunkZ := 0,
    chunkBoundsValid := true, chunks := [emptyChunk 0 0] }

/-- The 9-byte key of chunk (0, 0), type tag `0x30`. -/
def key_origin9 : List Byte := [0, 0, 0, 0, 0, 0, 0, 0, 0x30]

/-- The 9-byte key of chunk (134217728, 0), type tag `0x30`. -/
def key_far9 : List Byte := [0, 0, 0, 8, 0, 0, 0, 0, 0x30]

/-! ## Block metadata, decoders and the store -/

/-- Modelled from the spec: a block of the static block table (id to name, colour, variants):
what the raster and export passes read from a `Block`: `name`, `color()`, `hasVariants()` and
`getVariantByBlockData(blockdata)`, here the colour of the matching variant if there is one. -/
structure BlockInfo where
  id : Int
  name : String
  color : Int
  hasVariants : Bool
  getVariantByBlockData : Int → Option Int

/-- Modelled from the spec: the static block table, `Block::get(id)` (a null pointer is `none`),
and the fixed sentinel colour `kColorDefault` of blocks the table does not know. -/
structure BlockTable where
  get : Int → Option BlockInfo
  kColorDefault : Int

/-- The colour computation shared by the raster passes: the sentinel for an unknown block, the
colour of the matching variant, the colour of the parent block when no variant matches, the
colour of the block when it has no variants. -/
def blockColor (tbl : BlockTable) (blockid blockdata : Int) : Int :=
  match tbl.get blockid with
  | some block =>
    if block.hasVariants then
      match block.getVariantByBlockData blockdata with
      | some variantColor => variantColor
      | none => block.color
    else block.color
  | none => tbl.kColorDefault

/-- The chunk decoders the passes call, which live outside the two source files. They are taken
as they are: `convertChunkV7toV3` gives the word buffer `emuchunk` it fills from a payload. -/
structure ChunkDecoders where
  getBlockId_LevelDB_v2 : List Byte → Nat → Nat → Nat → Int
  getBlockData_LevelDB_v2 : List Byte → Nat → Nat → Nat → Int
  getBlockId_LevelDB_v3 : List Byte → Nat → Nat → Nat → Int
  getBlockData_LevelDB_v3 : List Byte → Nat → Nat → Nat → Nat → Int
  getBlockData_LevelDB_v3__fake_v7 : (Nat → Int) → Nat → Nat → Nat → Nat → Int
  convertChunkV7toV3 : List Byte → Nat → Int

/-- Modelled from the spec: the tallest block height, 255 for tall worlds. -/
def MAX_BLOCK_HEIGHT : Nat := 255

/-- Modelled from the spec: the legacy ceiling, 127. -/
def MAX_BLOCK_HEIGHT_127 : Nat := 127

/-- Modelled from the spec: the 16 possible cubic subchunks of a chunk. -/
def MAX_CUBIC_Y : Nat := 16

/-- Modelled from the spec: the length of a cubic byte-format buffer with light, 10241. -/
def NUM_BYTES_CHUNK_V3 : Nat := 10241

/-- The four bytes `memcpy` takes from an `int32_t` on the little-endian host. -/
def int32Bytes (x : Int) : List Byte :=
  [Fin.ofNat (toUnsigned32 x % 256), Fin.ofNat (toUnsigned32 x / 256 % 256),
   Fin.ofNat (toUnsigned32 x / 65536 % 256), Fin.ofNat (toUnsigned32 x / 16777216 % 256)]

/-- The key `generateSlices` builds for the legacy record (type tag `kt = 0x30`) of a chunk:
9 bytes for the overworld, 13 bytes with the dimension id `kw` otherwise. -/
def legacyKey (dimId chunkX chunkZ : Int) : List Byte :=
  if dimId = kDimIdOverworld then int32Bytes chunkX ++ int32Bytes chunkZ ++ [0x30]
  else int32Bytes chunkX ++ int32Bytes chunkZ ++ int32Bytes dimId ++ [0x30]

/-- The key `generateSlices` and `findChunk` build for a cubic record (type tag
`kt_v3 = 0x2f`): 10 bytes for the overworld, 14 bytes otherwise; `cubicy` is the one byte
copied from the subchunk index. -/
def cubicKey (dimId chunkX chunkZ : Int) (cubicy : Nat) : List Byte :=
  if dimId = kDimIdOverworld then
    int32Bytes chunkX ++ int32Bytes chunkZ ++ [0x2f, Fin.ofNat (cubicy % 256)]
  else
    int32Bytes chunkX ++ int32Bytes chunkZ ++ int32Bytes dimId ++ [0x2f, Fin.ofNat (cubicy % 256)]

/-- The call `db->Get(key, &svalue)` on a store given by its records: the value stored under
the key when the status is ok. -/
def dbGet (db : List (List Byte × List Byte)) (key : List Byte) : Option (List Byte) :=
  (db.find? (fun kv => decide (kv.1 = key))).map (fun kv => kv.2)

/-! ## `DimensionData_LevelDB::generateSlices`: the pixels of one chunk -/

/-- A pixel of a slice image: the three bytes stored for it. -/
abbrev Pixel := Nat × Nat × Nat

/-- The three bytes `pcolor[1]`, `pcolor[2]`, `pcolor[3]` of the `int32_t color`. -/
def pixelOfColor (color : Int) : Pixel :=
  (toUnsigned32 color / 256 % 256, toUnsigned32 color / 65536 % 256,
   toUnsigned32 color / 16777216 % 256)

/-- The three bytes a `memset(.., 0, 3)` leaves. -/
def blackPixel : Pixel := (0, 0, 0)

/-- Modelled from its name: `local_htobe32`, the byte swap that brings a 32-bit value of the
little-endian host to big-endian order. -/
def local_htobe32 (x : Int) : Int :=
  let u := toUnsigned32 x
  ((u % 256) * 16777216 + (u / 256 % 256) * 65536 + (u / 65536 % 256) * 256
    + u / 16777216 % 256 : Nat)

/-- The band buffers `rbuf[cy]` of `generateSlices`, one per height: the pixel of layer `cy`
at row `cz` of the band and image column `x`. The code keeps each layer as a flat array and
addresses this pixel at byte `((cz * imageW) + x) * 3`. -/
abbrev SliceBufs := Nat → Nat → Int → Pixel

/-- Store the pixel `p` at layer `cy`, row `cz`, column `x`. -/
def setPixel (rbuf : SliceBufs) (cy cz : Nat) (x : Int) (p : Pixel) : SliceBufs :=
  fun cy1 cz1 x1 => if cy1 = cy ∧ cz1 = cz ∧ x1 = x then p else rbuf cy1 cz1 x1

/-- Body of the `cy` loop of the legacy path, for the column `(cx, cz)` drawn at image column
`x = imageX + cx`. -/
def sliceStep_v2 (tbl : BlockTable) (dec : ChunkDecoders) (dimId : Int) (ochunk : List Byte)
    (currTopBlockY cx cz : Nat) (x : Int) (rbuf : SliceBufs) (cy : Nat) : SliceBufs :=
  let blockid := dec.getBlockId_LevelDB_v2 ochunk cx cz cy
  if blockid = 0 ∧ cy > currTopBlockY ∧ dimId ≠ kDimIdNether then
    setPixel rbuf cy cz x (rbuf currTopBlockY cz x)
  else
    setPixel rbuf cy cz x
      (pixelOfColor (blockColor tbl blockid (dec.getBlockData_LevelDB_v2 ochunk cx cz cy)))

/-- The two `cy` loops of the legacy path for one column: heights 0 .. 127 from the record,
then heights 128 .. `MAX_BLOCK_HEIGHT` copied from height 127. -/
def sliceColumn_v2 (tbl : BlockTable) (dec : ChunkDecoders) (dimId : Int) (ochunk : List Byte)
    (currTopBlockY cx cz : Nat) (x : Int) (rbuf : SliceBufs) : SliceBufs :=
  let r1 := (List.range (MAX_BLOCK_HEIGHT_127 + 1)).foldl
    (sliceStep_v2 tbl dec dimId ochunk currTopBlockY cx cz x) rbuf
  (List.range (MAX_BLOCK_HEIGHT + 1 - 128)).foldl
    (fun r i => setPixel r (128 + i) cz x (r 127 cz x)) r1

/-- The legacy path for a found record: the `cx` and `cz` loops. -/
def sliceChunk_v2 (tbl : BlockTable) (dec : ChunkDecoders) (dimId : Int) (ochunk : List Byte)
    (top : Nat → Nat → Nat) (imageX : Int) (rbuf : SliceBufs) : SliceBufs :=
  (List.range 16).foldl (fun r cx =>
    (List.range 16).foldl (fun r1 cz =>
      sliceColumn_v2 tbl dec dimId ochunk (top cx cz) cx cz (imageX + cx) r1) r) rbuf

/-- The block id read in the `ccy` loop of the cubic path: the next word of the transcoded
buffer in word mode (the pointer starts behind word 0 and advances once per block, in loop
order), `getBlockId_LevelDB_v3` on the stored bytes otherwise. -/
def sliceBlockId_v3 (dec : ChunkDecoders) (svalue : List Byte) (cx cz ccy : Nat) : Int :=
  if generateSlices_wordModeFlag svalue then
    dec.convertChunkV7toV3 svalue (1 + ((cx * 16 + cz) * 16 + ccy))
  else dec.getBlockId_LevelDB_v3 svalue cx cz ccy

/-- The block data read for a block with variants in the cubic path. -/
def sliceBlockData_v3 (dec : ChunkDecoders) (svalue : List Byte) (cx cz ccy : Nat) : Int :=
  if generateSlices_wordModeFlag svalue then
    dec.getBlockData_LevelDB_v3__fake_v7 (dec.convertChunkV7toV3 svalue) NUM_BYTES_CHUNK_V3
      cx cz ccy
  else dec.getBlockData_LevelDB_v3 svalue svalue.length cx cz ccy

/-- The colour the cubic path computes for a block that is not repainted: the colour of the
block for an id in `[0, 1024)`, the fixed colour `0xf010d0` for any other id (the byte-swapped
value as the `int32_t color` holds it). -/
def sliceColor_v3 (tbl : BlockTable) (blockid blockdata : Int) : Int :=
  if 0 ≤ blockid ∧ blockid < 1024 then blockColor tbl blockid blockdata
  else wrapInt32 (local_htobe32 0xf010d0)

/-- Body of the `ccy` loop of the cubic path for a found subchunk. -/
def sliceStep_v3 (tbl : BlockTable) (dec : ChunkDecoders) (dimId : Int) (svalue : List Byte)
    (cubicy currTopBlockY cx cz : Nat) (x : Int) (rbuf : SliceBufs) (ccy : Nat) : SliceBufs :=
  let cy := cubicy * 16 + ccy
  let blockid := sliceBlockId_v3 dec svalue cx cz ccy
  if blockid = 0 ∧ cy > currTopBlockY ∧ dimId ≠ kDimIdNether then
    setPixel rbuf cy cz x (rbuf currTopBlockY cz x)
  else
    setPixel rbuf cy cz x
      (pixelOfColor (sliceColor_v3 tbl blockid (sliceBlockData_v3 dec svalue cx cz ccy)))

/-- Body of the `ccy` loop for a subchunk that is not in the store. -/
def sliceStep_absent (dimId : Int) (cubicy currTopBlockY cz : Nat) (x : Int)
    (rbuf : SliceBufs) (ccy : Nat) : SliceBufs :=
  let cy := cubicy * 16 + ccy
  if cy > currTopBlockY ∧ dimId ≠ kDimIdNether then
    setPixel rbuf cy cz x (rbuf currTopBlockY cz x)
  else setPixel rbuf cy cz x blackPixel

/-- One iteration of the `cubicy` loop: the lookup of the subchunk, then the `cx`, `cz` and
`ccy` loops of the branch taken. -/
def sliceSubchunk (tbl : BlockTable) (dec : ChunkDecoders) (dimId : Int)
    (db : List (List Byte × List Byte)) (chunkX chunkZ : Int) (top : Nat → Nat → Nat)
    (imageX : Int) (rbuf : SliceBufs) (cubicy : Nat) : SliceBufs :=
  match dbGet db (cubicKey dimId chunkX chunkZ cubicy) with
  | some svalue =>
    (List.range 16).foldl (fun r cx =>
      (List.range 16).foldl (fun r1 cz =>
        (List.range 16).foldl
          (sliceStep_v3 tbl dec dimId svalue cubicy (top cx cz) cx cz (imageX + cx)) r1) r) rbuf
  | none =>
    (List.range 16).foldl (fun r cx =>
      (List.range 16).foldl (fun r1 cz =>
        (List.range 16).foldl
          (sliceStep_absent dimId cubicy (top cx cz) cz (imageX + cx)) r1) r) rbuf

/-- The counter `cubicFoundCount` after the `cubicy` loop. -/
def cubicFoundCount (dimId : Int) (db : List (List Byte × List Byte)) (chunkX chunkZ : Int) :
    Nat :=
  (List.range MAX_CUBIC_Y).countP
    (fun cubicy => (dbGet db (cubicKey dimId chunkX chunkZ cubicy)).isSome)

/-- The clearing of the area of a chunk that was not found at all: for every layer and row,
`memset(.., 0, 16 * 3)` from image column `imageX` on. -/
def sliceClear (imageX : Int) (rbuf : SliceBufs) : SliceBufs :=
  (List.range (MAX_BLOCK_HEIGHT + 1)).foldl (fun r cy =>
    (List.range 16).foldl (fun r1 cz =>
      (List.range 16).foldl (fun r2 (i : Nat) =>
        setPixel r2 cy cz (imageX + i) blackPixel) r1) r) rbuf

/-- The body of the `imageX` loop of `generateSlices` for the chunk `(chunkX, chunkZ)` drawn
from image column `imageX` on: the legacy record if the store has one, otherwise the 16 cubic
subchunks, then the clearing when none of them was found. `top cx cz` is the recorded top
height `currTopBlockY` the helper buffer `tbuf` holds for the column. -/
def generateSlices_chunk (tbl : BlockTable) (dec : ChunkDecoders) (dimId : Int)
    (db : List (List Byte × List Byte)) (chunkX chunkZ : Int) (top : Nat → Nat → Nat)
    (imageX : Int) (rbuf : SliceBufs) : SliceBufs :=
  match dbGet db (legacyKey dimId chunkX chunkZ) with
  | some ochunk => sliceChunk_v2 tbl dec dimId ochunk top imageX rbuf
  | none =>
    let r := (List.range MAX_CUBIC_Y).foldl
      (sliceSubchunk tbl dec dimId db chunkX chunkZ top imageX) rbuf
    if cubicFoundCount dimId db chunkX chunkZ ≤ 0 then sliceClear imageX r else r

/-! ### The slice pixels in closed form -/

/-- The pixel the legacy path stores for a block it does not repaint. -/
def legacyDirectPixel (tbl : BlockTable) (dec : ChunkDecoders) (ochunk : List Byte)
    (cx cz cy : Nat) : Pixel :=
  pixelOfColor (blockColor tbl (dec.getBlockId_LevelDB_v2 ochunk cx cz cy)
    (dec.getBlockData_LevelDB_v2 ochunk cx cz cy))

/-- The slice pixel of column `(cx, cz)` at height `cy` for a chunk found as a legacy record,
with `t` the recorded top height of the column: air above `t` outside the nether shows the
pixel of height `t`, heights above 127 show height 127. -/
def legacySlicePixel (tbl : BlockTable) (dec : ChunkDecoders) (dimId : Int)
    (ochunk : List Byte) (t cx cz cy : Nat) : Pixel :=
  let at127 := fun (y : Nat) =>
    if dec.getBlockId_LevelDB_v2 ochunk cx cz y = 0 ∧ y > t ∧ dimId ≠ kDimIdNether then
      legacyDirectPixel tbl dec ochunk cx cz t
    else legacyDirectPixel tbl dec ochunk cx cz y
  if cy ≤ 127 then at127 cy else at127 127

/-- The pixel the cubic path stores at height `cy` when it does not repaint: the colour of the
decoded block for a found subchunk, black for an absent one. -/
def cubicDirectPixel (tbl : BlockTable) (dec : ChunkDecoders) (dimId : Int)
    (db : List (List Byte × List Byte)) (chunkX chunkZ : Int) (cx cz cy : Nat) : Pixel :=
  match dbGet db (cubicKey dimId chunkX chunkZ (cy / 16)) with
  | some svalue =>
    pixelOfColor (sliceColor_v3 tbl (sliceBlockId_v3 dec svalue cx cz (cy % 16))
      (sliceBlockData_v3 dec svalue cx cz (cy % 16)))
  | none => blackPixel

/-- Whether the cubic path repaints height `cy` of a column with the pixel of the recorded
top height `t`: above `t`, outside the nether, for air or for an absent subchunk. -/
def cubicRepaints (dec : ChunkDecoders) (dimId : Int) (db : List (List Byte × List Byte))
    (chunkX chunkZ : Int) (t cx cz cy : Nat) : Bool :=
  decide (cy > t) && decide (dimId ≠ kDimIdNether) &&
    match dbGet db (cubicKey dimId chunkX chunkZ (cy / 16)) with
    | some svalue => decide (sliceBlockId_v3 dec svalue cx cz (cy % 16) = 0)
    | none => true

/-- The slice pixel of column `(cx, cz)` at height `cy` for a chunk without legacy record. -/
def cubicSlicePixel (tbl : BlockTable) (dec : ChunkDecoders) (dimId : Int)
    (db : List (List Byte × List Byte)) (chunkX chunkZ : Int) (t cx cz cy : Nat) : Pixel :=
  if cubicRepaints dec dimId db chunkX chunkZ t cx cz cy then
    cubicDirectPixel tbl dec dimId db chunkX chunkZ cx cz t
  else cubicDirectPixel tbl dec dimId db chunkX chunkZ cx cz cy

/-- The slice pixel of column `(cx, cz)` of a chunk at height `cy`, with `t` the recorded top
height of the column: from the legacy record if the store has one, from the cubic records
otherwise. -/
def slicePixel (tbl : BlockTable) (dec : ChunkDecoders) (dimId : Int)
    (db : List (List Byte × List Byte)) (chunkX chunkZ : Int) (t cx cz cy : Nat) : Pixel :=
  match dbGet db (legacyKey dimId chunkX chunkZ) with
  | some ochunk => legacySlicePixel tbl dec dimId ochunk t cx cz cy
  | none => cubicSlicePixel tbl dec dimId db chunkX chunkZ t cx cz cy

/-- The value `currTopBlockY` the helper buffer `tbuf` holds for column `(cx, cz)` of the chunk
`(chunkX, chunkZ)`: the byte `topBlockY[cx][cz]` of the chunk if the dimension has accumulated
it, `MAX_BLOCK_HEIGHT` otherwise. -/
def sliceTop (d : DimensionData_LevelDB) (chunkX chunkZ : Int) (cx cz : Nat) : Nat :=
  match chunks_find d.chunks chunkX chunkZ with
  | some it => it.topBlockY cx cz % 256
  | none => MAX_BLOCK_HEIGHT

/-- The `imageX` loop of `generateSlices` for band `kz` (image rows `16 * kz ..`, chunk row
`minChunkZ + kz`): the layers `rbuf` as they are handed to the encoders after the loop. -/
def generateSlices_band (tbl : BlockTable) (dec : ChunkDecoders) (d : DimensionData_LevelDB)
    (db : List (List Byte × List Byte)) (kz : Nat) (rbuf : SliceBufs) : SliceBufs :=
  (List.range (bandSteps (imageGeometry d).imageW)).foldl (fun r (kx : Nat) =>
    generateSlices_chunk tbl dec d.dimId db
      (wrapInt32 (d.minChunkX + kx)) (wrapInt32 (d.minChunkZ + kz))
      (sliceTop d (wrapInt32 (d.minChunkX + kx)) (wrapInt32 (d.minChunkZ + kz)))
      (16 * (kx : Int)) r) rbuf

/-- The block id and block data `generateSlices` decodes at height `y` of column `(cx, cz)`
of a chunk: from the legacy record up to height 127, from the record of subchunk `y / 16`
otherwise; `none` where the code decodes no block (a legacy chunk above 127, an absent
subchunk). -/
def sliceDecoded (dec : ChunkDecoders) (dimId : Int) (db : List (List Byte × List Byte))
    (chunkX chunkZ : Int) (cx cz y : Nat) : Option (Int × Int) :=
  match dbGet db (legacyKey dimId chunkX chunkZ) with
  | some ochunk =>
    if y ≤ MAX_BLOCK_HEIGHT_127 then
      some (dec.getBlockId_LevelDB_v2 ochunk cx cz y, dec.getBlockData_LevelDB_v2 ochunk cx cz y)
    else none
  | none =>
    match dbGet db (cubicKey dimId chunkX chunkZ (y / 16)) with
    | some svalue =>
      some (sliceBlockId_v3 dec svalue cx cz (y % 16), sliceBlockData_v3 dec svalue cx cz (y % 16))
    | none => none

/-! ### Concrete decoders, table and stores used in the evaluations -/

/-- Modelled from the spec: decoders with the per-block addressing of the spec, ids at byte
`(cx * 16 + cz) * 128 + cy` of a legacy buffer and at byte `1 + (cx * 16 + cz) * 16 + cy` of
a cubic buffer, block data 0 everywhere, and a transcoder that widens each byte. -/
def decBytes : ChunkDecoders :=
  { getBlockId_LevelDB_v2 := fun ochunk cx cz cy =>
      ((byteAt ochunk ((cx * 16 + cz) * 128 + cy)).val : Int)
    getBlockData_LevelDB_v2 := fun _ _ _ _ => 0
    getBlockId_LevelDB_v3 := fun svalue cx cz cy =>
      ((byteAt svalue (1 + (cx * 16 + cz) * 16 + cy)).val : Int)
    getBlockData_LevelDB_v3 := fun _ _ _ _ _ => 0
    getBlockData_LevelDB_v3__fake_v7 := fun _ _ _ _ _ => 0
    convertChunkV7toV3 := fun svalue i => ((byteAt svalue i).val : Int) }

/-- A block table for the evaluations: the ids 0 .. 1023 are known, none has variants, and
the three stored colour bytes of an id are the id itself in the first two of them. -/
def tblPlain : BlockTable :=
  { get := fun id =>
      if 0 ≤ id ∧ id < 1024 then
        some { id := id, name := "", color := id * 256, hasVariants := false,
               getVariantByBlockData := fun _ => none }
      else none
    kColorDefault := 0xf010d0 }

/-- A store with the single legacy record of the overworld chunk (0, 0): the first column has
non-air blocks (id 1) at the heights 0 .. 10 and air above. -/
def dbColumn10 : List (List Byte × List Byte) :=
  [([0, 0, 0, 0, 0, 0, 0, 0, 0x30], List.replicate 11 1)]

/-- The same record stored for the nether chunk (0, 0). -/
def dbColumn10Nether : List (List Byte × List Byte) :=
  [([0, 0, 0, 0, 0, 0, 0, 0, 1, 0, 0, 0, 0x30], List.replicate 11 1)]

/-- A store with only subchunk 1 of the overworld chunk (0, 0), in the byte format, where
every block is air. -/
def dbAirSubchunk : List (List Byte × List Byte) :=
  [([0, 0, 0, 0, 0, 0, 0, 0, 0x2f, 1], [0])]

/-! ## `DimensionData_LevelDB::findChunk` and `generateBlockList` -/

/-- The conversion of a value to `uint16_t`. -/
def toUnsigned16 (x : Int) : Nat := (x % 65536).toNat

/-- Modelled from the spec: the options of `control` that `generateBlockList` reads, the
world-coordinate clip box (32-bit values, `0x8FFFFFFF` for a limit that is not set), the
block-name filter, the max-listed-block count and the rare-block threshold. The class is
declared outside the two source files. -/
structure Control where
  minX : Int
  maxX : Int
  minY : Int
  maxY : Int
  minZ : Int
  maxZ : Int
  blockFilter : String
  blockListMax : Nat
  blockListRare : Nat

/-- The test `control.minX != 0x8FFFFFFF` on a 32-bit option: the literal is unsigned, so the
option is converted to unsigned for the comparison. -/
def limitIsSet (v : Int) : Bool := decide (toUnsigned32 v ≠ 0x8FFFFFFF)

/-- The six limits computed at the head of `generateBlockList`. -/
structure BlockListLimits where
  limMinX : Int
  limMaxX : Int
  limMinZ : Int
  limMaxZ : Int
  limMinY : Int
  limMaxY : Int
  deriving DecidableEq, Repr

/-- The head of `generateBlockList`: each limit starts from the chunk bounds (or from 0 and
255 for the height) and is replaced by the option when the option is set and passes the test
of its axis. The division `/16` is the truncating division of C++. -/
def blockListLimits (d : DimensionData_LevelDB) (control : Control) : BlockListLimits :=
  { limMinX :=
      if limitIsSet control.minX then
        if Int.tdiv control.minX 16 > d.minChunkX then control.minX
        else wrapInt32 (d.minChunkX * 16)
      else wrapInt32 (d.minChunkX * 16)
    limMaxX :=
      if limitIsSet control.maxX then
        if Int.tdiv control.maxX 16 < d.maxChunkX then control.maxX
        else wrapInt32 (d.maxChunkX * 16)
      else wrapInt32 (d.maxChunkX * 16)
    limMinZ :=
      if limitIsSet control.minZ then
        if Int.tdiv control.minZ 16 > d.minChunkZ then control.minZ
        else wrapInt32 (d.minChunkZ * 16)
      else wrapInt32 (d.minChunkZ * 16)
    limMaxZ :=
      if limitIsSet control.maxZ then
        if Int.tdiv control.maxZ 16 < d.maxChunkZ then control.maxZ
        else wrapInt32 (d.maxChunkZ * 16)
      else wrapInt32 (d.maxChunkZ * 16)
    limMinY :=
      if limitIsSet control.minY then
        if control.minY > 0 then control.minY else 0
      else 0
    limMaxY :=
      if limitIsSet control.maxY then
        if control.maxY < 255 then control.maxY else 255
      else 255 }

/-- The bounding-box test of the block loop. -/
def inLimits (lim : BlockListLimits) (x y z : Int) : Bool :=
  decide (x ≥ lim.limMinX) && decide (x ≤ lim.limMaxX) && decide (z ≥ lim.limMinZ) &&
    decide (z ≤ lim.limMaxZ) && decide (y ≥ lim.limMinY) && decide (y ≤ lim.limMaxY)

/-- The function `findChunk`: the key of the cubic record of the subchunk that holds the
block `(x, y, z)` (`y` is a `uint8_t`), and, when the store has the record, the buffer
`emuchunk` that `convertChunkV7toV3` fills from it, given by its 16-bit words. No other key is
tried and the converter is applied whatever byte 0 of the record is. -/
def findChunk (dec : ChunkDecoders) (db : List (List Byte × List Byte)) (dimId : Int)
    (x : Int) (y : Nat) (z : Int) : Option (Nat → Int) :=
  (dbGet db (cubicKey dimId (Int.tdiv x 16) (Int.tdiv z 16) (y % 256 / 16))).map
    (fun svalue => dec.convertChunkV7toV3 svalue)

/-- The entry `{x, y, z}` of a rare-block list. -/
structure Coords where
  x : Int
  y : Int
  z : Int
  deriving DecidableEq, Repr

/-- The variables `generateBlockList` updates while it scans: the lines written to the point
cloud `fd` (coordinates and the three colour bytes), the lines written to the block log `ld`
(id, name, coordinates), `blockListCnt`, the histogram `blockCnt`, the rare lists
`blockLists`, and the two chunk counters. `counted` is a history variable that the code does
not have: it records, in order, each execution of `blockCnt[blockid] += 1` with the id and the
coordinates of the block. -/
structure BlockListState where
  fd : List (Coords × Pixel)
  ld : List (Nat × String × Coords)
  blockListCnt : Nat
  blockCnt : Nat → Nat
  blockLists : Nat → List Coords
  worldChunksFound : Nat
  emptyMatchChunks : Nat
  counted : List (Nat × Coords)

/-- The state before the scan: empty outputs, `blockCnt[1024] = {}`, empty lists. -/
def blockListInit : BlockListState :=
  { fd := [], ld := [], blockListCnt := 0, blockCnt := fun _ => 0, blockLists := fun _ => [],
    worldChunksFound := 0, emptyMatchChunks := 0, counted := [] }

/-- The part of the block loop body guarded by the name filter: the point-cloud line for a
block that is not air, then the block-log line while fewer than `blockListMax` were written. -/
def blockListEmit (control : Control) (block : BlockInfo) (v : Coords) (blockid : Nat)
    (st : BlockListState) : BlockListState :=
  let st1 := if blockid ≠ 0 then { st with fd := st.fd ++ [(v, pixelOfColor block.color)] }
    else st
  if st1.blockListCnt < control.blockListMax then
    { st1 with blockListCnt := st1.blockListCnt + 1,
               ld := st1.ld ++ [(blockid, block.name, v)] }
  else st1

/-- The end of the block loop body: `blockCnt[blockid] += 1` on the 64-bit counter, then the
push to the rare list while the counter is at or below `blockListRare`. -/
def blockListCount (control : Control) (v : Coords) (blockid : Nat) (st : BlockListState) :
    BlockListState :=
  let cnt := (st.blockCnt blockid + 1) % 2^64
  let st1 := { st with blockCnt := Function.update st.blockCnt blockid cnt,
                       counted := st.counted ++ [(blockid, v)] }
  if cnt ≤ control.blockListRare then
    { st1 with blockLists :=
        Function.update st1.blockLists blockid (st1.blockLists blockid ++ [v]) }
  else st1

/-- The body of the block loop of `generateBlockList` for the block at `v` whose id word read
from the chunk is `blockid` (a `uint16_t`) and whose comparison id is `emptyId`. -/
def blockListStep (tbl : BlockTable) (control : Control) (lim : BlockListLimits) (v : Coords)
    (blockid emptyId : Nat) (st : BlockListState) : BlockListState :=
  if inLimits lim v.x v.y v.z then
    if blockid < 1024 then
      match tbl.get blockid with
      | none => st
      | some block =>
        if emptyId = blockid then st
        else
          let st1 :=
            if control.blockFilter = "<all>" ∨ block.name = control.blockFilter then
              blockListEmit control block v blockid st
            else st
          blockListCount control v blockid st1
    else st
  else st

/-- The id `uint16_t blockid = *(chunkPtr++)` read at the position `(cx, cz, cy)` of the
loops, `chunkPtr` starting at `&firstBlockId[1]`. -/
def blockListBlockId (firstBlockId : Nat → Int) (cx cz cy : Nat) : Nat :=
  toUnsigned16 (firstBlockId (1 + ((cx * 16 + cz) * 16 + cy)))

/-- The comparison id of the block loop: `blockid + 1` stored to a `uint16_t`, replaced by the
word of the comparison chunk at the same position when there is one. -/
def blockListEmptyId (emptyBlockId : Option (Nat → Int)) (blockid cx cz cy : Nat) : Nat :=
  match emptyBlockId with
  | some e => toUnsigned16 (e (1 + ((cx * 16 + cz) * 16 + cy)))
  | none => (blockid + 1) % 65536

/-- The coordinates `x`, `y`, `z` the block loop computes for the position `(cx, cz, cy)` of
the subchunk `cubicy` drawn at `(imageX, imageZ)`, in 32-bit arithmetic. -/
def blockListCoords (d : DimensionData_LevelDB) (imageX imageZ : Int) (cubicy cx cz cy : Nat) :
    Coords :=
  { x := wrapInt32 (16 * d.minChunkX + imageX + cx)
    y := 16 * (cubicy : Int) + cy
    z := wrapInt32 (16 * d.minChunkZ + imageZ + cz) }

/-- The three loops `cx`, `cz`, `cy` over a found subchunk. -/
def blockListChunk (tbl : BlockTable) (control : Control) (lim : BlockListLimits)
    (d : DimensionData_LevelDB) (imageX imageZ : Int) (cubicy : Nat)
    (firstBlockId : Nat → Int) (emptyBlockId : Option (Nat → Int)) (st : BlockListState) :
    BlockListState :=
  (List.range 16).foldl (fun s (cx : Nat) =>
    (List.range 16).foldl (fun s1 (cz : Nat) =>
      (List.range 16).foldl (fun s2 (cy : Nat) =>
        blockListStep tbl control lim (blockListCoords d imageX imageZ cubicy cx cz cy)
          (blockListBlockId firstBlockId cx cz cy)
          (blockListEmptyId emptyBlockId (blockListBlockId firstBlockId cx cz cy) cx cz cy)
          s2) s1) s) st

/-- The body of the `imageX` loop of `generateBlockList` for the subchunk `cubicy` at
`(imageX, imageZ)`; `emptyDb` is the comparison store when one was given. -/
def blockListSubchunk (tbl : BlockTable) (dec : ChunkDecoders) (control : Control)
    (lim : BlockListLimits) (d : DimensionData_LevelDB) (db : List (List Byte × List Byte))
    (emptyDb : Option (List (List Byte × List Byte))) (cubicy : Nat) (imageX imageZ : Int)
    (st : BlockListState) : BlockListState :=
  match findChunk dec db d.dimId (wrapInt32 (16 * d.minChunkX + imageX)) (16 * cubicy)
      (wrapInt32 (16 * d.minChunkZ + imageZ)) with
  | none => st
  | some firstBlockId =>
    let st1 := { st with worldChunksFound := (st.worldChunksFound + 1) % 2^32 }
    match emptyDb with
    | none => blockListChunk tbl control lim d imageX imageZ cubicy firstBlockId none st1
    | some edb =>
      match findChunk dec edb d.dimId (wrapInt32 (16 * d.minChunkX + imageX)) (16 * cubicy)
          (wrapInt32 (16 * d.minChunkZ + imageZ)) with
      | none => st1
      | some emptyBlockId =>
        blockListChunk tbl control lim d imageX imageZ cubicy firstBlockId (some emptyBlockId)
          { st1 with emptyMatchChunks := (st1.emptyMatchChunks + 1) % 2^32 }

/-- The scan of `generateBlockList`: the loops over `cubicy`, `imageZ` and `imageX`. -/
def generateBlockList_scan (tbl : BlockTable) (dec : ChunkDecoders) (control : Control)
    (d : DimensionData_LevelDB) (db : List (List Byte × List Byte))
    (emptyDb : Option (List (List Byte × List Byte))) : BlockListState :=
  (List.range MAX_CUBIC_Y).foldl (fun s (cubicy : Nat) =>
    (List.range (bandSteps (imageGeometry d).imageH)).foldl (fun s1 (kz : Nat) =>
      (List.range (bandSteps (imageGeometry d).imageW)).foldl (fun s2 (kx : Nat) =>
        blockListSubchunk tbl dec control (blockListLimits d control) d db emptyDb cubicy
          (16 * (kx : Int)) (16 * (kz : Int)) s2) s1) s) blockListInit

/-- The contract of `std::sort(arrIdx, arrIdx + 1024, compareForSort)` on the array
`0, 1, .., 1023`: the result holds the same values, and no element compares less (has a
smaller count) than one before it. -/
def IsSortedIdx (blockCnt : Nat → Nat) (arrIdx : List Nat) : Prop :=
  arrIdx.Perm (List.range 1024) ∧ arrIdx.Pairwise (fun i1 i2 => ¬ blockCnt i2 < blockCnt i1)

/-- The rare-block report: for each index of the sorted array whose count is at or below
`blockListRare`, one line per entry of its list. -/
def rareReport (control : Control) (st : BlockListState) (arrIdx : List Nat) :
    List (Nat × Coords) :=
  arrIdx.foldl (fun out idx =>
    if st.blockCnt idx ≤ control.blockListRare then
      out ++ (st.blockLists idx).map (fun v => (idx, v))
    else out) []

/-- The legend: for each index of the sorted array whose count is not zero, one line with
the index and the count. -/
def legend (st : BlockListState) (arrIdx : List Nat) : List (Nat × Nat) :=
  arrIdx.foldl (fun out idx =>
    if st.blockCnt idx > 0 then out ++ [(idx, st.blockCnt idx)] else out) []

/-- The block id `generateBlockList` reads at height `y` of column `(cx, cz)` of the chunk
`(chunkX, chunkZ)`: the word of the buffer `findChunk` returns for the position, `none` when
`findChunk` returns no buffer. -/
def blockListDecoded (dec : ChunkDecoders) (dimId : Int) (db : List (List Byte × List Byte))
    (chunkX chunkZ : Int) (cx cz y : Nat) : Option Nat :=
  (findChunk dec db dimId (16 * chunkX) (16 * (y / 16)) (16 * chunkZ)).map
    (fun firstBlockId => blockListBlockId firstBlockId cx cz (y % 16))

/-- A dimension with the single chunk column (0, 0) .. (0, 0) as bounds. -/
def dimOneChunk : DimensionData_LevelDB :=
  { newDimensionData 0 "overworld" with
    minChunkX := 0, maxChunkX := 0, minChunkZ := 0, maxChunkZ := 0 }

/-- A dimension with the two chunk columns (0, 0) and (1, 0) as bounds. -/
def dimTwoChunks : DimensionData_LevelDB :=
  { newDimensionData 0 "overworld" with
    minChunkX := 0, maxChunkX := 1, minChunkZ := 0, maxChunkZ := 0 }

/-- Options without any limit, filter `<all>`. -/
def controlNoLimits : Control :=
  { minX := -1879048193, maxX := -1879048193, minY := -1879048193, maxY := -1879048193,
    minZ := -1879048193, maxZ := -1879048193, blockFilter := "<all>", blockListMax := 0,
    blockListRare := 0 }

/-- Options whose only limit is `minX = 5`. -/
def controlMinX5 : Control := { controlNoLimits with minX := 5 }

/-- The counted blocks with id `id`, in the order they were counted. -/
def countedOf (st : BlockListState) (id : Nat) : List (Nat × Coords) :=
  st.counted.filter (fun e => decide (e.1 = id))

/-- The relation the scan keeps between the histogram, the rare lists and the counted blocks,
as long as fewer than 2^64 blocks were counted (the counters are 64-bit): the counter of an id
is the number of its counted blocks, and its rare list holds the coordinates of the first
`blockListRare` of them. -/
def BlockListInv (control : Control) (st : BlockListState) : Prop :=
  st.counted.length < 2^64 →
    ∀ id, st.blockCnt id = (countedOf st id).length ∧
      st.blockLists id = ((countedOf st id).map (fun e => e.2)).take control.blockListRare

/-- A state for the evaluations: the histogram holds 3 for id 7, 3 for id 9 and 1 for id 4. -/
def stateThreeIds : BlockListState :=
  { blockListInit with
    blockCnt := fun i => if i = 7 then 3 else if i = 9 then 3 else if i = 4 then 1 else 0 }

/-- Options without limits that keep the rare lists of ids counted at most 100 times. -/
def controlRare100 : Control := { controlNoLimits with blockListRare := 100 }

/-- One result `std::sort` may give for the histogram `blockCnt`: the insertion sort of
`0, 1, .., 1023` by count. -/
def sortIdx (blockCnt : Nat → Nat) : List Nat :=
  (List.range 1024).insertionSort (fun a b => blockCnt a ≤ blockCnt b)

/-! ## `generateImage`: the colour of a column -/

/-- The function `vectorContains` of `dimension_data.cc`. -/
def vectorContains : List Int → Int → Bool
  | [], _ => false
  | iter :: v, i => if iter = i then true else vectorContains v i

/-- The method `checkDoForDim`: whether `std::find` meets `dimId` in the vector. -/
def checkDoForDim (dimId : Int) (v : List Int) : Bool :=
  match v.find? (fun e => decide (e = dimId)) with
  | some _ => true
  | none => false

/-- The end of the body of the lut loop of `generateImage`, on the value `v` of the `double`:
the clamp to 235, the clamp to 0 and the conversion `uint8_t(v)`, which drops the fraction. -/
def lutEntry (v : ℚ) : Nat :=
  let v1 := if v > 235 then 235 else v
  let v2 := if v1 < 0 then 0 else v1
  (Rat.floor v2).toNat

/-- The value `v` of the lut loop for the height `i`, `((ti * ti) / vmax) * 255.0` with
`ti = ((MAX_BLOCK_HEIGHT + 1) + 32) - i` and `vmax = MAX_BLOCK_HEIGHT * MAX_BLOCK_HEIGHT`. The
code computes it in `double`; `ti`, `ti * ti` and `vmax` are integers below 2^53, which a
`double` holds exactly, and the quotient and the product are written here as exact rationals
(`lutEntry_stable` covers the rounding of the two operations). -/
def lutValue (i : Nat) : ℚ :=
  let vmax : ℚ := (MAX_BLOCK_HEIGHT : ℚ) * (MAX_BLOCK_HEIGHT : ℚ)
  let ti : ℚ := ((((MAX_BLOCK_HEIGHT : Int) + 1) + 32 - (i : Int) : Int) : ℚ)
  ((ti * ti) / vmax) * 255

/-- The entry `lut[i]` that the lut loop of `generateImage` stores for `i <= MAX_BLOCK_HEIGHT`. -/
def generateImage_lut (i : Nat) : Nat := lutEntry (lutValue i)

/-- The lookup-table entry as the specification states it, `((H + 32 - y)^2 / H^2) * 255`
clamped to `[0, 235]` and truncated, with `H = MAX_BLOCK_HEIGHT`. -/
def lutOfSpec (y : Nat) : Nat :=
  lutEntry ((((((MAX_BLOCK_HEIGHT : Int) + 32 - (y : Int) : Int) : ℚ)) ^ 2
    / ((MAX_BLOCK_HEIGHT : ℚ)) ^ 2) * 255)

/-- What `generateImage` takes from outside the two source files besides the block table:
`Biome::get(biomeId)->color()` (`none` for an unknown biome), and `get_palette().value[c]`, the
height palette, which `Palette()` builds once with floating-point HSL arithmetic. -/
structure ImageTables where
  biomeColor : Int → Option Int
  palette : Nat → Int

/-- The value `(c << 24) | (c << 16) | (c << 8)` stored to the `int32_t color`, for a byte `c`
(the three shifted copies share no bit). -/
def grayColor (c : Nat) : Int :=
  wrapInt32 ((c % 256 : Nat) * 16777216 + (c % 256 : Nat) * 65536 + (c % 256 : Nat) * 256)

/-- The height sample `c` of the height modes: `it->topBlockY[cx][cz]` when
`control.heightMode == kHeightModeTop`, `it->heightCol[cx][cz]` otherwise, as `uint8_t`. -/
def heightSample (heightModeTop : Bool) (it : ChunkData_LevelDB) (cx cz : Nat) : Nat :=
  if heightModeTop then it.topBlockY cx cz % 256 else it.heightCol cx cz % 256

/-- The mode-specific colour of column `(cx, cz)` of the chunk `it`: the chain of `if
(imageMode == ..)` of `generateImage`, whose last branch is the terrain image. The unsigned
results of `local_htobe32` are stored to the `int32_t color` and wrap there. -/
def generateImage_modeColor (tbl : BlockTable) (img : ImageTables) (heightModeTop : Bool)
    (imageMode : ImageModeType) (it : ChunkData_LevelDB) (cx cz : Nat) : Int :=
  if imageMode = ImageModeType.kImageModeBiome then
    match img.biomeColor (Int.land (it.grassAndBiome cx cz) 0xff) with
    | some c => c
    | none => wrapInt32 (local_htobe32 0xff2020)
  else if imageMode = ImageModeType.kImageModeGrass then
    wrapInt32 (local_htobe32 (it.grassAndBiome cx cz >>> (8 : Nat)))
  else if imageMode = ImageModeType.kImageModeHeightCol then
    img.palette (heightSample heightModeTop it cx cz)
  else if imageMode = ImageModeType.kImageModeHeightColGrayscale then
    grayColor (heightSample heightModeTop it cx cz)
  else if imageMode = ImageModeType.kImageModeHeightColAlpha then
    wrapInt32 ((generateImage_lut (heightSample heightModeTop it cx cz) % 256 : Nat) * 16777216)
  else if imageMode = ImageModeType.kImageModeBlockLight then
    grayColor ((it.topLight cx cz % 16) * 16)
  else if imageMode = ImageModeType.kImageModeSkyLight then
    grayColor (it.topLight cx cz % 256 / 16 * 16)
  else
    match tbl.get (it.blocks cx cz) with
    | some block =>
      if block.hasVariants then
        match block.getVariantByBlockData (it.data cx cz) with
        | some variantColor => variantColor
        | none => block.color
      else block.color
    | none => tbl.kColorDefault

/-- The statement under `// do grid lines`: the colour after the overlay, from the
mode-specific colour `color`. `doGrid` is `control.doGrid`. The two fixed colours are the
unsigned results of `local_htobe32` stored to the `int32_t color`: `0x3333eb00` for the origin
and `0xc4ffc100`, which wraps to `-989871872`, for the grid. -/
def generateImage_gridColor (doGrid : List Int) (dimId : Int) (chunkX chunkZ : Int)
    (cx cz : Nat) (color : Int) : Int :=
  if checkDoForDim dimId doGrid = true ∧ (cx = 0 ∨ cz = 0) then
    if chunkX = 0 ∧ chunkZ = 0 ∧ cx = 0 ∧ cz = 0 then wrapInt32 (local_htobe32 0xeb3333)
    else wrapInt32 (local_htobe32 0xc1ffc4)
  else color

/-- The colour `generateImage` copies to the band buffer for column `(cx, cz)` of `it`. -/
def generateImage_columnColor (tbl : BlockTable) (img : ImageTables) (heightModeTop : Bool)
    (doGrid : List Int) (d : DimensionData_LevelDB) (imageMode : ImageModeType)
    (it : ChunkData_LevelDB) (cx cz : Nat) : Int :=
  generateImage_gridColor doGrid d.dimId it.chunkX it.chunkZ cx cz
    (generateImage_modeColor tbl img heightModeTop imageMode it cx cz)

/-- The overlay as the specification states it: with the grid enabled for the dimension, the
column at local (0, 0) of a chunk takes the origin colour in chunk (0, 0) of the overworld and
the grid colour in every other chunk; every other column keeps its colour. -/
def gridColorOfSpec (doGrid : List Int) (dimId : Int) (chunkX chunkZ : Int)
    (cx cz : Nat) (color : Int) : Int :=
  if checkDoForDim dimId doGrid = true then
    if cx = 0 ∧ cz = 0 then
      if chunkX = 0 ∧ chunkZ = 0 ∧ dimId = kDimIdOverworld then
        wrapInt32 (local_htobe32 0xeb3333)
      else wrapInt32 (local_htobe32 0xc1ffc4)
    else color
  else color

/-! ## `updateFastLists` -/

/-- The three block-id vectors of a dimension. -/
structure BlockIdLists where
  blockHideList : List Int
  blockForceTopList : List Int
  blockToGeoJSONList : List Int

/-- The three boolean arrays of 1024 entries, by index. -/
structure FastLists where
  fastBlockHideList : Nat → Bool
  fastBlockForceTopList : Nat → Bool
  fastBlockToGeoJSONList : Nat → Bool

/-- The method `updateFastLists`: the loop over `bid = 0 .. 1023`. -/
def updateFastLists (l : BlockIdLists) (f : FastLists) : FastLists :=
  (List.range 1024).foldl (fun (f : FastLists) (bid : Nat) =>
    { fastBlockHideList :=
        Function.update f.fastBlockHideList bid (vectorContains l.blockHideList bid)
      fastBlockForceTopList :=
        Function.update f.fastBlockForceTopList bid (vectorContains l.blockForceTopList bid)
      fastBlockToGeoJSONList :=
        Function.update f.fastBlockToGeoJSONList bid
          (vectorContains l.blockToGeoJSONList bid) }) f

/-- The entries of a block-id vector that lie in `[0, 1024)`. -/
def inRangeIds (v : List Int) : List Int := v.filter (fun i => decide (0 ≤ i ∧ i < 1024))

/-- The three vectors without their entries outside `[0, 1024)`. -/
def inRangeLists (l : BlockIdLists) : BlockIdLists :=
  { blockHideList := inRangeIds l.blockHideList
    blockForceTopList := inRangeIds l.blockForceTopList
    blockToGeoJSONList := inRangeIds l.blockToGeoJSONList }

/-- Vectors for the evaluations: the hide list holds 7, 2000 and -1. -/
def listsHide7 : BlockIdLists :=
  { blockHideList := [7, 2000, -1], blockForceTopList := [], blockToGeoJSONList := [3] }

/-- Arrays for the evaluations, as they might be before the update. -/
def fastListsBefore : FastLists :=
  { fastBlockHideList := fun _ => false, fastBlockForceTopList := fun _ => true,
    fastBlockToGeoJSONList := fun _ => false }

/-- Tables for the evaluations: no biome is known and the palette is black. -/
def imgNone : ImageTables := { biomeColor := fun _ => none, palette := fun _ => 0 }

/-! ## `MinecraftWorld_LevelDB::parseLevelFile`, `init` and `dbOpen` -/

/-- What `fopen` and the three `fread` calls of `parseLevelFile` deliver for an opened
`level.dat`: the two header words and the payload. -/
structure LevelFile where
  fVersion : Int
  bufLen : Int
  buf : List Byte

/-- The values `parseLevelFile` takes from the first compound of the decoded tag list:
`SpawnX`, `SpawnY`, `SpawnZ` and `RandomSeed`. -/
structure LevelTags where
  SpawnX : Int
  SpawnY : Int
  SpawnZ : Int
  RandomSeed : Int

/-- Modelled from the spec: the members of `MinecraftWorld_LevelDB` (declared in a header that
is not among the sources) that `parseLevelFile` and `init` write: the world name, the spawn
point, the seed, and the list of dimensions. -/
structure MinecraftWorld_LevelDB where
  worldName : String
  worldSpawnX : Int
  worldSpawnY : Int
  worldSpawnZ : Int
  worldSeed : Int
  dimDataList : List DimensionData_LevelDB

/-- What `init` takes from outside the two source files besides `parseNbt`: the tags decoded
from the payload of `level.dat`, and `parseLevelName` (a method of another file), given by its
return code and the world name it leaves, from the name before the call. -/
structure LevelEnv where
  levelTags : List Byte → LevelTags
  parseLevelName : String → Int × String

/-- The method `parseLevelFile`; `file` is `none` when `fopen` fails. The result is the return
code and the world afterwards. -/
def parseLevelFile (env : Env) (lenv : LevelEnv) (file : Option LevelFile)
    (w : MinecraftWorld_LevelDB) : Int × MinecraftWorld_LevelDB :=
  match file with
  | none => (-1, w)
  | some f =>
    if f.bufLen > 0 then
      let ret := env.parseNbt f.buf
      if ret = 0 then
        (ret, { w with worldSpawnX := (lenv.levelTags f.buf).SpawnX,
                       worldSpawnY := (lenv.levelTags f.buf).SpawnY,
                       worldSpawnZ := (lenv.levelTags f.buf).SpawnZ,
                       worldSeed := (lenv.levelTags f.buf).RandomSeed })
      else (ret, w)
    else (-2, w)

/-- Modelled from the spec: `setWorldInfo` (declared in a header that is not among the
sources) stores the world name, the spawn point and the seed in the dimension. -/
def DimensionData_LevelDB.setWorldInfo (d : DimensionData_LevelDB) (worldName : String)
    (worldSpawnX worldSpawnZ worldSeed : Int) : DimensionData_LevelDB :=
  { d with worldName := worldName, worldSpawnX := worldSpawnX, worldSpawnZ := worldSpawnZ,
           worldSeed := worldSeed }

/-- The method `init`: the return code and the world afterwards. -/
def MinecraftWorld_LevelDB.init (env : Env) (lenv : LevelEnv) (file : Option LevelFile)
    (w : MinecraftWorld_LevelDB) : Int × MinecraftWorld_LevelDB :=
  let r := parseLevelFile env lenv file w
  if r.1 ≠ 0 then (-1, r.2)
  else
    let w1 := { r.2 with worldName := (lenv.parseLevelName r.2.worldName).2 }
    (0, { w1 with dimDataList :=
      (List.range kDimIdCount).foldl (fun l (i : Nat) =>
        modifyAt (fun d => d.setWorldInfo w1.worldName w1.worldSpawnX w1.worldSpawnZ
          w1.worldSeed) l i) w1.dimDataList })

/-- How a call ends: with a return value, or in `exit(code)`. -/
inductive CallEnd
  | returned (ret : Int)
  | exited (code : Int)
  deriving DecidableEq, Repr

/-- The method `dbOpen`, from the status of `leveldb::DB::Open`, the option
`control.tryDbRepair` and the status of `leveldb::RepairDB` (asked for only after a failed
open with the option set). A repaired store is not opened again. -/
def dbOpen (openOk tryDbRepair repairOk : Bool) : CallEnd :=
  if !openOk then
    if tryDbRepair then
      if repairOk then .returned 0
      else .exited (-2)
    else .returned 0
  else .returned 0

/-- A world as the constructor leaves it. -/
def newWorld : MinecraftWorld_LevelDB :=
  { worldName := "", worldSpawnX := 0, worldSpawnY := 0, worldSpawnZ := 0, worldSeed := 0,
    dimDataList := newDimDataList }

/-- A decoder environment for the evaluations: spawn (8, 64, -8), seed 42, and a
`levelname.txt` that cannot be read. -/
def lenvDemo : LevelEnv :=
  { levelTags := fun _ => { SpawnX := 8, SpawnY := 64, SpawnZ := -8, RandomSeed := 42 }
    parseLevelName := fun name => (-1, name) }

/-- A `level.dat` with a payload of three bytes. -/
def levelFileDemo : LevelFile := { fVersion := 8, bufLen := 3, buf := [10, 0, 0] }

/-! ## The encoders of the raster passes -/

/-- What the embedding keeps of a `PngWriter`: the size it was initialised with, the number of
rows written to it, the `chunkZ` of each band written (16 rows each), and, once it is closed,
the number of rows it had been given. -/
structure PngWriter where
  size : Option (Int × Int)
  rows : Nat
  bands : List Int
  closedAfter : Option Nat

/-- An encoder right after `init` with the size `imageW` x `imageH`. -/
def PngWriter.init (imageW imageH : Int) : PngWriter :=
  { size := some (imageW, imageH), rows := 0, bands := [], closedAfter := none }

/-- The call that writes the 16 rows of the band of `chunkZ`. -/
def PngWriter.writeRows (p : PngWriter) (chunkZ : Int) : PngWriter :=
  { p with rows := p.rows + 16, bands := p.bands ++ [chunkZ] }

/-- The call that closes the encoder. -/
def PngWriter.close (p : PngWriter) : PngWriter :=
  { p with closedAfter := some p.rows }

/-- The calls `generateImage` makes on its encoder: `outputPNG_init` (whose status is
`initOk`), one `outputPNG_writeRows(png, rows, 16)` per iteration of the `iz` loop, and
`outputPNG_close`. The result is the return code and the encoder. -/
def generateImage_encoder (d : DimensionData_LevelDB) (initOk : Bool) : Int × PngWriter :=
  let g := imageGeometry d
  if initOk = false then (-1, PngWriter.init g.imageW g.imageH)
  else
    (0, PngWriter.close ((List.range (bandSteps g.imageH)).foldl (fun p (kz : Nat) =>
      PngWriter.writeRows p (wrapInt32 (d.minChunkZ + kz))) (PngWriter.init g.imageW g.imageH)))

/-- The loop that initialises `png[cy]` for the heights of the list, with the `return -1` at
the first `init` that fails (`initOk cy` is its status): whether all succeeded, and the
encoders. -/
def slicesInitLoop (imageW imageH : Int) (initOk : Nat → Bool) :
    List Nat → (Nat → Option PngWriter) → Bool × (Nat → Option PngWriter)
  | [], png => (true, png)
  | cy :: rest, png =>
    if initOk cy = false then
      (false, Function.update png cy (some (PngWriter.init imageW imageH)))
    else
      slicesInitLoop imageW imageH initOk rest
        (Function.update png cy (some (PngWriter.init imageW imageH)))

/-- The calls `generateSlices` makes on its encoders `png[0 .. MAX_BLOCK_HEIGHT]`: the
initialisation loop, `png_write_rows(.., 16)` on every encoder at the end of each iteration of
the `imageZ` loop, and `close` on every encoder at the end. The result is the return code and
the encoders (`none` for one that was never initialised). -/
def generateSlices_encoders (d : DimensionData_LevelDB) (initOk : Nat → Bool) :
    Int × (Nat → Option PngWriter) :=
  let g := imageGeometry d
  let r := slicesInitLoop g.imageW g.imageH initOk (List.range (MAX_BLOCK_HEIGHT + 1))
    (fun _ => none)
  if r.1 = false then (-1, r.2)
  else
    let written := (List.range (bandSteps g.imageH)).foldl (fun png (kz : Nat) =>
      (List.range (MAX_BLOCK_HEIGHT + 1)).foldl (fun png1 (cy : Nat) =>
        Function.update png1 cy
          ((png1 cy).map (fun p => PngWriter.writeRows p (wrapInt32 (d.minChunkZ + kz)))))
        png) r.2
    (0, (List.range (MAX_BLOCK_HEIGHT + 1)).foldl (fun png (cy : Nat) =>
      Function.update png cy ((png cy).map PngWriter.close)) written)

/-! ## The buffers of the raster passes -/

/-- The conversion `(size_t)x` of a 32-bit value. -/
def toSizeT (x : Int) : Nat := (x % 2^64).toNat

/-- The sizes in bytes of the buffers `generateSlices` allocates with `new`: `emuchunk`
(`NUM_BYTES_CHUNK_V3` 16-bit words), the band buffers `rbuf[0 .. MAX_BLOCK_HEIGHT]`
(`(imageW * 3) * 16` bytes each, a 32-bit product), and the helper buffer `tbuf`
(`(size_t)imageW * (size_t)imageH` bytes). -/
structure SliceBuffers where
  emuchunk : Nat
  rbuf : List Int
  tbuf : Nat
  deriving DecidableEq, Repr

/-- The buffers of `generateSlices`. -/
def generateSlices_buffers (d : DimensionData_LevelDB) : SliceBuffers :=
  let g := imageGeometry d
  { emuchunk := 2 * NUM_BYTES_CHUNK_V3
    rbuf := (List.range (MAX_BLOCK_HEIGHT + 1)).map
      (fun _ => wrapInt32 (wrapInt32 (g.imageW * 3) * 16))
    tbuf := (toSizeT g.imageW * toSizeT g.imageH) % 2^64 }

/-- The buffers `generateImage` allocates with `new`: the one band buffer `buf`. -/
def generateImage_buffers (d : DimensionData_LevelDB) (imageMode : ImageModeType) : List Int :=
  [bandBufferSize d imageMode]

/-- A dimension with the bounds of `dimSmall` and one more chunk row: chunkX in -1..0 and
chunkZ in 2..4. -/
def dimTall : DimensionData_LevelDB :=
  { newDimensionData 0 "overworld" with
    minChunkX := -1, maxChunkX := 0, minChunkZ := 2, maxChunkZ := 4, chunkBoundsValid := true,
    chunks := [emptyChunk (-1) 2, emptyChunk 0 3] }

/-! ## `dbParse` as a whole -/

/-- What a completed call of `dbParse` leaves: the dimensions with the bounds of
`calcChunkBounds`, the fast arrays of the dimensions after `updateFastLists`, and the calls of
the record loop, in order. -/
structure DbParseResult where
  dimDataList : List DimensionData_LevelDB
  fastLists : List FastLists
  actions : List Action

/-- The method `dbParse`: the call `calcChunkBounds()` that opens it, the loop over
`dimId < kDimIdCount` that calls `updateFastLists()` on each dimension (`lists` holds the three
vectors and the three arrays of each dimension, in the order of `dimDataList`; the listing of
the vectors that follows only logs), and the record loop. `none` stands for a bounds scan that
indexes `dimDataList` outside its range: nothing of the rest of `dbParse` is defined then. -/
def dbParse (env : Env) (shortRunFlag : Bool) (dimDataList : List DimensionData_LevelDB)
    (lists : List (BlockIdLists × FastLists)) (db : List (List Byte × List Byte)) :
    Option DbParseResult :=
  match calcChunkBounds env shortRunFlag dimDataList db with
  | none => none
  | some dims =>
    some { dimDataList := dims
           fastLists := lists.map (fun l => updateFastLists l.1 l.2)
           actions := dbParseLoop env shortRunFlag db }

/-! ## More keys for the evaluations -/

/-- The 13-byte key of chunk (1, -1) with the dimension id `0x32373639` and type tag `0x2d`
(column data). -/
def key_chunk13_col_alt : List Byte :=
  [1, 0, 0, 0, 0xff, 0xff, 0xff, 0xff, 0x39, 0x36, 0x37, 0x32, 0x2d]

/-- The 14-byte key of chunk (1, -1) with the dimension id 1, type tag `0x2f`, subchunk 5. -/
def key_chunk14_nether : List Byte :=
  [1, 0, 0, 0, 0xff, 0xff, 0xff, 0xff, 1, 0, 0, 0, 0x2f, 5]

/-- The 14-byte key of chunk (1, -1) with the dimension id 0, type tag `0x2f`, subchunk 5. -/
def key_chunk14_dim0 : List Byte :=
  [1, 0, 0, 0, 0xff, 0xff, 0xff, 0xff, 0, 0, 0, 0, 0x2f, 5]

/-- A 10-byte key with the corrupt coordinate pair, type tag `0x2f`, subchunk 5. -/
def key_corrupt10 : List Byte := [0, 0, 0, 0x80, 0, 0, 0, 0x80, 0x2f, 5]

/-- The dimensions of a new world with their bounds marked valid. -/
def dimDataListValid : List DimensionData_LevelDB :=
  newDimDataList.map (fun d => d.setChunkBoundsValid)

/-- A block table for the evaluations that differs from `tblPlain` in the colour of air only:
block id 0 has the colour bytes 0x40, 0x40, 0x40. -/
def tblGreyAir : BlockTable :=
  { get := fun id =>
      if id = 0 then
        some { id := 0, name := "", color := 0x40404000, hasVariants := false,
               getVariantByBlockData := fun _ => none }
      else tblPlain.get id
    kColorDefault := 0xf010d0 }

/-- A store with only subchunk 0 of the overworld chunk (0, 0), in the byte format, all air. -/
def dbSubchunk0 : List (List Byte × List Byte) :=
  [([0, 0, 0, 0, 0, 0, 0, 0, 0x2f, 0], [0])]

/-- The store `dbSubchunk0` with the all-air subchunk 1 of the same chunk added. -/
def dbSubchunk01 : List (List Byte × List Byte) :=
  [([0, 0, 0, 0, 0, 0, 0, 0, 0x2f, 0], [0]), ([0, 0, 0, 0, 0, 0, 0, 0, 0x2f, 1], [0])]

/-- A store with only subchunk 1 of the overworld chunk (0, 0), in the palette format as the
decoders `decBytes` read it: the block at position (0, 0, 0) has id 7, every other block is
air. -/
def dbSubchunk1Id7 : List (List Byte × List Byte) :=
  [([0, 0, 0, 0, 0, 0, 0, 0, 0x2f, 1], [1, 7])]

/-- The 13-byte key of chunk (1, -1) with the dimension id `0x33373639` and type tag `0x30`. -/
def key_chunk13_alt : List Byte :=
  [1, 0, 0, 0, 0xff, 0xff, 0xff, 0xff, 0x39, 0x36, 0x37, 0x33, 0x30]

/-- The 14-byte key of chunk (1, -1) with the dimension id 7, type tag `0x2f`, subchunk 5. -/
def key_chunk14_dim7 : List Byte :=
  [1, 0, 0, 0, 0xff, 0xff, 0xff, 0xff, 7, 0, 0, 0, 0x2f, 5]

/-- The 10-byte key `"player_1"`, `0x2f`, 5. -/
def key_player_1_sub5 : List Byte := [112, 108, 97, 121, 101, 114, 95, 49, 0x2f, 5]

/-- An encoder that was initialised with the size `imageW` x `imageH` and then given the bands
of the first `k` chunk rows from `minChunkZ` on. -/
def bandsWritten (imageW imageH minChunkZ : Int) (k : Nat) : PngWriter :=
  { size := some (imageW, imageH), rows := 16 * k,
    bands := (List.range k).map (fun (kz : Nat) => wrapInt32 (minChunkZ + kz)),
    closedAfter := none }

/-! # Theorems -/

/-! ## Bit-level lemmas -/

theorem ldiff_mask (n k : Nat) : Nat.ldiff (2^k - 1) n = (2^k - 1) - n % 2^k := by
  apply Nat.eq_of_testBit_eq
  intro i
  have h : n % 2^k < 2^k := Nat.mod_lt _ (by positivity)
  have e : 2^k - 1 - n % 2^k = 2^k - (n % 2^k + 1) := by omega
  rw [e, Nat.testBit_two_pow_sub_succ h, Nat.testBit_ldiff, Nat.testBit_mod_two_pow]
  have e2 : 2^k - 1 = 2^k - (0 + 1) := by omega
  rw [e2, Nat.testBit_two_pow_sub_succ (by positivity)]
  by_cases hi : i < k <;> simp [hi]

/-- Masking a two's complement integer with `2^k - 1` is reduction modulo `2^k`. -/
theorem land_mask (x : Int) (k : Nat) : Int.land x (2^k - 1) = x % 2^k := by
  have hm : ((2:Int)^k - 1) = Int.ofNat (2^k - 1) := by
    have : 1 ≤ 2^k := Nat.one_le_two_pow
    simp [Int.ofNat_eq_coe, Nat.cast_sub this]
  rw [hm]
  cases x with
  | ofNat n =>
    show ((n &&& (2^k - 1) : Nat) : Int) = _
    rw [Nat.and_pow_two_sub_one_eq_mod]
    simp
  | negSucc n =>
    show ((Nat.ldiff (2^k - 1) n : Nat) : Int) = _
    rw [ldiff_mask]
    have h : n % 2^k < 2^k := Nat.mod_lt _ (by positivity)
    rw [Int.negSucc_emod _ (by positivity)]
    have : 1 ≤ 2^k := Nat.one_le_two_pow
    push_cast [Nat.cast_sub (show n % 2^k ≤ 2^k - 1 by omega), Nat.cast_sub this]
    ring

theorem land_mask32 (x : Int) : Int.land x 0xffffffff = x % 4294967296 := by
  have h := land_mask x 32
  norm_num at h
  exact h

theorem xor_of_nonneg (a b : Int) (ha : 0 ≤ a) (hb : 0 ≤ b) :
    Int.xor a b = ((a.toNat ^^^ b.toNat : Nat) : Int) := by
  obtain ⟨m, rfl⟩ := Int.eq_ofNat_of_zero_le ha
  obtain ⟨n, rfl⟩ := Int.eq_ofNat_of_zero_le hb
  rfl

theorem mt19937_first_lt (s : Nat) : mt19937_first s < 4294967296 := by
  unfold mt19937_first
  exact Nat.mod_lt _ (by norm_num)

theorem shr32 (x : Int) : x >>> (32 : Nat) = x / 4294967296 := by
  rw [Int.shiftRight_eq_div_pow]; rfl

theorem shr3 (x : Int) : x >>> (0x3 : Nat) = x / 8 := by
  rw [Int.shiftRight_eq_div_pow]; rfl

/-- Bits 32..63 of a wrapped 64-bit product are those of the unsigned product. -/
theorem wrapInt64_high (p : Int) (h0 : 0 ≤ p) (h1 : p < 18446744073709551616) :
    (wrapInt64 p / 4294967296) % 4294967296 = p / 4294967296 := by
  unfold wrapInt64
  omega

theorem slime_hi (n : Nat) (hn : n < 4294967296) :
    Int.land (wrapInt64 ((n : Int) * slimeMagic) >>> (32 : Nat)) 0xffffffff
      = (n : Int) * 3435973837 / 4294967296 := by
  rw [land_mask32, shr32]
  have e : slimeMagic = 3435973837 := rfl
  rw [e]
  exact wrapInt64_high _ (by omega) (by omega)

theorem slime_hi_shift3 (n : Nat) (hn : n < 4294967296) :
    Int.land (((n : Int) * 3435973837 / 4294967296) >>> (0x3 : Nat)) 0xffffffff
      = (n : Int) / 10 := by
  rw [land_mask32, shr3]
  have h1 : (n : Int) * 3435973837 / 4294967296 / 8 = (n : Int) * 3435973837 / 34359738368 := by
    omega
  have h2 : (n : Int) * 3435973837 / 34359738368 = (n : Int) / 10 := by omega
  rw [h1, h2]
  omega

theorem slime_times_ten (q : Int) (hq0 : 0 ≤ q) (hq1 : q < 429496730) :
    Int.land (wrapInt64 (Int.land (wrapInt64 (q + wrapInt64 (q * 0x4))) 0xffffffff * 0x2))
      0xffffffff = 10 * q := by
  simp only [land_mask32]
  unfold wrapInt64
  omega

/-- The signed 64-bit computation of `res` on a 32-bit draw, in closed form. -/
theorem slimeRes_eq (n : Nat) (hn : n < 4294967296) :
    slimeRes (n : Int) = 10 * ((n : Int) / 10) := by
  unfold slimeRes
  simp only [slime_hi n hn, slime_hi_shift3 n hn]
  exact slime_times_ten _ (by omega) (by omega)

theorem magic_div (n : Nat) (hn : n < 4294967296) :
    n * 3435973837 / 4294967296 / 8 = n / 10 := by
  have h1 : n * 3435973837 / 4294967296 / 8 = n * 3435973837 / 34359738368 := by omega
  have h2 : n * 3435973837 / 34359738368 = n / 10 := by omega
  omega

theorem high32_eq (n : Nat) (hn : n < 4294967296) :
    high32 n = n * 3435973837 / 4294967296 := by
  unfold high32
  have h : n * 0xcccccccd % 2^64 = n * 3435973837 := by
    apply Nat.mod_eq_of_lt
    have : (2:Nat)^64 = 18446744073709551616 := by norm_num
    omega
  rw [h]
  rfl

theorem slimeResU32_eq (n : Nat) (hn : n < 4294967296) : slimeResU32 n = 10 * (n / 10) := by
  unfold slimeResU32
  rw [high32_eq n hn, Nat.shiftRight_eq_div_pow]
  have e : (2:Nat)^3 = 8 := by norm_num
  have e2 : (2:Nat)^32 = 4294967296 := by norm_num
  rw [e, e2, magic_div n hn]
  omega

theorem slimeSeed_eq (cX cZ : Int) : slimeSeed cX cZ = slimeSeedU32 cX cZ := by
  unfold slimeSeed slimeSeedU32 toUnsigned32
  simp only [land_mask32]
  have hx0 : 0 ≤ cX % 4294967296 := Int.emod_nonneg _ (by norm_num)
  have hx1 : cX % 4294967296 < 4294967296 := Int.emod_lt_of_pos _ (by norm_num)
  have hz0 : 0 ≤ cZ % 4294967296 := Int.emod_nonneg _ (by norm_num)
  have hw : wrapInt64 (cX % 4294967296 * 0x1f1f1f1f) = cX % 4294967296 * 0x1f1f1f1f := by
    unfold wrapInt64
    omega
  rw [hw, xor_of_nonneg _ _ (by positivity) hz0]
  have e1 : (cX % 4294967296 * 0x1f1f1f1f).toNat = (cX % 4294967296).toNat * 0x1f1f1f1f := by
    omega
  rw [e1]
  norm_num
  omega

/-- C6. For all chunk coordinates (in particular all signed 32-bit ones, negative included) the
boolean returned by `isSlimeChunk_MCPE`, computed with signed 64-bit intermediates, equals the
unsigned 32-bit wraparound formula: seed `((cX mod 2^32) * 0x1f1f1f1f) XOR (cZ mod 2^32)` mod
`2^32`, one draw `n`, result `n == (((high32(n * 0xcccccccd) >> 3) * 5) * 2) mod 2^32`. -/
theorem isSlimeChunk_MCPE_eq_unsigned (self : DimensionData_LevelDB) (cX cZ : Int) :
    (isSlimeChunk_MCPE self cX cZ).1 = isSlimeChunkU32 cX cZ := by
  unfold isSlimeChunk_MCPE isSlimeChunkU32
  simp only [slimeSeed_eq]
  have hn := mt19937_first_lt (slimeSeedU32 cX cZ)
  rw [slimeRes_eq _ hn, slimeResU32_eq _ hn]
  apply decide_eq_decide.mpr
  omega

/-- C7. The final test of `isSlimeChunk_MCPE` is a divide-by-10 test: for every draw
`0 <= n < 2^32`, `hi = floor(n * 0xcccccccd / 2^32)` and `res = (((hi >> 3) * 5) * 2) mod 2^32`
give `res = 10 * floor(n / 10)` (also for the code's signed 64-bit `res`), and `n == res` holds
if and only if 10 divides `n`. -/
theorem slime_test_is_divisible_by_ten (n : Nat) (hn : n < 2^32) :
    high32 n = n * 0xcccccccd / 2^32 ∧
    slimeResU32 n = 10 * (n / 10) ∧
    slimeRes (n : Int) = ((10 * (n / 10) : Nat) : Int) ∧
    (((n : Int) = slimeRes (n : Int)) ↔ 10 ∣ n) := by
  have hn2 : n < 4294967296 := by norm_num at hn; exact hn
  refine ⟨?_, slimeResU32_eq n hn2, ?_, ?_⟩
  · rw [high32_eq n hn2]
    rfl
  · rw [slimeRes_eq n hn2]
    push_cast
    rfl
  · rw [slimeRes_eq n hn2]
    omega

theorem slime_test_is_divisible_by_ten_witness :
    (2357136040 < 2^32) ∧
    (high32 2357136040 = 2357136040 * 0xcccccccd / 2^32 ∧
      slimeResU32 2357136040 = 10 * (2357136040 / 10) ∧
      slimeRes ((2357136040 : Nat) : Int) = ((10 * (2357136040 / 10) : Nat) : Int) ∧
      ((((2357136040 : Nat) : Int) = slimeRes ((2357136040 : Nat) : Int)) ↔ 10 ∣ 2357136040)) :=
  ⟨by norm_num, slime_test_is_divisible_by_ten 2357136040 (by norm_num)⟩

/-- C8. `isSlimeChunk_MCPE` is deterministic and independent of the world seed: on any two
dimension states (any seeds, spawn points, bounds and accumulated chunks) and the same
`(cX, cZ)` it returns the same boolean, and it leaves the state it is called on unchanged. -/
theorem isSlimeChunk_MCPE_state_independent (s1 s2 : DimensionData_LevelDB) (cX cZ : Int) :
    (isSlimeChunk_MCPE s1 cX cZ).1 = (isSlimeChunk_MCPE s2 cX cZ).1 ∧
    (isSlimeChunk_MCPE s1 cX cZ).2 = s1 ∧ (isSlimeChunk_MCPE s2 cX cZ).2 = s2 :=
  ⟨rfl, rfl, rfl⟩

set_option maxRecDepth 100000 in
/-- The generator reproduces the reference value of the C++ standard for the default seed
(first output 3499211612 for seed 5489); the chunk at (0, 0) is seeded with 0, draws
2357136044 and is not a slime chunk. -/
theorem isSlimeChunk_origin (self : DimensionData_LevelDB) :
    mt19937_first 5489 = 3499211612 ∧ slimeSeed 0 0 = 0 ∧ mt19937_first 0 = 2357136044 ∧
    (isSlimeChunk_MCPE self 0 0).1 = false := by
  refine ⟨by decide, by decide, by decide, ?_⟩
  show decide (((mt19937_first (slimeSeed 0 0) : Nat) : Int)
    = slimeRes ((mt19937_first (slimeSeed 0 0) : Nat) : Int)) = false
  decide
/-! ## The record classifier -/

/-- Inside a key, the pointer `key` reads the bytes of the key. -/
theorem keyAt_eq_byteAt (env : Env) (key : List Byte) (i : Nat) (h : i < key.length) :
    keyAt env key i = byteAt key i := by
  unfold keyAt byteAt
  rw [List.getD_eq_getElem _ _ h, List.getD_eq_getElem _ _ h]

theorem myParseInt32_congr (p q : Nat → Byte) (s : Nat)
    (h : ∀ i, i < 4 → p (s + i) = q (s + i)) : myParseInt32 p s = myParseInt32 q s := by
  unfold myParseInt32
  have h0 := h 0 (by omega)
  have h1 := h 1 (by omega)
  have h2 := h 2 (by omega)
  have h3 := h 3 (by omega)
  simp only [Nat.add_zero] at h0
  rw [h0, h1, h2, h3]

theorem myParseInt32_key (env : Env) (key : List Byte) (s : Nat) (h : s + 4 ≤ key.length) :
    myParseInt32 (keyAt env key) s = myParseInt32 (byteAt key) s :=
  myParseInt32_congr _ _ _ (fun i hi => keyAt_eq_byteAt env key (s + i) (by omega))

theorem myParseInt8_key (env : Env) (key : List Byte) (s : Nat) (h : s < key.length) :
    myParseInt8 (keyAt env key) s = myParseInt8 (byteAt key) s := by
  unfold myParseInt8
  rw [keyAt_eq_byteAt env key s h]


/-- The chunk branch of one record, once the text-key chain has let the key through. -/
theorem dbParseRecord_of_chunk (env : Env) (key cdata : List Byte)
    (hnamed : classifyNamed env key = none)
    (hlen : key.length = 9 ∨ key.length = 10 ∨ key.length = 13 ∨ key.length = 14) :
    dbParseRecord env key cdata = chunkRecord env key cdata := by
  unfold dbParseRecord
  rw [hnamed]
  simp only [hlen, if_true]

theorem chunkRecord_of_parse (env : Env) (key cdata : List Byte) (r : ChunkKeyInfo)
    (hp : parseChunkKey env key = some r) (hl : legalChunkPos r.chunkX r.chunkZ = true) :
    chunkRecord env key cdata = chunkSwitch env r cdata := by
  unfold chunkRecord
  rw [hp]
  simp [hl]

theorem parseChunkKey_nine (env : Env) (key : List Byte) (h : key.length = 9) :
    parseChunkKey env key = some
      { chunkX := myParseInt32 (byteAt key) 0, chunkZ := myParseInt32 (byteAt key) 4,
        chunkDimId := 0, chunkType := myParseInt8 (byteAt key) 8, chunkTypeSub := 0,
        dimName := "overworld", chunkFormatVersion := 2 } := by
  unfold parseChunkKey
  simp only [h, if_true]
  rw [myParseInt32_key env key 0 (by omega), myParseInt32_key env key 4 (by omega),
    myParseInt8_key env key 8 (by omega)]
  rfl

theorem parseChunkKey_ten (env : Env) (key : List Byte) (h : key.length = 10) :
    parseChunkKey env key = some
      { chunkX := myParseInt32 (byteAt key) 0, chunkZ := myParseInt32 (byteAt key) 4,
        chunkDimId := 0, chunkType := myParseInt8 (byteAt key) 8,
        chunkTypeSub := myParseInt8 (byteAt key) 9,
        dimName := "overworld", chunkFormatVersion := 3 } := by
  unfold parseChunkKey
  simp only [h]
  rw [myParseInt32_key env key 0 (by omega), myParseInt32_key env key 4 (by omega),
    myParseInt8_key env key 8 (by omega), myParseInt8_key env key 9 (by omega)]
  rfl

/-- C1 (amended). In `dbParse`, every key of length 9 that the text-key chain lets through is
treated as an overworld (dimension 0) chunk record with chunkX = the 32-bit integer in bytes
0-3, chunkZ = the one in bytes 4-7 and type tag = byte 8 (legacy format 2, subchunk 0), and when
the coordinate pair is not the corrupt sentinel and the tag is 0x30 its value is handed to
`addChunk` as a legacy block record (format 2, subchunk 0); every such key of length 10 is
treated the same way with subchunk index = byte 9, and when the pair is legal and the tag is
0x2f its value is handed to `addChunk` as a cubic record (format 7 or 3) for that subchunk. -/
theorem dbParse_overworld_chunk_key (env : Env) (key cdata : List Byte)
    (hnamed : classifyNamed env key = none) :
    (key.length = 9 →
      parseChunkKey env key = some
        { chunkX := myParseInt32 (byteAt key) 0, chunkZ := myParseInt32 (byteAt key) 4,
          chunkDimId := kDimIdOverworld, chunkType := myParseInt8 (byteAt key) 8,
          chunkTypeSub := 0, dimName := "overworld", chunkFormatVersion := 2 } ∧
      (legalChunkPos (myParseInt32 (byteAt key) 0) (myParseInt32 (byteAt key) 4) = true →
        myParseInt8 (byteAt key) 8 = 0x30 →
        dbParseRecord env key cdata =
          [Action.addChunk kDimIdOverworld 2 (myParseInt32 (byteAt key) 0) 0
            (myParseInt32 (byteAt key) 4) cdata])) ∧
    (key.length = 10 →
      parseChunkKey env key = some
        { chunkX := myParseInt32 (byteAt key) 0, chunkZ := myParseInt32 (byteAt key) 4,
          chunkDimId := kDimIdOverworld, chunkType := myParseInt8 (byteAt key) 8,
          chunkTypeSub := myParseInt8 (byteAt key) 9, dimName := "overworld",
          chunkFormatVersion := 3 } ∧
      (legalChunkPos (myParseInt32 (byteAt key) 0) (myParseInt32 (byteAt key) 4) = true →
        myParseInt8 (byteAt key) 8 = 0x2f →
        dbParseRecord env key cdata =
          [Action.addChunk kDimIdOverworld (if cdata0 env cdata ≠ 0 then 7 else 3)
            (myParseInt32 (byteAt key) 0) (myParseInt8 (byteAt key) 9)
            (myParseInt32 (byteAt key) 4) cdata])) := by
  constructor
  · intro h
    refine ⟨parseChunkKey_nine env key h, fun hl ht => ?_⟩
    rw [dbParseRecord_of_chunk env key cdata hnamed (Or.inl h),
      chunkRecord_of_parse env key cdata _ (parseChunkKey_nine env key h) hl]
    unfold chunkSwitch
    simp only [ht, if_true]
    rfl
  · intro h
    refine ⟨parseChunkKey_ten env key h, fun hl ht => ?_⟩
    rw [dbParseRecord_of_chunk env key cdata hnamed (Or.inr (Or.inl h)),
      chunkRecord_of_parse env key cdata _ (parseChunkKey_ten env key h) hl]
    unfold chunkSwitch
    simp only [ht]
    by_cases hb : cdata0 env cdata = 0
    · simp [hb]
      rfl
    · simp [hb]
      rfl

theorem dbParse_overworld_chunk_key_witness :
    classifyNamed env0 key_chunk9 = none ∧ key_chunk9.length = 9 ∧
    dbParseRecord env0 key_chunk9 [1] = [Action.addChunk 0 2 1 0 (-1) [1]] ∧
    classifyNamed env0 key_chunk10 = none ∧ key_chunk10.length = 10 ∧
    dbParseRecord env0 key_chunk10 [1] = [Action.addChunk 0 7 1 5 (-1) [1]] :=
  ⟨by decide, by decide,
   ((dbParse_overworld_chunk_key env0 key_chunk9 [1] (by decide)).1 (by decide)).2
     (by decide) (by decide),
   by decide, by decide,
   ((dbParse_overworld_chunk_key env0 key_chunk10 [1] (by decide)).2 (by decide)).2
     (by decide) (by decide)⟩

/-- C1 (as stated) fails. The 9-byte key `"BiomeData"` is the BiomeData record, handed to the
tag-tree decoder; the 9-byte key `"player_10"`, whose byte 8 is 0x30, is a remote-player record
and is not handed to `addChunk`; the 10-byte key `"player_1/0"`, whose byte 8 is 0x2f, likewise;
and a 9-byte key with tag 0x30 whose coordinates are the corrupt sentinel is dropped. -/
theorem dbParse_overworld_chunk_key_counterexample :
    name_BiomeData.length = 9 ∧
    dbParseRecord env0 name_BiomeData [1] = [Action.parseNbt "BiomeData: " [1]] ∧
    key_player_10.length = 9 ∧ myParseInt8 (byteAt key_player_10) 8 = 0x30 ∧
    dbParseRecord env0 key_player_10 [1] =
      [Action.parseNbt "Remote Player: " [1],
       Action.parseNbt_entity (-1) "" false true "Remote Player" [49, 48]] ∧
    key_player_1_0.length = 10 ∧ myParseInt8 (byteAt key_player_1_0) 8 = 0x2f ∧
    dbParseRecord env0 key_player_1_0 [1] =
      [Action.parseNbt "Remote Player: " [1],
       Action.parseNbt_entity (-1) "" false true "Remote Player" [49, 47, 48]] ∧
    key_corrupt9.length = 9 ∧ myParseInt8 (byteAt key_corrupt9) 8 = 0x30 ∧
    dbParseRecord env0 key_corrupt9 [1] = [] := by
  decide


theorem parseChunkKey_thirteen (env : Env) (key : List Byte) (h : key.length = 13) :
    parseChunkKey env key =
      if adjustDimId (myParseInt32 (byteAt key) 8) ≠ kDimIdNether ∧
          adjustDimId (myParseInt32 (byteAt key) 8) ≠ kDimIdTheEnd then none
      else some
        { chunkX := myParseInt32 (byteAt key) 0, chunkZ := myParseInt32 (byteAt key) 4,
          chunkDimId := adjustDimId (myParseInt32 (byteAt key) 8),
          chunkType := myParseInt8 (byteAt key) 12, chunkTypeSub := 0,
          dimName := "nether", chunkFormatVersion := 2 } := by
  have e1 := myParseInt32_key env key 0 (by omega)
  have e2 := myParseInt32_key env key 4 (by omega)
  have e3 := myParseInt32_key env key 8 (by omega)
  have e4 := myParseInt8_key env key 12 (by omega)
  unfold parseChunkKey
  simp only [h, e1, e2, e3, e4, Nat.reduceEqDiff, if_false, if_true]

theorem parseChunkKey_fourteen (env : Env) (key : List Byte) (h : key.length = 14) :
    parseChunkKey env key =
      if adjustDimId (myParseInt32 (byteAt key) 8) ≠ kDimIdNether ∧
          adjustDimId (myParseInt32 (byteAt key) 8) ≠ kDimIdTheEnd then none
      else some
        { chunkX := myParseInt32 (byteAt key) 0, chunkZ := myParseInt32 (byteAt key) 4,
          chunkDimId := adjustDimId (myParseInt32 (byteAt key) 8),
          chunkType := myParseInt8 (byteAt key) 12,
          chunkTypeSub := myParseInt8 (byteAt key) 13,
          dimName := "nether", chunkFormatVersion := 3 } := by
  have e1 := myParseInt32_key env key 0 (by omega)
  have e2 := myParseInt32_key env key 4 (by omega)
  have e3 := myParseInt32_key env key 8 (by omega)
  have e4 := myParseInt8_key env key 12 (by omega)
  have e5 := myParseInt8_key env key 13 (by omega)
  unfold parseChunkKey
  simp only [h, e1, e2, e3, e4, e5, Nat.reduceEqDiff, if_false, if_true]

theorem chunkRecord_of_skip (env : Env) (key cdata : List Byte)
    (hp : parseChunkKey env key = none) : chunkRecord env key cdata = [] := by
  unfold chunkRecord
  rw [hp]

/-- The calls of a completed `dbParse` are those of its record loop. -/
theorem dbParse_actions (env : Env) (shortRunFlag : Bool)
    (dimDataList : List DimensionData_LevelDB) (lists : List (BlockIdLists × FastLists))
    (db : List (List Byte × List Byte))
    (hrun : (dbParse env shortRunFlag dimDataList lists db).isSome = true) :
    (dbParse env shortRunFlag dimDataList lists db).map (fun r => r.actions)
      = some ((scannedRecords shortRunFlag db).flatMap
          (fun kv => dbParseRecord env kv.1 kv.2)) := by
  unfold dbParse at hrun ⊢
  cases hb : calcChunkBounds env shortRunFlag dimDataList db with
  | none =>
    rw [hb] at hrun
    exact Bool.noConfusion hrun
  | some dims => rfl

/-- The calls made for a scanned record are among the calls of the record loop. -/
theorem dbParseRecord_mem_loop (env : Env) (shortRunFlag : Bool)
    (db : List (List Byte × List Byte)) (key cdata : List Byte)
    (hrec : (key, cdata) ∈ scannedRecords shortRunFlag db) (a : Action)
    (ha : a ∈ dbParseRecord env key cdata) :
    a ∈ (scannedRecords shortRunFlag db).flatMap (fun kv => dbParseRecord env kv.1 kv.2) :=
  List.mem_flatMap.mpr ⟨(key, cdata), hrec, ha⟩

/-- Every call of the type switch that names a dimension names `chunkDimId`. -/
theorem chunkSwitch_dimIdOf (env : Env) (r : ChunkKeyInfo) (cdata : List Byte) (a : Action)
    (ha : a ∈ chunkSwitch env r cdata) (dim : Int) (hd : a.dimIdOf = some dim) :
    dim = r.chunkDimId := by
  unfold chunkSwitch at ha
  split at ha
  · rw [List.mem_singleton.mp ha] at hd
    exact (Option.some.inj hd).symm
  · split at ha
    · rcases List.mem_cons.mp ha with h | h
      · rw [h] at hd
        exact Option.noConfusion hd
      · split at h
        · rw [List.mem_singleton.mp h] at hd
          exact (Option.some.inj hd).symm
        · exact absurd h (List.not_mem_nil _)
    · split at ha
      · rcases List.mem_cons.mp ha with h | h
        · rw [h] at hd
          exact Option.noConfusion hd
        · split at h
          · rw [List.mem_singleton.mp h] at hd
            exact (Option.some.inj hd).symm
          · exact absurd h (List.not_mem_nil _)
      · split at ha
        · dsimp only at ha
          split at ha
          · rw [List.mem_singleton.mp ha] at hd
            exact (Option.some.inj hd).symm
          · rw [List.mem_singleton.mp ha] at hd
            exact (Option.some.inj hd).symm
        · split at ha
          · rw [List.mem_singleton.mp ha] at hd
            exact (Option.some.inj hd).symm
          · exact absurd ha (List.not_mem_nil _)

/-- C2 (amended). In a run of `dbParse` that gets past the bounds scan at its head, the calls
made are those of the record loop, and for every scanned record whose key has length 13 or 14
and is let through by the text-key chain, the 32-bit dimension id at offset 8 is normalized so
that 0x32373639 becomes the-end and 0x33373639 becomes nether; if the normalized id is neither
nether nor the-end the record is skipped (no call at all is made for it), otherwise the locals
are chunkX = bytes 0-3, chunkZ = bytes 4-7, the normalized dimension id, type tag = byte 12
(and subchunk index = byte 13 for length 14), the calls made for the record are those of the
type switch on these locals (none for the corrupt coordinate pair), they are among the calls
of the run, and each of them that names a dimension names the normalized id. -/
theorem dbParse_dimension_chunk_key (env : Env) (shortRunFlag : Bool)
    (dimDataList : List DimensionData_LevelDB) (lists : List (BlockIdLists × FastLists))
    (db : List (List Byte × List Byte)) (key cdata : List Byte)
    (hrun : (dbParse env shortRunFlag dimDataList lists db).isSome = true)
    (hrec : (key, cdata) ∈ scannedRecords shortRunFlag db)
    (hnamed : classifyNamed env key = none)
    (hlen : key.length = 13 ∨ key.length = 14) :
    (dbParse env shortRunFlag dimDataList lists db).map (fun r => r.actions)
      = some ((scannedRecords shortRunFlag db).flatMap
          (fun kv => dbParseRecord env kv.1 kv.2)) ∧
    (∀ a, a ∈ dbParseRecord env key cdata →
      a ∈ (scannedRecords shortRunFlag db).flatMap (fun kv => dbParseRecord env kv.1 kv.2)) ∧
    adjustDimId 0x32373639 = kDimIdTheEnd ∧ adjustDimId 0x33373639 = kDimIdNether ∧
    ((adjustDimId (myParseInt32 (byteAt key) 8) ≠ kDimIdNether ∧
        adjustDimId (myParseInt32 (byteAt key) 8) ≠ kDimIdTheEnd) →
      parseChunkKey env key = none ∧ dbParseRecord env key cdata = []) ∧
    ((adjustDimId (myParseInt32 (byteAt key) 8) = kDimIdNether ∨
        adjustDimId (myParseInt32 (byteAt key) 8) = kDimIdTheEnd) →
      parseChunkKey env key = some
        { chunkX := myParseInt32 (byteAt key) 0, chunkZ := myParseInt32 (byteAt key) 4,
          chunkDimId := adjustDimId (myParseInt32 (byteAt key) 8),
          chunkType := myParseInt8 (byteAt key) 12,
          chunkTypeSub := if key.length = 14 then myParseInt8 (byteAt key) 13 else 0,
          dimName := "nether",
          chunkFormatVersion := if key.length = 14 then 3 else 2 } ∧
      dbParseRecord env key cdata =
        (if legalChunkPos (myParseInt32 (byteAt key) 0) (myParseInt32 (byteAt key) 4) = true
          then
            chunkSwitch env
              { chunkX := myParseInt32 (byteAt key) 0, chunkZ := myParseInt32 (byteAt key) 4,
                chunkDimId := adjustDimId (myParseInt32 (byteAt key) 8),
                chunkType := myParseInt8 (byteAt key) 12,
                chunkTypeSub := if key.length = 14 then myParseInt8 (byteAt key) 13 else 0,
                dimName := "nether",
                chunkFormatVersion := if key.length = 14 then 3 else 2 } cdata
          else []) ∧
      (∀ a dim, a ∈ dbParseRecord env key cdata → a.dimIdOf = some dim →
        dim = adjustDimId (myParseInt32 (byteAt key) 8))) := by
  refine ⟨dbParse_actions env shortRunFlag dimDataList lists db hrun,
    fun a ha => dbParseRecord_mem_loop env shortRunFlag db key cdata hrec a ha,
    by decide, by decide, ?_, ?_⟩
  · intro hd
    have hp : parseChunkKey env key = none := by
      rcases hlen with h | h
      · rw [parseChunkKey_thirteen env key h, if_pos hd]
      · rw [parseChunkKey_fourteen env key h, if_pos hd]
    refine ⟨hp, ?_⟩
    rw [dbParseRecord_of_chunk env key cdata hnamed (by omega)]
    exact chunkRecord_of_skip env key cdata hp
  · intro hd
    have hnot : ¬(adjustDimId (myParseInt32 (byteAt key) 8) ≠ kDimIdNether ∧
        adjustDimId (myParseInt32 (byteAt key) 8) ≠ kDimIdTheEnd) := by
      rintro ⟨h1, h2⟩
      rcases hd with h | h
      · exact h1 h
      · exact h2 h
    have hp : parseChunkKey env key = some
        { chunkX := myParseInt32 (byteAt key) 0, chunkZ := myParseInt32 (byteAt key) 4,
          chunkDimId := adjustDimId (myParseInt32 (byteAt key) 8),
          chunkType := myParseInt8 (byteAt key) 12,
          chunkTypeSub := if key.length = 14 then myParseInt8 (byteAt key) 13 else 0,
          dimName := "nether",
          chunkFormatVersion := if key.length = 14 then 3 else 2 } := by
      rcases hlen with h | h
      · rw [parseChunkKey_thirteen env key h, if_neg hnot]
        simp [h]
      · rw [parseChunkKey_fourteen env key h, if_neg hnot]
        simp [h]
    have hrecord : dbParseRecord env key cdata =
        (if legalChunkPos (myParseInt32 (byteAt key) 0) (myParseInt32 (byteAt key) 4) = true
          then
            chunkSwitch env
              { chunkX := myParseInt32 (byteAt key) 0, chunkZ := myParseInt32 (byteAt key) 4,
                chunkDimId := adjustDimId (myParseInt32 (byteAt key) 8),
                chunkType := myParseInt8 (byteAt key) 12,
                chunkTypeSub := if key.length = 14 then myParseInt8 (byteAt key) 13 else 0,
                dimName := "nether",
                chunkFormatVersion := if key.length = 14 then 3 else 2 } cdata
          else []) := by
      rw [dbParseRecord_of_chunk env key cdata hnamed (by omega)]
      unfold chunkRecord
      rw [hp]
      dsimp only
      cases hl : legalChunkPos (myParseInt32 (byteAt key) 0) (myParseInt32 (byteAt key) 4) with
      | true => rfl
      | false => rfl
    refine ⟨hp, hrecord, ?_⟩
    intro a dim ha hdim
    rw [hrecord] at ha
    by_cases hl : legalChunkPos (myParseInt32 (byteAt key) 0) (myParseInt32 (byteAt key) 4)
        = true
    · rw [if_pos hl] at ha
      have h := chunkSwitch_dimIdOf env _ cdata a ha dim hdim
      dsimp only at h
      exact h
    · rw [if_neg hl] at ha
      exact absurd ha (List.not_mem_nil _)

theorem dbParse_dimension_chunk_key_witness :
    (dbParse env0 false newDimDataList [(listsHide7, fastListsBefore)]
      [(key_chunk13_col_alt, [9]), (key_chunk13_dim0, [1])]).isSome = true ∧
    myParseInt32 (byteAt key_chunk13_col_alt) 8 = 0x32373639 ∧
    dbParseRecord env0 key_chunk13_col_alt [9]
      = [Action.addChunkColumnData kDimIdTheEnd 3 1 (-1) [9]] ∧
    dbParseRecord env0 key_chunk13_dim0 [1] = [] ∧
    (dbParse env0 false newDimDataList [(listsHide7, fastListsBefore)]
        [(key_chunk13_col_alt, [9]), (key_chunk13_dim0, [1])]).map (fun r => r.actions)
      = some [Action.addChunkColumnData kDimIdTheEnd 3 1 (-1) [9]] :=
  ⟨by decide, by decide,
   ((dbParse_dimension_chunk_key env0 false newDimDataList [(listsHide7, fastListsBefore)]
      [(key_chunk13_col_alt, [9]), (key_chunk13_dim0, [1])] key_chunk13_col_alt [9]
      (by decide) (by decide) (by decide) (by decide)).2.2.2.2.2 (by decide)).2.1.trans
     (by decide),
   ((dbParse_dimension_chunk_key env0 false newDimDataList [(listsHide7, fastListsBefore)]
      [(key_chunk13_col_alt, [9]), (key_chunk13_dim0, [1])] key_chunk13_dim0 [1]
      (by decide) (by decide) (by decide) (by decide)).2.2.2.2.1 (by decide)).2,
   (dbParse_dimension_chunk_key env0 false newDimDataList [(listsHide7, fastListsBefore)]
      [(key_chunk13_col_alt, [9]), (key_chunk13_dim0, [1])] key_chunk13_col_alt [9]
      (by decide) (by decide) (by decide) (by decide)).1.trans (by decide)⟩

/-- C2 (as stated) fails. The key `"~local_player"` has length 13 and its bytes 8-11 hold an id
that normalizes to neither nether nor the-end, yet the record is not skipped: its value goes to
the tag-tree decoder as the local player. The 14-byte key `"player_1234567"` likewise goes to
the decoder as a remote player. Both are runs of `dbParse` on a new world that complete. -/
theorem dbParse_dimension_chunk_key_counterexample :
    name_local_player.length = 13 ∧
    adjustDimId (myParseInt32 (byteAt name_local_player) 8) ≠ kDimIdNether ∧
    adjustDimId (myParseInt32 (byteAt name_local_player) 8) ≠ kDimIdTheEnd ∧
    dbParseRecord env0 name_local_player [1] =
      [Action.parseNbt "Local Player: " [1],
       Action.parseNbt_entity (-1) "" true false "Local Player" []] ∧
    (dbParse env0 false newDimDataList [] [(name_local_player, [1])]).map (fun r => r.actions) =
      some [Action.parseNbt "Local Player: " [1],
       Action.parseNbt_entity (-1) "" true false "Local Player" []] ∧
    key_player_1234567.length = 14 ∧
    adjustDimId (myParseInt32 (byteAt key_player_1234567) 8) ≠ kDimIdNether ∧
    adjustDimId (myParseInt32 (byteAt key_player_1234567) 8) ≠ kDimIdTheEnd ∧
    dbParseRecord env0 key_player_1234567 [1] =
      [Action.parseNbt "Remote Player: " [1],
       Action.parseNbt_entity (-1) "" false true "Remote Player" [49, 50, 51, 52, 53, 54, 55]] ∧
    (dbParse env0 false newDimDataList [] [(key_player_1234567, [1])]).map
        (fun r => r.actions) =
      some [Action.parseNbt "Remote Player: " [1],
       Action.parseNbt_entity (-1) "" false true "Remote Player"
         [49, 50, 51, 52, 53, 54, 55]] := by
  decide


theorem legalChunkPos_eq_false_iff (x z : Int) :
    legalChunkPos x z = false ↔ (toUnsigned32 x = 0x80000000 ∧ toUnsigned32 z = 0x80000000) := by
  unfold legalChunkPos
  split <;> simp_all

/-- A 32-bit field that reads as 0x80000000 starts with a zero byte. -/
theorem first_byte_of_sentinel (p : Nat → Byte) (s : Nat)
    (h : toUnsigned32 (myParseInt32 p s) = 0x80000000) : p s = 0 := by
  unfold toUnsigned32 myParseInt32 wrapInt32 at h
  have h0 := (p s).isLt
  have h1 := (p (s + 1)).isLt
  have h2 := (p (s + 2)).isLt
  have h3 := (p (s + 3)).isLt
  apply Fin.ext
  show (p s).val = 0
  omega

theorem strncmpEq_first_differs (s1 : Nat → Byte) (s2 : List Byte) (n : Nat)
    (h : s1 0 ≠ s2.getD 0 0) : strncmpEq s1 s2 (n + 1) 0 = false := by
  rw [strncmpEq, if_pos h]

/-- A key that starts with a zero byte passes the whole text-key chain. -/
theorem classifyNamed_of_zero_first (env : Env) (key : List Byte) (n : Nat)
    (hlen : key.length = n + 1) (h0 : byteAt key 0 = 0) : classifyNamed env key = none := by
  have hk : keyAt env key 0 = 0 := by
    rw [keyAt_eq_byteAt env key 0 (by omega)]
    exact h0
  unfold classifyNamed
  simp only [hlen]
  rw [strncmpEq_first_differs _ name_BiomeData n (by rw [hk]; decide),
    strncmpEq_first_differs _ name_Overworld n (by rw [hk]; decide),
    strncmpEq_first_differs _ name_local_player n (by rw [hk]; decide),
    strncmpEq_first_differs _ name_player_ 6 (by rw [hk]; decide),
    strncmpEq_first_differs _ name_villages n (by rw [hk]; decide),
    strncmpEq_first_differs _ name_mVillages n (by rw [hk]; decide),
    strncmpEq_first_differs _ name_game_flatworldlayers n (by rw [hk]; decide),
    strncmpEq_first_differs _ name_idcounts n (by rw [hk]; decide),
    strncmpEq_first_differs _ name_Nether n (by rw [hk]; decide),
    strncmpEq_first_differs _ name_portals n (by rw [hk]; decide),
    strncmpEq_first_differs _ name_AutonomousEntities n (by rw [hk]; decide),
    strncmpEq_first_differs _ name_dimension 8 (by rw [hk]; decide)]
  simp

/-- The coordinates a parsed chunk key carries are those of bytes 0-3 and 4-7 of the key. -/
theorem parseChunkKey_coords (env : Env) (key : List Byte) (r : ChunkKeyInfo)
    (hp : parseChunkKey env key = some r) :
    r.chunkX = myParseInt32 (byteAt key) 0 ∧ r.chunkZ = myParseInt32 (byteAt key) 4 := by
  by_cases h9 : key.length = 9
  · rw [parseChunkKey_nine env key h9] at hp
    rw [← Option.some.inj hp]
    exact ⟨rfl, rfl⟩
  by_cases h10 : key.length = 10
  · rw [parseChunkKey_ten env key h10] at hp
    rw [← Option.some.inj hp]
    exact ⟨rfl, rfl⟩
  by_cases h13 : key.length = 13
  · rw [parseChunkKey_thirteen env key h13] at hp
    split at hp
    · exact absurd hp (by simp)
    · rw [← Option.some.inj hp]
      exact ⟨rfl, rfl⟩
  by_cases h14 : key.length = 14
  · rw [parseChunkKey_fourteen env key h14] at hp
    split at hp
    · exact absurd hp (by simp)
    · rw [← Option.some.inj hp]
      exact ⟨rfl, rfl⟩
  · unfold parseChunkKey at hp
    simp [h9, h10, h13, h14] at hp

/-- C3. For every key of length 9, 10, 13 or 14 whose chunkX and chunkZ both read 0x80000000 as
unsigned 32-bit, whatever its type tag byte (and its other bytes), `dbParse` performs no action
for the record (no `addChunk`, no `addChunkColumnData`, no tag-tree decode) and the key loop of
`calcChunkBounds` leaves the bounds of every dimension unchanged; `legalChunkPos` returns false
for exactly that coordinate pair. -/
theorem corrupt_chunk_pos_rejected (env : Env) (dimDataList : List DimensionData_LevelDB)
    (key cdata : List Byte)
    (hlen : key.length = 9 ∨ key.length = 10 ∨ key.length = 13 ∨ key.length = 14)
    (hx : toUnsigned32 (myParseInt32 (byteAt key) 0) = 0x80000000)
    (hz : toUnsigned32 (myParseInt32 (byteAt key) 4) = 0x80000000) :
    dbParseRecord env key cdata = [] ∧
    calcChunkBoundsRecord env dimDataList key = some dimDataList ∧
    (∀ x z : Int, legalChunkPos x z = false ↔
      (toUnsigned32 x = 0x80000000 ∧ toUnsigned32 z = 0x80000000)) := by
  have hleg : legalChunkPos (myParseInt32 (byteAt key) 0) (myParseInt32 (byteAt key) 4) = false :=
    (legalChunkPos_eq_false_iff _ _).mpr ⟨hx, hz⟩
  have hnamed : classifyNamed env key = none :=
    classifyNamed_of_zero_first env key (key.length - 1) (by omega)
      (first_byte_of_sentinel _ 0 hx)
  refine ⟨?_, ?_, legalChunkPos_eq_false_iff⟩
  · rw [dbParseRecord_of_chunk env key cdata hnamed hlen]
    unfold chunkRecord
    cases hp : parseChunkKey env key with
    | none => rfl
    | some r =>
      obtain ⟨ex, ez⟩ := parseChunkKey_coords env key r hp
      simp [ex, ez, hleg]
  · have e1 := myParseInt32_key env key 0 (by omega)
    have e2 := myParseInt32_key env key 4 (by omega)
    unfold calcChunkBoundsRecord
    simp only [e1, e2, hleg]
    rcases hlen with h | h | h | h <;> simp [h]

theorem corrupt_chunk_pos_rejected_witness :
    key_corrupt9.length = 9 ∧
    toUnsigned32 (myParseInt32 (byteAt key_corrupt9) 0) = 0x80000000 ∧
    toUnsigned32 (myParseInt32 (byteAt key_corrupt9) 4) = 0x80000000 ∧
    dbParseRecord env0 key_corrupt9 [1] = [] ∧
    calcChunkBoundsRecord env0 newDimDataList key_corrupt9 = some newDimDataList :=
  ⟨by decide, by decide, by decide,
   (corrupt_chunk_pos_rejected env0 newDimDataList key_corrupt9 [1] (by decide) (by decide)
     (by decide)).1,
   (corrupt_chunk_pos_rejected env0 newDimDataList key_corrupt9 [1] (by decide) (by decide)
     (by decide)).2.1⟩


theorem cdata0_of_nonempty (env : Env) (cdata : List Byte) (h : cdata ≠ []) :
    cdata0 env cdata = byteAt cdata 0 := by
  cases cdata with
  | nil => exact absurd rfl h
  | cons b t => rfl

/-- The case 0x2f of the type switch for a record with key length 10 or 14 and a non-empty
value: one call of `addChunk`, with format version 3 when byte 0 of the value is 0 and 7
otherwise, and the locals of the key. -/
theorem dbParseRecord_subchunk (env : Env) (key cdata : List Byte) (r : ChunkKeyInfo)
    (hnamed : classifyNamed env key = none)
    (hlen : key.length = 10 ∨ key.length = 14)
    (hp : parseChunkKey env key = some r)
    (hl : legalChunkPos r.chunkX r.chunkZ = true)
    (ht : r.chunkType = 0x2f)
    (hv : cdata ≠ []) :
    dbParseRecord env key cdata =
      [Action.addChunk r.chunkDimId (if byteAt cdata 0 = 0 then 3 else 7)
        r.chunkX r.chunkTypeSub r.chunkZ cdata] ∧
    r.chunkX = myParseInt32 (byteAt key) 0 ∧ r.chunkZ = myParseInt32 (byteAt key) 4 ∧
    r.chunkTypeSub = myParseInt8 (byteAt key) (if key.length = 10 then 9 else 13) ∧
    r.chunkDimId =
      (if key.length = 10 then kDimIdOverworld
        else adjustDimId (myParseInt32 (byteAt key) 8)) ∧
    (r.chunkDimId = kDimIdOverworld ∨ r.chunkDimId = kDimIdNether ∨
      r.chunkDimId = kDimIdTheEnd) ∧
    (generateSlices_wordModeFlag cdata = true ↔ byteAt cdata 0 ≠ 0) := by
  have hfields : r.chunkFormatVersion = 3 ∧
      r.chunkTypeSub = myParseInt8 (byteAt key) (if key.length = 10 then 9 else 13) ∧
      r.chunkDimId =
        (if key.length = 10 then kDimIdOverworld
          else adjustDimId (myParseInt32 (byteAt key) 8)) ∧
      (r.chunkDimId = kDimIdOverworld ∨ r.chunkDimId = kDimIdNether ∨
        r.chunkDimId = kDimIdTheEnd) := by
    rcases hlen with h | h
    · rw [parseChunkKey_ten env key h] at hp
      rw [← Option.some.inj hp]
      have e10 : key.length = 10 := h
      refine ⟨rfl, ?_, ?_, Or.inl rfl⟩
      · rw [if_pos e10]
      · rw [if_pos e10]
        rfl
    · rw [parseChunkKey_fourteen env key h] at hp
      split at hp
      · exact absurd hp (by simp)
      · next hd =>
        rw [← Option.some.inj hp]
        have e10 : ¬ key.length = 10 := by omega
        have hdim : adjustDimId (myParseInt32 (byteAt key) 8) = kDimIdNether ∨
            adjustDimId (myParseInt32 (byteAt key) 8) = kDimIdTheEnd := by
          by_cases h1 : adjustDimId (myParseInt32 (byteAt key) 8) = kDimIdNether
          · exact Or.inl h1
          · by_cases h2 : adjustDimId (myParseInt32 (byteAt key) 8) = kDimIdTheEnd
            · exact Or.inr h2
            · exact absurd ⟨h1, h2⟩ hd
        dsimp only
        rw [if_neg e10, if_neg e10]
        exact ⟨rfl, rfl, rfl, Or.inr hdim⟩
  obtain ⟨hx, hz⟩ := parseChunkKey_coords env key r hp
  refine ⟨?_, hx, hz, hfields.2.1, hfields.2.2.1, hfields.2.2.2, ?_⟩
  · rw [dbParseRecord_of_chunk env key cdata hnamed (by omega),
      chunkRecord_of_parse env key cdata r hp hl]
    unfold chunkSwitch
    rw [cdata0_of_nonempty env cdata hv, hfields.1]
    simp only [ht]
    by_cases hb : byteAt cdata 0 = 0
    · simp [hb]
    · simp [hb]
  · unfold generateSlices_wordModeFlag byteAt
    simp

/-- The bounded comparison succeeds as soon as the first `n` characters agree. -/
theorem strncmpEq_of_agree (s1 : Nat → Byte) (s2 : List Byte) (n i : Nat)
    (h : ∀ j, j < n → s1 (i + j) = s2.getD (i + j) 0) : strncmpEq s1 s2 n i = true := by
  induction n generalizing i with
  | zero => rfl
  | succ n ih =>
    have h0 : s1 i = s2.getD i 0 := by
      have := h 0 (by omega)
      simpa using this
    rw [strncmpEq, if_neg (by rw [h0]; exact fun hne => hne rfl)]
    by_cases hz : s1 i = 0
    · rw [if_pos hz]
    · rw [if_neg hz]
      apply ih
      intro j hj
      have := h (j + 1) (by omega)
      rw [show i + (j + 1) = i + 1 + j by omega] at this
      exact this

/-- Every key that is an initial segment of `"BiomeData"` (the empty key included) is
classified as the BiomeData record. -/
theorem classifyNamed_of_initial_segment (env : Env) (key t : List Byte)
    (h : key ++ t = name_BiomeData) : classifyNamed env key = some NamedKind.BiomeData := by
  have hagree : strncmpEq (keyAt env key) name_BiomeData key.length 0 = true := by
    apply strncmpEq_of_agree
    intro j hj
    rw [← h]
    unfold keyAt
    simp only [Nat.zero_add]
    rw [List.getD_eq_getElem _ _ hj,
      List.getD_eq_getElem _ _ (by rw [List.length_append]; omega),
      List.getElem_append_left hj]
  unfold classifyNamed
  simp only [hagree, if_true]

/-- C5 (code defect). The text-key chain compares only the first `key_size` characters, so a
key that is a proper initial segment of a name is classified as that named record: the 5-byte
key `"Biome"` and the empty key are both classified as BiomeData and their value is handed to
the tag-tree decoder; and a key that continues after a name with a NUL byte (`"Nether"`, NUL,
two more bytes) is classified as Nether. -/
theorem classifyNamed_accepts_initial_segments :
    key_Biome ≠ name_BiomeData ∧ key_Biome ++ [68, 97, 116, 97] = name_BiomeData ∧
    classifyNamed env0 key_Biome = some NamedKind.BiomeData ∧
    dbParseRecord env0 key_Biome [1] = [Action.parseNbt "BiomeData: " [1]] ∧
    classifyNamed env0 [] = some NamedKind.BiomeData ∧
    dbParseRecord env0 [] [1] = [Action.parseNbt "BiomeData: " [1]] ∧
    key_Nether_nul = name_Nether ++ [0, 1, 2] ∧
    classifyNamed env0 key_Nether_nul = some NamedKind.Nether ∧
    dbParseRecord env0 key_Nether_nul [1] = [Action.parseNbt "Nether: " [1]] := by
  decide

/-- C9 (code defect). On the store holding the single 14-byte record of chunk (1, -1), dimension
id 0x32373639, tag 0x2f, subchunk 5, the record loop of `dbParse` attributes the chunk to the-end
(dimension 2) while the scan of `calcChunkBounds` indexes `dimDataList` with the raw id
0x32373639, outside its range, so the-end never receives the chunk in its bounds. With
well-defined indices the two passes still disagree: a 13-byte key with dimension id 0 and tag
0x30 enters the overworld bounds although `dbParse` skips the record, and a 9-byte key with tag
0x2f is added by `dbParse` to the overworld although the bounds scan ignores it. The last four
conjuncts give the same runs of `dbParse` as a whole, which starts with `calcChunkBounds`: on a
new world the first store makes the bounds scan at its head index outside the list, with bounds
already marked valid the chunk is added to the-end whose bounds do not hold it, and on the two
other stores `dbParse` completes with the calls and the bounds shown. -/
theorem calcChunkBounds_disagrees_with_dbParse :
    dbParseLoop env0 false [(key_chunk14_alt, [0])] = [Action.addChunk 2 3 1 5 (-1) [0]] ∧
    myParseInt32 (byteAt key_chunk14_alt) 8 = 0x32373639 ∧
    (calcChunkBounds env0 false newDimDataList [(key_chunk14_alt, [0])]).isNone = true ∧
    dbParseLoop env0 false [(key_chunk13_dim0, [0])] = [] ∧
    (calcChunkBounds env0 false newDimDataList [(key_chunk13_dim0, [0])]).map
        (fun l => l.map boundsOf) =
      some [(1, 1, -1, -1), (2147483647, -2147483648, 2147483647, -2147483648),
            (2147483647, -2147483648, 2147483647, -2147483648)] ∧
    dbParseLoop env0 false [(key_chunk9_tag2f, [0])] = [Action.addChunk 0 2 7 0 3 [0]] ∧
    (calcChunkBounds env0 false newDimDataList [(key_chunk9_tag2f, [0])]).map
        (fun l => l.map boundsOf) =
      some [(2147483647, -2147483648, 2147483647, -2147483648),
            (2147483647, -2147483648, 2147483647, -2147483648),
            (2147483647, -2147483648, 2147483647, -2147483648)] ∧
    (dbParse env0 false newDimDataList [] [(key_chunk14_alt, [0])]).isNone = true ∧
    (dbParse env0 false dimDataListValid [] [(key_chunk14_alt, [0])]).map
        (fun r => (r.actions, r.dimDataList.map boundsOf)) =
      some ([Action.addChunk 2 3 1 5 (-1) [0]],
        [(2147483647, -2147483648, 2147483647, -2147483648),
         (2147483647, -2147483648, 2147483647, -2147483648),
         (2147483647, -2147483648, 2147483647, -2147483648)]) ∧
    (dbParse env0 false newDimDataList [] [(key_chunk13_dim0, [0])]).map
        (fun r => (r.actions, r.dimDataList.map boundsOf)) =
      some ([], [(1, 1, -1, -1), (2147483647, -2147483648, 2147483647, -2147483648),
          (2147483647, -2147483648, 2147483647, -2147483648)]) ∧
    (dbParse env0 false newDimDataList [] [(key_chunk9_tag2f, [0])]).map
        (fun r => (r.actions, r.dimDataList.map boundsOf)) =
      some ([Action.addChunk 0 2 7 0 3 [0]],
        [(2147483647, -2147483648, 2147483647, -2147483648),
         (2147483647, -2147483648, 2147483647, -2147483648),
         (2147483647, -2147483648, 2147483647, -2147483648)]) := by
  refine ⟨by decide, by decide, by decide, by decide, by decide, by decide, by decide,
    by decide, by decide, by decide, by decide⟩


/-! ## Geometry of the composite image -/

theorem wrapInt32_of_range (x : Int) (h1 : -2147483648 ≤ x) (h2 : x ≤ 2147483647) :
    wrapInt32 x = x := by
  unfold wrapInt32
  omega

/-- The head of `generateImage` when the image fits 32-bit arithmetic. -/
theorem imageGeometry_of_fit (d : DimensionData_LevelDB)
    (hX : d.minChunkX ≤ d.maxChunkX) (hZ : d.minChunkZ ≤ d.maxChunkZ)
    (hfitW : 16 * (d.maxChunkX - d.minChunkX + 1) ≤ 2147483647)
    (hfitH : 16 * (d.maxChunkZ - d.minChunkZ + 1) ≤ 2147483647) :
    imageGeometry d =
      { chunkOffsetX := wrapInt32 (-d.minChunkX), chunkOffsetZ := wrapInt32 (-d.minChunkZ),
        chunkW := d.maxChunkX - d.minChunkX + 1, chunkH := d.maxChunkZ - d.minChunkZ + 1,
        imageW := 16 * (d.maxChunkX - d.minChunkX + 1),
        imageH := 16 * (d.maxChunkZ - d.minChunkZ + 1) } := by
  have e1 : wrapInt32 (wrapInt32 (d.maxChunkX - d.minChunkX) + 1)
      = d.maxChunkX - d.minChunkX + 1 := by
    rw [wrapInt32_of_range (d.maxChunkX - d.minChunkX) (by omega) (by omega),
      wrapInt32_of_range _ (by omega) (by omega)]
  have e2 : wrapInt32 (wrapInt32 (d.maxChunkZ - d.minChunkZ) + 1)
      = d.maxChunkZ - d.minChunkZ + 1 := by
    rw [wrapInt32_of_range (d.maxChunkZ - d.minChunkZ) (by omega) (by omega),
      wrapInt32_of_range _ (by omega) (by omega)]
  unfold imageGeometry
  simp only [e1, e2]
  rw [wrapInt32_of_range ((d.maxChunkX - d.minChunkX + 1) * 16) (by omega) (by omega),
    wrapInt32_of_range ((d.maxChunkZ - d.minChunkZ + 1) * 16) (by omega) (by omega)]
  congr 1 <;> omega

/-- The local `imageX` (and `imageZ`) of a chunk inside the bounds. -/
theorem imageCoord_of_fit (lo hi x : Int)
    (h1 : lo ≤ x) (h2 : x ≤ hi) (hfit : 16 * (hi - lo + 1) ≤ 2147483647) :
    wrapInt32 (wrapInt32 (x + wrapInt32 (-lo)) * 16) = (x - lo) * 16 := by
  have e : wrapInt32 (x + wrapInt32 (-lo)) = x - lo := by
    unfold wrapInt32
    omega
  rw [e, wrapInt32_of_range _ (by omega) (by omega)]

theorem bandSteps_of_fit (n : Int) : bandSteps (16 * n) = n.toNat := by
  unfold bandSteps
  congr 1
  omega

/-- The byte index of a pixel copy when the band buffer fits 32-bit arithmetic. -/
theorem pixelOffset_of_fit (imageW col unit : Int) (cz cx : Nat) (imageX : Int)
    (hcz : cz < 16) (hW : 0 ≤ imageW) (hcol0 : 0 ≤ imageX + cx) (hcol1 : imageX + cx < imageW)
    (hu : unit = 3 ∨ unit = 4) (hfit : imageW * 16 * unit ≤ 2147483647)
    (hc : col = imageX + cx) :
    wrapInt32 (wrapInt32 (wrapInt32 ((cz : Int) * imageW) + wrapInt32 (imageX + cx)) * unit)
        = ((cz : Int) * imageW + col) * unit ∧
    0 ≤ ((cz : Int) * imageW + col) * unit ∧
    ((cz : Int) * imageW + col) * unit + unit ≤ imageW * 16 * unit := by
  have hp0 : 0 ≤ (cz : Int) * imageW := by positivity
  have hp1 : (cz : Int) * imageW ≤ 15 * imageW := by
    have : (cz : Int) ≤ 15 := by omega
    exact Int.mul_le_mul_of_nonneg_right this hW
  subst hc
  generalize (cz : Int) * imageW = p at hp0 hp1 ⊢
  rcases hu with rfl | rfl
  · rw [wrapInt32_of_range p (by omega) (by omega),
      wrapInt32_of_range (imageX + cx) (by omega) (by omega),
      wrapInt32_of_range (p + (imageX + cx)) (by omega) (by omega),
      wrapInt32_of_range _ (by omega) (by omega)]
    omega
  · rw [wrapInt32_of_range p (by omega) (by omega),
      wrapInt32_of_range (imageX + cx) (by omega) (by omega),
      wrapInt32_of_range (p + (imageX + cx)) (by omega) (by omega),
      wrapInt32_of_range _ (by omega) (by omega)]
    omega

theorem pixelUnit_cases (imageMode : ImageModeType) (m : Bool) :
    (pixelUnit imageMode m = 3 ∨ pixelUnit imageMode m = 4) ∧
    pixelUnit imageMode m ≤ bytesPerPixel imageMode ∧
    (bytesPerPixel imageMode = 3 ∨ bytesPerPixel imageMode = 4) := by
  unfold pixelUnit bytesPerPixel
  cases m <;> by_cases h : imageMode = ImageModeType.kImageModeHeightColAlpha <;> simp [h]

theorem chunks_find_some (chunks : List ChunkData_LevelDB) (x z : Int) (it : ChunkData_LevelDB)
    (h : chunks_find chunks x z = some it) : it.chunkX = x ∧ it.chunkZ = z := by
  unfold chunks_find at h
  have := List.find?_some h
  simpa using this

theorem mem_chunkColumns (g : ImageGeometry) (unit : Int) (band : Nat) (it : ChunkData_LevelDB)
    (w : ColumnWrite) :
    w ∈ chunkColumns g unit band it ↔
      ∃ cz, cz < 16 ∧ ∃ cx, cx < 16 ∧
        w = { band := band, chunkX := it.chunkX, chunkZ := it.chunkZ, cx := cx, cz := cz,
              imageX := wrapInt32 (wrapInt32 (it.chunkX + g.chunkOffsetX) * 16),
              imageZ := wrapInt32 (wrapInt32 (it.chunkZ + g.chunkOffsetZ) * 16),
              offset :=
                wrapInt32 (wrapInt32 (wrapInt32 (cz * g.imageW)
                  + wrapInt32 (wrapInt32 (wrapInt32 (it.chunkX + g.chunkOffsetX) * 16) + cx))
                  * unit),
              count := unit } := by
  unfold chunkColumns
  simp only [List.mem_flatMap, List.mem_map, List.mem_range]
  constructor
  · rintro ⟨cz, hcz, cx, hcx, rfl⟩
    exact ⟨cz, hcz, cx, hcx, rfl⟩
  · rintro ⟨cz, hcz, cx, hcx, rfl⟩
    exact ⟨cz, hcz, cx, hcx, rfl⟩

theorem mem_generateImage_columns (d : DimensionData_LevelDB) (imageMode : ImageModeType)
    (m : Bool) (w : ColumnWrite) :
    w ∈ generateImage_columns d imageMode m ↔
      ∃ kz, kz < bandSteps (imageGeometry d).imageH ∧
      ∃ kx, kx < bandSteps (imageGeometry d).imageW ∧
      ∃ it, chunks_find d.chunks (wrapInt32 (d.minChunkX + kx)) (wrapInt32 (d.minChunkZ + kz))
          = some it ∧
        w ∈ chunkColumns (imageGeometry d) (pixelUnit imageMode m) kz it := by
  unfold generateImage_columns
  simp only [List.mem_flatMap, List.mem_range]
  constructor
  · rintro ⟨kz, hkz, kx, hkx, hw⟩
    refine ⟨kz, hkz, kx, hkx, ?_⟩
    cases hf : chunks_find d.chunks (wrapInt32 (d.minChunkX + kx))
        (wrapInt32 (d.minChunkZ + kz)) with
    | none => rw [hf] at hw; simp at hw
    | some it => rw [hf] at hw; exact ⟨it, rfl, hw⟩
  · rintro ⟨kz, hkz, kx, hkx, it, hf, hw⟩
    refine ⟨kz, hkz, kx, hkx, ?_⟩
    rw [hf]
    exact hw

/-- C10 (amended). In `generateImage`, when the bounds are ordered 32-bit values and the band
buffer fits signed 32-bit arithmetic (`16 * (maxChunkX - minChunkX + 1) * 16 * bpp` and
`16 * (maxChunkZ - minChunkZ + 1)` at most `2^31 - 1`): `imageW = 16 * (maxChunkX - minChunkX +
1)`, `imageH = 16 * (maxChunkZ - minChunkZ + 1)`; every pixel copy belongs to a chunk inside the
bounds and a local `(cx, cz)` in `[0,16) x [0,16)`, is made at image column
`imageX + cx = (chunkX - minChunkX) * 16 + cx` in `[0, imageW)` and image row
`imageZ + cz = (chunkZ - minChunkZ) * 16 + cz` in `[0, imageH)` (the band being written holds
rows `16 * band ..`, with `16 * band = imageZ`), and the bytes it writes lie inside the band
buffer; every stored chunk inside the bounds gets one copy per local column; and local (0,0) of
chunk (minChunkX, minChunkZ) is drawn at image (0,0), byte 0 of band 0. -/
theorem generateImage_column_placement (d : DimensionData_LevelDB) (imageMode : ImageModeType)
    (pixelCopyMemcpy : Bool)
    (hminX : -2147483648 ≤ d.minChunkX) (hmaxX : d.maxChunkX ≤ 2147483647)
    (hminZ : -2147483648 ≤ d.minChunkZ) (hmaxZ : d.maxChunkZ ≤ 2147483647)
    (hX : d.minChunkX ≤ d.maxChunkX) (hZ : d.minChunkZ ≤ d.maxChunkZ)
    (hfitW : 16 * (d.maxChunkX - d.minChunkX + 1) * 16 * bytesPerPixel imageMode ≤ 2147483647)
    (hfitH : 16 * (d.maxChunkZ - d.minChunkZ + 1) ≤ 2147483647) :
    (imageGeometry d).imageW = 16 * (d.maxChunkX - d.minChunkX + 1) ∧
    (imageGeometry d).imageH = 16 * (d.maxChunkZ - d.minChunkZ + 1) ∧
    bandBufferSize d imageMode
      = 16 * (d.maxChunkX - d.minChunkX + 1) * 16 * bytesPerPixel imageMode ∧
    (∀ w ∈ generateImage_columns d imageMode pixelCopyMemcpy,
      d.minChunkX ≤ w.chunkX ∧ w.chunkX ≤ d.maxChunkX ∧
      d.minChunkZ ≤ w.chunkZ ∧ w.chunkZ ≤ d.maxChunkZ ∧ w.cx < 16 ∧ w.cz < 16 ∧
      w.imageX + w.cx = (w.chunkX - d.minChunkX) * 16 + w.cx ∧
      w.imageZ + w.cz = (w.chunkZ - d.minChunkZ) * 16 + w.cz ∧
      (16 * (w.band : Int)) = w.imageZ ∧
      0 ≤ w.imageX + w.cx ∧ w.imageX + w.cx < (imageGeometry d).imageW ∧
      0 ≤ w.imageZ + w.cz ∧ w.imageZ + w.cz < (imageGeometry d).imageH ∧
      w.offset = ((w.cz : Int) * (imageGeometry d).imageW + (w.imageX + w.cx)) * w.count ∧
      0 ≤ w.offset ∧ w.offset + w.count ≤ bandBufferSize d imageMode) ∧
    (∀ (x z : Int) (it : ChunkData_LevelDB),
      d.minChunkX ≤ x → x ≤ d.maxChunkX → d.minChunkZ ≤ z → z ≤ d.maxChunkZ →
      chunks_find d.chunks x z = some it →
      ∀ cx cz : Nat, cx < 16 → cz < 16 →
        ∃ w ∈ generateImage_columns d imageMode pixelCopyMemcpy,
          w.chunkX = x ∧ w.chunkZ = z ∧ w.cx = cx ∧ w.cz = cz) ∧
    (∀ w ∈ generateImage_columns d imageMode pixelCopyMemcpy,
      w.chunkX = d.minChunkX → w.chunkZ = d.minChunkZ → w.cx = 0 → w.cz = 0 →
      w.imageX + w.cx = 0 ∧ w.imageZ + w.cz = 0 ∧ w.band = 0 ∧ w.offset = 0) := by
  obtain ⟨hu, hub, hb⟩ := pixelUnit_cases imageMode pixelCopyMemcpy
  have hfitW1 : 16 * (d.maxChunkX - d.minChunkX + 1) ≤ 2147483647 := by
    rcases hb with hb | hb <;> rw [hb] at hfitW <;> omega
  have hg := imageGeometry_of_fit d hX hZ hfitW1 hfitH
  have hgW : (imageGeometry d).imageW = 16 * (d.maxChunkX - d.minChunkX + 1) := by rw [hg]
  have hgH : (imageGeometry d).imageH = 16 * (d.maxChunkZ - d.minChunkZ + 1) := by rw [hg]
  have hgX : (imageGeometry d).chunkOffsetX = wrapInt32 (-d.minChunkX) := by rw [hg]
  have hgZ : (imageGeometry d).chunkOffsetZ = wrapInt32 (-d.minChunkZ) := by rw [hg]
  have hbuf : bandBufferSize d imageMode
      = 16 * (d.maxChunkX - d.minChunkX + 1) * 16 * bytesPerPixel imageMode := by
    unfold bandBufferSize
    rw [hgW]
    rcases hb with hb | hb <;> rw [hb] at hfitW ⊢ <;>
      rw [wrapInt32_of_range (16 * (d.maxChunkX - d.minChunkX + 1) * 16) (by omega) (by omega),
        wrapInt32_of_range _ (by omega) (by omega)]
  have hall : ∀ w ∈ generateImage_columns d imageMode pixelCopyMemcpy,
      d.minChunkX ≤ w.chunkX ∧ w.chunkX ≤ d.maxChunkX ∧
      d.minChunkZ ≤ w.chunkZ ∧ w.chunkZ ≤ d.maxChunkZ ∧ w.cx < 16 ∧ w.cz < 16 ∧
      w.imageX + w.cx = (w.chunkX - d.minChunkX) * 16 + w.cx ∧
      w.imageZ + w.cz = (w.chunkZ - d.minChunkZ) * 16 + w.cz ∧
      (16 * (w.band : Int)) = w.imageZ ∧
      0 ≤ w.imageX + w.cx ∧ w.imageX + w.cx < (imageGeometry d).imageW ∧
      0 ≤ w.imageZ + w.cz ∧ w.imageZ + w.cz < (imageGeometry d).imageH ∧
      w.offset = ((w.cz : Int) * (imageGeometry d).imageW + (w.imageX + w.cx)) * w.count ∧
      0 ≤ w.offset ∧ w.offset + w.count ≤ bandBufferSize d imageMode := by
    intro w hw
    obtain ⟨kz, hkz, kx, hkx, it, hf, hw⟩ := (mem_generateImage_columns d imageMode _ w).mp hw
    rw [hgH, bandSteps_of_fit] at hkz
    rw [hgW, bandSteps_of_fit] at hkx
    have hx : wrapInt32 (d.minChunkX + kx) = d.minChunkX + kx :=
      wrapInt32_of_range _ (by omega) (by omega)
    have hz : wrapInt32 (d.minChunkZ + kz) = d.minChunkZ + kz :=
      wrapInt32_of_range _ (by omega) (by omega)
    rw [hx, hz] at hf
    obtain ⟨hcx, hcz⟩ := chunks_find_some _ _ _ _ hf
    obtain ⟨cz, hcz16, cx, hcx16, rfl⟩ := (mem_chunkColumns _ _ _ _ w).mp hw
    have hix := imageCoord_of_fit d.minChunkX d.maxChunkX it.chunkX (by omega) (by omega) hfitW1
    have hiz := imageCoord_of_fit d.minChunkZ d.maxChunkZ it.chunkZ (by omega) (by omega) hfitH
    have hoff := pixelOffset_of_fit (imageGeometry d).imageW
      ((it.chunkX - d.minChunkX) * 16 + cx) (pixelUnit imageMode pixelCopyMemcpy) cz cx
      ((it.chunkX - d.minChunkX) * 16) hcz16 (by omega) (by omega) (by omega) hu
      (by
        rw [hgW]
        rcases hb with hb | hb <;> rcases hu with hu | hu <;> rw [hb] at hfitW hub <;>
          rw [hu] at hub ⊢ <;> omega)
      rfl
    simp only [hgX, hgZ, hix, hiz]
    rw [hbuf]
    refine ⟨by omega, by omega, by omega, by omega, hcx16, hcz16, trivial, trivial, by omega,
      by omega, by omega, by omega, by omega, hoff.1, ?_, ?_⟩
    · rw [hoff.1]
      exact hoff.2.1
    · rw [hoff.1]
      have h3 := hoff.2.2
      rw [hgW] at h3 ⊢
      generalize ((cz : Int) * (16 * (d.maxChunkX - d.minChunkX + 1))
        + ((it.chunkX - d.minChunkX) * 16 + cx)) * pixelUnit imageMode pixelCopyMemcpy = q
        at h3 ⊢
      rcases hb with hb | hb <;> rcases hu with hu | hu <;> rw [hb] at hub ⊢ <;>
        rw [hu] at hub h3 ⊢ <;> omega
  refine ⟨hgW, hgH, hbuf, hall, ?_, ?_⟩
  · intro x z it hx1 hx2 hz1 hz2 hf cx cz hcx hcz
    obtain ⟨ex, ez⟩ := chunks_find_some _ _ _ _ hf
    refine ⟨_, (mem_generateImage_columns d imageMode _ _).mpr
      ⟨(z - d.minChunkZ).toNat, ?_, (x - d.minChunkX).toNat, ?_, it, ?_,
        (mem_chunkColumns _ _ _ _ _).mpr ⟨cz, hcz, cx, hcx, rfl⟩⟩, ex, ez, rfl, rfl⟩
    · rw [hgH, bandSteps_of_fit]
      omega
    · rw [hgW, bandSteps_of_fit]
      omega
    · rw [wrapInt32_of_range _ (by omega) (by omega),
        wrapInt32_of_range _ (by omega) (by omega)]
      have e1 : d.minChunkX + ((x - d.minChunkX).toNat : Int) = x := by omega
      have e2 : d.minChunkZ + ((z - d.minChunkZ).toNat : Int) = z := by omega
      rw [e1, e2]
      exact hf
  · intro w hw h1 h2 h3 h4
    obtain ⟨_, _, _, _, _, _, a1, a2, a3, _, _, _, _, a4, _, _⟩ := hall w hw
    rw [h1, h3] at a1
    rw [h2, h4] at a2
    rw [h4, h3] at a4
    refine ⟨by rw [h3]; omega, by rw [h4]; omega, by omega, ?_⟩
    rw [a4]
    have : w.imageX = 0 := by
      have := a1
      simp at this
      omega
    rw [this]
    simp


theorem generateImage_column_placement_witness :
    (imageGeometry dimSmall).imageW = 32 ∧ (imageGeometry dimSmall).imageH = 32 ∧
    bandBufferSize dimSmall ImageModeType.kImageModeTerrain = 1536 ∧
    (∃ w ∈ generateImage_columns dimSmall ImageModeType.kImageModeTerrain true,
      w.chunkX = 0 ∧ w.chunkZ = 3 ∧ w.cx = 5 ∧ w.cz = 7) :=
  have h := generateImage_column_placement dimSmall ImageModeType.kImageModeTerrain true
    (by decide) (by decide) (by decide) (by decide) (by decide) (by decide) (by decide)
    (by decide)
  ⟨h.1, h.2.1, h.2.2.1,
   h.2.2.2.2.1 0 3 (emptyChunk 0 3) (by decide) (by decide) (by decide) (by decide) rfl 5 7
     (by decide) (by decide)⟩

/-- C10 (as stated) fails. A scan that meets the overworld chunks (0, 0) and (134217728, 0)
leaves the bounds chunkX in 0 .. 2^27; the chunk (0, 0) is stored and inside them, but
`chunkW * 16` leaves the 32-bit range: `imageW` is -2147483632, not `16 * (maxChunkX -
minChunkX + 1)`, the image column 0 of that chunk is not below `imageW`, and no column is
drawn at all. -/
theorem generateImage_column_placement_counterexample :
    (calcChunkBounds env0 false newDimDataList [(key_origin9, [0]), (key_far9, [0])]).map
        (fun l => l.map boundsOf) =
      some [(0, 134217728, 0, 0), (2147483647, -2147483648, 2147483647, -2147483648),
            (2147483647, -2147483648, 2147483647, -2147483648)] ∧
    boundsOf dimWide = (0, 134217728, 0, 0) ∧
    (chunks_find dimWide.chunks 0 0).isSome = true ∧
    (imageGeometry dimWide).imageW = -2147483632 ∧
    (imageGeometry dimWide).imageW ≠ 16 * (dimWide.maxChunkX - dimWide.minChunkX + 1) ∧
    ¬ ((0 - dimWide.minChunkX) * 16 + 0 < (imageGeometry dimWide).imageW) ∧
    generateImage_columns dimWide ImageModeType.kImageModeTerrain true = [] := by
  decide


/-! ## Loops as folds -/

/-- An invariant indexed by the iteration count holds after a counted loop. -/
theorem foldl_range_inv {S : Type} (f : S → Nat → S) (I : Nat → S → Prop) (n : Nat) (s0 : S)
    (h0 : I 0 s0) (hstep : ∀ i, i < n → ∀ s, I i s → I (i + 1) (f s i)) :
    I n ((List.range n).foldl f s0) := by
  induction n with
  | zero => simpa using h0
  | succ n ih =>
    rw [List.range_succ, List.foldl_append]
    simp only [List.foldl_cons, List.foldl_nil]
    exact hstep n (Nat.lt_succ_self n) _ (ih (fun i hi s hs => hstep i (Nat.lt_succ_of_lt hi) s hs))

theorem setPixel_same (rbuf : SliceBufs) (cy cz : Nat) (x : Int) (p : Pixel) :
    setPixel rbuf cy cz x p cy cz x = p := by
  unfold setPixel
  simp

theorem setPixel_other (rbuf : SliceBufs) (cy cz : Nat) (x : Int) (p : Pixel)
    (cy1 cz1 : Nat) (x1 : Int) (h : ¬(cy1 = cy ∧ cz1 = cz ∧ x1 = x)) :
    setPixel rbuf cy cz x p cy1 cz1 x1 = rbuf cy1 cz1 x1 := by
  unfold setPixel
  rw [if_neg h]

/-- The `cx` and `cz` loops around a column body that, on a column already filled below layer
`lo`, fills it below layer `hi` and touches no other pixel: afterwards every column of the
chunk is filled below `hi`, and nothing else has changed. -/
theorem columns_fold_spec (col : Nat → Nat → SliceBufs → SliceBufs)
    (P : Nat → Nat → Nat → Pixel) (imageX : Int) (lo hi : Nat)
    (hcol : ∀ cx cz r, cx < 16 → cz < 16 →
      (∀ cy, cy < lo → r cy cz (imageX + cx) = P cx cz cy) →
      (∀ cy, cy < hi → col cx cz r cy cz (imageX + cx) = P cx cz cy) ∧
      (∀ cy cz1 x1, ¬(cz1 = cz ∧ x1 = imageX + cx ∧ lo ≤ cy ∧ cy < hi) →
        col cx cz r cy cz1 x1 = r cy cz1 x1))
    (rbuf : SliceBufs)
    (hpre : ∀ cx cz cy : Nat, cx < 16 → cz < 16 → cy < lo →
      rbuf cy cz (imageX + cx) = P cx cz cy) :
    (∀ cx cz cy : Nat, cx < 16 → cz < 16 → cy < hi →
      (List.range 16).foldl (fun r cx =>
        (List.range 16).foldl (fun r1 cz => col cx cz r1) r) rbuf cy cz (imageX + cx)
        = P cx cz cy) ∧
    (∀ cy cz1 x1, ¬(lo ≤ cy ∧ cy < hi ∧ cz1 < 16 ∧ imageX ≤ x1 ∧ x1 < imageX + 16) →
      (List.range 16).foldl (fun r cx =>
        (List.range 16).foldl (fun r1 cz => col cx cz r1) r) rbuf cy cz1 x1
        = rbuf cy cz1 x1) := by
  have houter := foldl_range_inv
    (fun r cx => (List.range 16).foldl (fun r1 cz => col cx cz r1) r)
    (fun n s =>
      (∀ a b cy : Nat, a < n → b < 16 → cy < hi → s cy b (imageX + a) = P a b cy) ∧
      (∀ cy cz1 x1, ¬(lo ≤ cy ∧ cy < hi ∧ cz1 < 16 ∧ imageX ≤ x1 ∧ x1 < imageX + n) →
        s cy cz1 x1 = rbuf cy cz1 x1))
    16 rbuf
    ⟨fun a b cy h => absurd h (Nat.not_lt_zero a), fun _ _ _ _ => rfl⟩
    (by
      intro a ha s ⟨hs1, hs2⟩
      beta_reduce
      have hinner := foldl_range_inv (fun r1 cz => col a cz r1)
        (fun m s1 =>
          (∀ a1 b cy : Nat, (a1 < a ∧ b < 16) ∨ (a1 = a ∧ b < m) → cy < hi →
            s1 cy b (imageX + a1) = P a1 b cy) ∧
          (∀ cy cz1 x1, ¬(lo ≤ cy ∧ cy < hi ∧ x1 = imageX + a ∧ cz1 < m) →
            s1 cy cz1 x1 = s cy cz1 x1))
        16 s
        ⟨fun a1 b cy h hcy => by
            rcases h with h | h
            · exact hs1 a1 b cy h.1 h.2 hcy
            · exact absurd h.2 (Nat.not_lt_zero b),
          fun _ _ _ _ => rfl⟩
        (by
          intro b hb s1 ⟨ht1, ht2⟩
          beta_reduce
          obtain ⟨hc1, hc2⟩ := hcol a b s1 ha hb (by
            intro cy hcy
            rw [ht2 cy b (imageX + a) (by omega), hs2 cy b (imageX + a) (by omega)]
            exact hpre a b cy ha hb hcy)
          constructor
          · intro a1 b1 cy h hcy
            by_cases e : a1 = a ∧ b1 = b
            · rw [e.1, e.2]
              exact hc1 cy hcy
            · rw [hc2 cy b1 (imageX + a1) (by omega)]
              exact ht1 a1 b1 cy (by omega) hcy
          · intro cy cz1 x1 h
            rw [hc2 cy cz1 x1 (by omega)]
            exact ht2 cy cz1 x1 (by omega))
      constructor
      · intro a1 b cy ha1 hb hcy
        exact hinner.1 a1 b cy (by omega) hcy
      · intro cy cz1 x1 h
        rw [hinner.2 cy cz1 x1 (by push_cast at h; omega)]
        exact hs2 cy cz1 x1 (by push_cast at h; omega))
  constructor
  · intro cx cz cy hcx hcz hcy
    exact houter.1 cx cz cy hcx hcz hcy
  · intro cy cz1 x1 h
    exact houter.2 cy cz1 x1 (by push_cast; omega)

/-! ## The legacy path of `generateSlices` -/

theorem legacySlicePixel_top (tbl : BlockTable) (dec : ChunkDecoders) (dimId : Int)
    (ochunk : List Byte) (t cx cz : Nat) (ht : t ≤ 127) :
    legacySlicePixel tbl dec dimId ochunk t cx cz t = legacyDirectPixel tbl dec ochunk cx cz t := by
  unfold legacySlicePixel
  simp only [ht, if_true]
  rw [if_neg]
  rintro ⟨_, h, _⟩
  exact absurd h (Nat.lt_irrefl t)

/-- One column of the legacy path: afterwards the 256 layers of the column hold the closed
form, and no other pixel has changed. -/
theorem sliceColumn_v2_spec (tbl : BlockTable) (dec : ChunkDecoders) (dimId : Int)
    (ochunk : List Byte) (t cx cz : Nat) (x : Int) (rbuf : SliceBufs) :
    (∀ cy, cy < 256 →
      sliceColumn_v2 tbl dec dimId ochunk t cx cz x rbuf cy cz x
        = legacySlicePixel tbl dec dimId ochunk t cx cz cy) ∧
    (∀ cy cz1 x1, ¬(cz1 = cz ∧ x1 = x ∧ 0 ≤ cy ∧ cy < 256) →
      sliceColumn_v2 tbl dec dimId ochunk t cx cz x rbuf cy cz1 x1 = rbuf cy cz1 x1) := by
  -- first loop: heights 0 .. 127
  have h1 := foldl_range_inv (sliceStep_v2 tbl dec dimId ochunk t cx cz x)
    (fun n s =>
      (∀ cy, cy < n → s cy cz x = legacySlicePixel tbl dec dimId ochunk t cx cz cy) ∧
      (∀ cy cz1 x1, ¬(cz1 = cz ∧ x1 = x ∧ cy < n) → s cy cz1 x1 = rbuf cy cz1 x1))
    (MAX_BLOCK_HEIGHT_127 + 1) rbuf
    ⟨fun cy h => absurd h (Nat.not_lt_zero cy), fun _ _ _ _ => rfl⟩
    (by
      intro i hi s ⟨hs1, hs2⟩
      have hi127 : i ≤ 127 := by unfold MAX_BLOCK_HEIGHT_127 at hi; omega
      have hval : sliceStep_v2 tbl dec dimId ochunk t cx cz x s i i cz x
          = legacySlicePixel tbl dec dimId ochunk t cx cz i := by
        unfold sliceStep_v2 legacySlicePixel
        simp only [hi127, if_true]
        by_cases hc : dec.getBlockId_LevelDB_v2 ochunk cx cz i = 0 ∧ i > t ∧
            dimId ≠ kDimIdNether
        · rw [if_pos hc, if_pos hc, setPixel_same, hs1 t hc.2.1,
            legacySlicePixel_top tbl dec dimId ochunk t cx cz (by omega)]
        · rw [if_neg hc, if_neg hc, setPixel_same]
          rfl
      have hframe : ∀ cy cz1 x1, ¬(cy = i ∧ cz1 = cz ∧ x1 = x) →
          sliceStep_v2 tbl dec dimId ochunk t cx cz x s i cy cz1 x1 = s cy cz1 x1 := by
        intro cy cz1 x1 h
        unfold sliceStep_v2
        split <;> exact setPixel_other _ _ _ _ _ _ _ _ h
      constructor
      · intro cy hcy
        by_cases e : cy = i
        · rw [e]; exact hval
        · rw [hframe cy cz x (by omega)]
          exact hs1 cy (by omega)
      · intro cy cz1 x1 h
        rw [hframe cy cz1 x1 (by omega)]
        exact hs2 cy cz1 x1 (by omega))
  -- second loop: heights 128 .. MAX_BLOCK_HEIGHT
  have h2 := foldl_range_inv (fun (r : SliceBufs) i => setPixel r (128 + i) cz x (r 127 cz x))
    (fun n s =>
      (∀ cy, cy < 128 + n → s cy cz x = legacySlicePixel tbl dec dimId ochunk t cx cz cy) ∧
      (∀ cy cz1 x1, ¬(cz1 = cz ∧ x1 = x ∧ cy < 128 + n) → s cy cz1 x1 = rbuf cy cz1 x1))
    (MAX_BLOCK_HEIGHT + 1 - 128)
    ((List.range (MAX_BLOCK_HEIGHT_127 + 1)).foldl
      (sliceStep_v2 tbl dec dimId ochunk t cx cz x) rbuf)
    (by
      refine ⟨fun cy hcy => h1.1 cy (by unfold MAX_BLOCK_HEIGHT_127; omega), ?_⟩
      intro cy cz1 x1 h
      exact h1.2 cy cz1 x1 (by unfold MAX_BLOCK_HEIGHT_127; omega))
    (by
      intro i _ s ⟨hs1, hs2⟩
      beta_reduce
      constructor
      · intro cy hcy
        by_cases e : cy = 128 + i
        · rw [e, setPixel_same, hs1 127 (by omega)]
          unfold legacySlicePixel
          simp only [show ¬ (128 + i ≤ 127) by omega, if_false, show (127 : Nat) ≤ 127 by omega,
            if_true]
        · rw [setPixel_other _ _ _ _ _ _ _ _ (by omega)]
          exact hs1 cy (by omega)
      · intro cy cz1 x1 h
        rw [setPixel_other _ _ _ _ _ _ _ _ (by omega)]
        exact hs2 cy cz1 x1 (by omega))
  unfold sliceColumn_v2
  constructor
  · intro cy hcy
    exact h2.1 cy (by unfold MAX_BLOCK_HEIGHT; omega)
  · intro cy cz1 x1 h
    exact h2.2 cy cz1 x1 (by unfold MAX_BLOCK_HEIGHT; omega)

/-- The legacy path on a found record: every column of the chunk holds the closed form, and
nothing outside the chunk has changed. -/
theorem sliceChunk_v2_spec (tbl : BlockTable) (dec : ChunkDecoders) (dimId : Int)
    (ochunk : List Byte) (top : Nat → Nat → Nat) (imageX : Int) (rbuf : SliceBufs) :
    (∀ cx cz cy : Nat, cx < 16 → cz < 16 → cy < 256 →
      sliceChunk_v2 tbl dec dimId ochunk top imageX rbuf cy cz (imageX + cx)
        = legacySlicePixel tbl dec dimId ochunk (top cx cz) cx cz cy) ∧
    (∀ cy cz1 x1, ¬(cy < 256 ∧ cz1 < 16 ∧ imageX ≤ x1 ∧ x1 < imageX + 16) →
      sliceChunk_v2 tbl dec dimId ochunk top imageX rbuf cy cz1 x1 = rbuf cy cz1 x1) := by
  have h := columns_fold_spec
    (fun cx cz r => sliceColumn_v2 tbl dec dimId ochunk (top cx cz) cx cz (imageX + cx) r)
    (fun cx cz cy => legacySlicePixel tbl dec dimId ochunk (top cx cz) cx cz cy) imageX 0 256
    (fun cx cz r _ _ _ =>
      sliceColumn_v2_spec tbl dec dimId ochunk (top cx cz) cx cz (imageX + cx) r)
    rbuf (fun _ _ cy _ _ h => absurd h (Nat.not_lt_zero cy))
  refine ⟨h.1, fun cy cz1 x1 hn => h.2 cy cz1 x1 (by omega)⟩


/-! ## The cubic path of `generateSlices` -/

theorem cubicDirectPixel_found (tbl : BlockTable) (dec : ChunkDecoders) (dimId : Int)
    (db : List (List Byte × List Byte)) (chunkX chunkZ : Int) (k : Nat) (svalue : List Byte)
    (hget : dbGet db (cubicKey dimId chunkX chunkZ k) = some svalue)
    (cx cz c : Nat) (hc : c < 16) :
    cubicDirectPixel tbl dec dimId db chunkX chunkZ cx cz (k * 16 + c)
      = pixelOfColor (sliceColor_v3 tbl (sliceBlockId_v3 dec svalue cx cz c)
          (sliceBlockData_v3 dec svalue cx cz c)) := by
  unfold cubicDirectPixel
  rw [show (k * 16 + c) / 16 = k by omega, show (k * 16 + c) % 16 = c by omega, hget]

theorem cubicDirectPixel_absent (tbl : BlockTable) (dec : ChunkDecoders) (dimId : Int)
    (db : List (List Byte × List Byte)) (chunkX chunkZ : Int) (k : Nat)
    (hget : dbGet db (cubicKey dimId chunkX chunkZ k) = none)
    (cx cz c : Nat) (hc : c < 16) :
    cubicDirectPixel tbl dec dimId db chunkX chunkZ cx cz (k * 16 + c) = blackPixel := by
  unfold cubicDirectPixel
  rw [show (k * 16 + c) / 16 = k by omega, hget]

theorem cubicRepaints_found (dec : ChunkDecoders) (dimId : Int)
    (db : List (List Byte × List Byte)) (chunkX chunkZ : Int) (k : Nat) (svalue : List Byte)
    (hget : dbGet db (cubicKey dimId chunkX chunkZ k) = some svalue)
    (t cx cz c : Nat) (hc : c < 16) :
    cubicRepaints dec dimId db chunkX chunkZ t cx cz (k * 16 + c) = true ↔
      (sliceBlockId_v3 dec svalue cx cz c = 0 ∧ k * 16 + c > t ∧ dimId ≠ kDimIdNether) := by
  unfold cubicRepaints
  rw [show (k * 16 + c) / 16 = k by omega, show (k * 16 + c) % 16 = c by omega, hget]
  simp only [Bool.and_eq_true, decide_eq_true_eq]
  constructor
  · rintro ⟨⟨h1, h2⟩, h3⟩
    exact ⟨h3, h1, h2⟩
  · rintro ⟨h3, h1, h2⟩
    exact ⟨⟨h1, h2⟩, h3⟩

theorem cubicRepaints_absent (dec : ChunkDecoders) (dimId : Int)
    (db : List (List Byte × List Byte)) (chunkX chunkZ : Int) (k : Nat)
    (hget : dbGet db (cubicKey dimId chunkX chunkZ k) = none)
    (t cx cz c : Nat) (hc : c < 16) :
    cubicRepaints dec dimId db chunkX chunkZ t cx cz (k * 16 + c) = true ↔
      (k * 16 + c > t ∧ dimId ≠ kDimIdNether) := by
  unfold cubicRepaints
  rw [show (k * 16 + c) / 16 = k by omega, hget]
  simp only [Bool.and_eq_true, decide_eq_true_eq, and_true]

theorem cubicSlicePixel_top (tbl : BlockTable) (dec : ChunkDecoders) (dimId : Int)
    (db : List (List Byte × List Byte)) (chunkX chunkZ : Int) (t cx cz : Nat) :
    cubicSlicePixel tbl dec dimId db chunkX chunkZ t cx cz t
      = cubicDirectPixel tbl dec dimId db chunkX chunkZ cx cz t := by
  unfold cubicSlicePixel
  have h : cubicRepaints dec dimId db chunkX chunkZ t cx cz t = false := by
    unfold cubicRepaints
    simp
  rw [h]
  rfl

/-- The `ccy` loop of a found subchunk on one column. -/
theorem sliceColumn_v3_spec (tbl : BlockTable) (dec : ChunkDecoders) (dimId : Int)
    (db : List (List Byte × List Byte)) (chunkX chunkZ : Int) (k : Nat) (svalue : List Byte)
    (hget : dbGet db (cubicKey dimId chunkX chunkZ k) = some svalue)
    (t cx cz : Nat) (x : Int) (r : SliceBufs)
    (hpre : ∀ cy, cy < k * 16 →
      r cy cz x = cubicSlicePixel tbl dec dimId db chunkX chunkZ t cx cz cy) :
    (∀ cy, cy < k * 16 + 16 →
      (List.range 16).foldl (sliceStep_v3 tbl dec dimId svalue k t cx cz x) r cy cz x
        = cubicSlicePixel tbl dec dimId db chunkX chunkZ t cx cz cy) ∧
    (∀ cy cz1 x1, ¬(cz1 = cz ∧ x1 = x ∧ k * 16 ≤ cy ∧ cy < k * 16 + 16) →
      (List.range 16).foldl (sliceStep_v3 tbl dec dimId svalue k t cx cz x) r cy cz1 x1
        = r cy cz1 x1) := by
  have h := foldl_range_inv (sliceStep_v3 tbl dec dimId svalue k t cx cz x)
    (fun m s =>
      (∀ cy, cy < k * 16 + m →
        s cy cz x = cubicSlicePixel tbl dec dimId db chunkX chunkZ t cx cz cy) ∧
      (∀ cy cz1 x1, ¬(cz1 = cz ∧ x1 = x ∧ k * 16 ≤ cy ∧ cy < k * 16 + m) →
        s cy cz1 x1 = r cy cz1 x1))
    16 r ⟨fun cy h => hpre cy (by omega), fun _ _ _ _ => rfl⟩
    (by
      intro c hc s ⟨hs1, hs2⟩
      have hval : sliceStep_v3 tbl dec dimId svalue k t cx cz x s c (k * 16 + c) cz x
          = cubicSlicePixel tbl dec dimId db chunkX chunkZ t cx cz (k * 16 + c) := by
        unfold sliceStep_v3 cubicSlicePixel
        by_cases hr : sliceBlockId_v3 dec svalue cx cz c = 0 ∧ k * 16 + c > t ∧
            dimId ≠ kDimIdNether
        · rw [if_pos hr, setPixel_same,
            if_pos ((cubicRepaints_found dec dimId db chunkX chunkZ k svalue hget t cx cz c
              hc).mpr hr),
            hs1 t (by omega), cubicSlicePixel_top]
        · rw [if_neg hr, setPixel_same, if_neg (fun h =>
            hr ((cubicRepaints_found dec dimId db chunkX chunkZ k svalue hget t cx cz c
              hc).mp h)),
            cubicDirectPixel_found tbl dec dimId db chunkX chunkZ k svalue hget cx cz c hc]
      have hframe : ∀ cy cz1 x1, ¬(cy = k * 16 + c ∧ cz1 = cz ∧ x1 = x) →
          sliceStep_v3 tbl dec dimId svalue k t cx cz x s c cy cz1 x1 = s cy cz1 x1 := by
        intro cy cz1 x1 h
        unfold sliceStep_v3
        split <;> exact setPixel_other _ _ _ _ _ _ _ _ h
      constructor
      · intro cy hcy
        by_cases e : cy = k * 16 + c
        · rw [e]; exact hval
        · rw [hframe cy cz x (by omega)]
          exact hs1 cy (by omega)
      · intro cy cz1 x1 h
        rw [hframe cy cz1 x1 (by omega)]
        exact hs2 cy cz1 x1 (by omega))
  exact h

/-- The `ccy` loop of an absent subchunk on one column. -/
theorem sliceColumn_absent_spec (tbl : BlockTable) (dec : ChunkDecoders) (dimId : Int)
    (db : List (List Byte × List Byte)) (chunkX chunkZ : Int) (k : Nat)
    (hget : dbGet db (cubicKey dimId chunkX chunkZ k) = none)
    (t cx cz : Nat) (x : Int) (r : SliceBufs)
    (hpre : ∀ cy, cy < k * 16 →
      r cy cz x = cubicSlicePixel tbl dec dimId db chunkX chunkZ t cx cz cy) :
    (∀ cy, cy < k * 16 + 16 →
      (List.range 16).foldl (sliceStep_absent dimId k t cz x) r cy cz x
        = cubicSlicePixel tbl dec dimId db chunkX chunkZ t cx cz cy) ∧
    (∀ cy cz1 x1, ¬(cz1 = cz ∧ x1 = x ∧ k * 16 ≤ cy ∧ cy < k * 16 + 16) →
      (List.range 16).foldl (sliceStep_absent dimId k t cz x) r cy cz1 x1 = r cy cz1 x1) := by
  have h := foldl_range_inv (sliceStep_absent dimId k t cz x)
    (fun m s =>
      (∀ cy, cy < k * 16 + m →
        s cy cz x = cubicSlicePixel tbl dec dimId db chunkX chunkZ t cx cz cy) ∧
      (∀ cy cz1 x1, ¬(cz1 = cz ∧ x1 = x ∧ k * 16 ≤ cy ∧ cy < k * 16 + m) →
        s cy cz1 x1 = r cy cz1 x1))
    16 r ⟨fun cy h => hpre cy (by omega), fun _ _ _ _ => rfl⟩
    (by
      intro c hc s ⟨hs1, hs2⟩
      have hval : sliceStep_absent dimId k t cz x s c (k * 16 + c) cz x
          = cubicSlicePixel tbl dec dimId db chunkX chunkZ t cx cz (k * 16 + c) := by
        unfold sliceStep_absent cubicSlicePixel
        by_cases hr : k * 16 + c > t ∧ dimId ≠ kDimIdNether
        · rw [if_pos hr, setPixel_same,
            if_pos ((cubicRepaints_absent dec dimId db chunkX chunkZ k hget t cx cz c hc).mpr
              hr),
            hs1 t (by omega), cubicSlicePixel_top]
        · rw [if_neg hr, setPixel_same, if_neg (fun h =>
            hr ((cubicRepaints_absent dec dimId db chunkX chunkZ k hget t cx cz c hc).mp h)),
            cubicDirectPixel_absent tbl dec dimId db chunkX chunkZ k hget cx cz c hc]
      have hframe : ∀ cy cz1 x1, ¬(cy = k * 16 + c ∧ cz1 = cz ∧ x1 = x) →
          sliceStep_absent dimId k t cz x s c cy cz1 x1 = s cy cz1 x1 := by
        intro cy cz1 x1 h
        unfold sliceStep_absent
        split <;> exact setPixel_other _ _ _ _ _ _ _ _ h
      constructor
      · intro cy hcy
        by_cases e : cy = k * 16 + c
        · rw [e]; exact hval
        · rw [hframe cy cz x (by omega)]
          exact hs1 cy (by omega)
      · intro cy cz1 x1 h
        rw [hframe cy cz1 x1 (by omega)]
        exact hs2 cy cz1 x1 (by omega))
  exact h

/-- One iteration of the `cubicy` loop: on a chunk filled below layer `16 * k` it fills the
chunk below layer `16 * k + 16` and changes nothing else. -/
theorem sliceSubchunk_spec (tbl : BlockTable) (dec : ChunkDecoders) (dimId : Int)
    (db : List (List Byte × List Byte)) (chunkX chunkZ : Int) (top : Nat → Nat → Nat)
    (imageX : Int) (k : Nat) (r : SliceBufs)
    (hpre : ∀ cx cz cy : Nat, cx < 16 → cz < 16 → cy < k * 16 →
      r cy cz (imageX + cx)
        = cubicSlicePixel tbl dec dimId db chunkX chunkZ (top cx cz) cx cz cy) :
    (∀ cx cz cy : Nat, cx < 16 → cz < 16 → cy < k * 16 + 16 →
      sliceSubchunk tbl dec dimId db chunkX chunkZ top imageX r k cy cz (imageX + cx)
        = cubicSlicePixel tbl dec dimId db chunkX chunkZ (top cx cz) cx cz cy) ∧
    (∀ cy cz1 x1,
      ¬(k * 16 ≤ cy ∧ cy < k * 16 + 16 ∧ cz1 < 16 ∧ imageX ≤ x1 ∧ x1 < imageX + 16) →
      sliceSubchunk tbl dec dimId db chunkX chunkZ top imageX r k cy cz1 x1 = r cy cz1 x1) := by
  unfold sliceSubchunk
  cases hget : dbGet db (cubicKey dimId chunkX chunkZ k) with
  | some svalue =>
    exact columns_fold_spec
      (fun cx cz r1 => (List.range 16).foldl
        (sliceStep_v3 tbl dec dimId svalue k (top cx cz) cx cz (imageX + cx)) r1)
      (fun cx cz cy => cubicSlicePixel tbl dec dimId db chunkX chunkZ (top cx cz) cx cz cy)
      imageX (k * 16) (k * 16 + 16)
      (fun cx cz r1 _ _ h => sliceColumn_v3_spec tbl dec dimId db chunkX chunkZ k svalue hget
        (top cx cz) cx cz (imageX + cx) r1 h)
      r hpre
  | none =>
    exact columns_fold_spec
      (fun cx cz r1 => (List.range 16).foldl
        (sliceStep_absent dimId k (top cx cz) cz (imageX + cx)) r1)
      (fun cx cz cy => cubicSlicePixel tbl dec dimId db chunkX chunkZ (top cx cz) cx cz cy)
      imageX (k * 16) (k * 16 + 16)
      (fun cx cz r1 _ _ h => sliceColumn_absent_spec tbl dec dimId db chunkX chunkZ k hget
        (top cx cz) cx cz (imageX + cx) r1 h)
      r hpre

/-- The whole `cubicy` loop. -/
theorem sliceCubic_spec (tbl : BlockTable) (dec : ChunkDecoders) (dimId : Int)
    (db : List (List Byte × List Byte)) (chunkX chunkZ : Int) (top : Nat → Nat → Nat)
    (imageX : Int) (rbuf : SliceBufs) :
    (∀ cx cz cy : Nat, cx < 16 → cz < 16 → cy < 256 →
      (List.range MAX_CUBIC_Y).foldl (sliceSubchunk tbl dec dimId db chunkX chunkZ top imageX)
        rbuf cy cz (imageX + cx)
        = cubicSlicePixel tbl dec dimId db chunkX chunkZ (top cx cz) cx cz cy) ∧
    (∀ cy cz1 x1, ¬(cy < 256 ∧ cz1 < 16 ∧ imageX ≤ x1 ∧ x1 < imageX + 16) →
      (List.range MAX_CUBIC_Y).foldl (sliceSubchunk tbl dec dimId db chunkX chunkZ top imageX)
        rbuf cy cz1 x1 = rbuf cy cz1 x1) := by
  have h := foldl_range_inv (sliceSubchunk tbl dec dimId db chunkX chunkZ top imageX)
    (fun k s =>
      (∀ cx cz cy : Nat, cx < 16 → cz < 16 → cy < k * 16 →
        s cy cz (imageX + cx)
          = cubicSlicePixel tbl dec dimId db chunkX chunkZ (top cx cz) cx cz cy) ∧
      (∀ cy cz1 x1, ¬(cy < k * 16 ∧ cz1 < 16 ∧ imageX ≤ x1 ∧ x1 < imageX + 16) →
        s cy cz1 x1 = rbuf cy cz1 x1))
    MAX_CUBIC_Y rbuf
    ⟨fun _ _ cy _ _ h => absurd h (by omega), fun _ _ _ _ => rfl⟩
    (by
      intro k _ s ⟨hs1, hs2⟩
      obtain ⟨hk1, hk2⟩ := sliceSubchunk_spec tbl dec dimId db chunkX chunkZ top imageX k s hs1
      constructor
      · intro cx cz cy hcx hcz hcy
        exact hk1 cx cz cy hcx hcz (by omega)
      · intro cy cz1 x1 h
        rw [hk2 cy cz1 x1 (by omega)]
        exact hs2 cy cz1 x1 (by omega))
  unfold MAX_CUBIC_Y at h ⊢
  exact ⟨fun cx cz cy hcx hcz hcy => h.1 cx cz cy hcx hcz (by omega),
    fun cy cz1 x1 hn => h.2 cy cz1 x1 (by omega)⟩


theorem black_or (A B C : Prop) [Decidable A] [Decidable B] [Decidable C] (r : Pixel)
    (h : C ↔ A ∨ B) :
    (if A then blackPixel else if B then blackPixel else r) = if C then blackPixel else r := by
  by_cases hA : A <;> by_cases hB : B <;> simp [hA, hB, h]

/-- The clearing of a chunk area: black inside the 16 x 16 columns of the chunk on the layers
0 .. 255, unchanged elsewhere. -/
theorem sliceClear_spec (imageX : Int) (r : SliceBufs) (cy cz : Nat) (x : Int) :
    sliceClear imageX r cy cz x
      = if cy < 256 ∧ cz < 16 ∧ imageX ≤ x ∧ x < imageX + 16 then blackPixel
        else r cy cz x := by
  have houter := foldl_range_inv
    (fun (r0 : SliceBufs) n =>
      (List.range 16).foldl (fun r1 m =>
        (List.range 16).foldl (fun r2 (i : Nat) => setPixel r2 n m (imageX + i) blackPixel) r1) r0)
    (fun n s => ∀ (c z : Nat) (x1 : Int),
      s c z x1 = if c < n ∧ z < 16 ∧ imageX ≤ x1 ∧ x1 < imageX + 16 then blackPixel
        else r c z x1)
    (MAX_BLOCK_HEIGHT + 1) r
    (by
      intro c z x1
      rw [if_neg (by omega)])
    (by
      intro n _ s hs
      beta_reduce
      have hmid := foldl_range_inv
        (fun (r1 : SliceBufs) m =>
          (List.range 16).foldl (fun r2 (i : Nat) => setPixel r2 n m (imageX + i) blackPixel) r1)
        (fun m s1 => ∀ (c z : Nat) (x1 : Int),
          s1 c z x1 = if (c < n ∧ z < 16 ∧ imageX ≤ x1 ∧ x1 < imageX + 16) ∨
              (c = n ∧ z < m ∧ imageX ≤ x1 ∧ x1 < imageX + 16) then blackPixel
            else r c z x1)
        16 s
        (by
          intro c z x1
          rw [hs c z x1]
          by_cases h : c < n ∧ z < 16 ∧ imageX ≤ x1 ∧ x1 < imageX + 16
          · rw [if_pos h, if_pos (Or.inl h)]
          · rw [if_neg h, if_neg (by omega)])
        (by
          intro m hm s1 hs1
          beta_reduce
          have hin := foldl_range_inv
            (fun (r2 : SliceBufs) i => setPixel r2 n m (imageX + i) blackPixel)
            (fun j s2 => ∀ (c z : Nat) (x1 : Int),
              s2 c z x1 = if (c < n ∧ z < 16 ∧ imageX ≤ x1 ∧ x1 < imageX + 16) ∨
                  (c = n ∧ z < m ∧ imageX ≤ x1 ∧ x1 < imageX + 16) ∨
                  (c = n ∧ z = m ∧ imageX ≤ x1 ∧ x1 < imageX + j) then blackPixel
                else r c z x1)
            16 s1
            (by
              intro c z x1
              rw [hs1 c z x1]
              by_cases h : (c < n ∧ z < 16 ∧ imageX ≤ x1 ∧ x1 < imageX + 16) ∨
                  (c = n ∧ z < m ∧ imageX ≤ x1 ∧ x1 < imageX + 16)
              · rw [if_pos h, if_pos (by omega)]
              · rw [if_neg h, if_neg (by omega)])
            (by
              intro j _ s2 hs2 c z x1
              beta_reduce
              unfold setPixel
              rw [hs2 c z x1]
              exact black_or _ _ _ _ (by push_cast; omega))
          intro c z x1
          rw [hin c z x1]
          by_cases h : (c < n ∧ z < 16 ∧ imageX ≤ x1 ∧ x1 < imageX + 16) ∨
              (c = n ∧ z < m + 1 ∧ imageX ≤ x1 ∧ x1 < imageX + 16)
          · rw [if_pos h, if_pos (by push_cast; omega)]
          · rw [if_neg h, if_neg (by push_cast; omega)])
      intro c z x1
      rw [hmid c z x1]
      by_cases h : c < n + 1 ∧ z < 16 ∧ imageX ≤ x1 ∧ x1 < imageX + 16
      · rw [if_pos h, if_pos (by omega)]
      · rw [if_neg h, if_neg (by omega)])
  unfold sliceClear
  rw [houter cy cz x]
  unfold MAX_BLOCK_HEIGHT
  rfl

theorem cubicFoundCount_zero (dimId : Int) (db : List (List Byte × List Byte))
    (chunkX chunkZ : Int) (h : cubicFoundCount dimId db chunkX chunkZ ≤ 0) (k : Nat)
    (hk : k < 16) : dbGet db (cubicKey dimId chunkX chunkZ k) = none := by
  unfold cubicFoundCount MAX_CUBIC_Y at h
  have h0 : (List.range 16).countP
      (fun cubicy => (dbGet db (cubicKey dimId chunkX chunkZ cubicy)).isSome) = 0 := by omega
  rw [List.countP_eq_zero] at h0
  have := h0 k (List.mem_range.mpr hk)
  cases hget : dbGet db (cubicKey dimId chunkX chunkZ k) with
  | none => rfl
  | some v => rw [hget] at this; simp at this

/-- Without any cubic record, every slice pixel of the chunk is black. -/
theorem cubicSlicePixel_none_found (tbl : BlockTable) (dec : ChunkDecoders) (dimId : Int)
    (db : List (List Byte × List Byte)) (chunkX chunkZ : Int)
    (h : cubicFoundCount dimId db chunkX chunkZ ≤ 0) (t cx cz cy : Nat) (hcy : cy < 256) :
    cubicSlicePixel tbl dec dimId db chunkX chunkZ t cx cz cy = blackPixel := by
  have hdirect : ∀ y, y < 256 →
      cubicDirectPixel tbl dec dimId db chunkX chunkZ cx cz y = blackPixel := by
    intro y hy
    unfold cubicDirectPixel
    rw [cubicFoundCount_zero dimId db chunkX chunkZ h (y / 16) (by omega)]
  unfold cubicSlicePixel
  by_cases hr : cubicRepaints dec dimId db chunkX chunkZ t cx cz cy = true
  · rw [if_pos hr]
    have : cy > t := by
      unfold cubicRepaints at hr
      simp only [Bool.and_eq_true, decide_eq_true_eq] at hr
      exact hr.1.1
    exact hdirect t (by omega)
  · rw [if_neg hr]
    exact hdirect cy hcy

/-- One chunk of `generateSlices`: afterwards the 256 layers of every column of the chunk hold
the closed form `slicePixel`, and no pixel outside the chunk has changed. -/
theorem generateSlices_chunk_spec (tbl : BlockTable) (dec : ChunkDecoders) (dimId : Int)
    (db : List (List Byte × List Byte)) (chunkX chunkZ : Int) (top : Nat → Nat → Nat)
    (imageX : Int) (rbuf : SliceBufs) :
    (∀ cx cz cy : Nat, cx < 16 → cz < 16 → cy < 256 →
      generateSlices_chunk tbl dec dimId db chunkX chunkZ top imageX rbuf cy cz (imageX + cx)
        = slicePixel tbl dec dimId db chunkX chunkZ (top cx cz) cx cz cy) ∧
    (∀ cy cz1 x1, ¬(cy < 256 ∧ cz1 < 16 ∧ imageX ≤ x1 ∧ x1 < imageX + 16) →
      generateSlices_chunk tbl dec dimId db chunkX chunkZ top imageX rbuf cy cz1 x1
        = rbuf cy cz1 x1) := by
  unfold generateSlices_chunk slicePixel
  cases hl : dbGet db (legacyKey dimId chunkX chunkZ) with
  | some ochunk => exact sliceChunk_v2_spec tbl dec dimId ochunk top imageX rbuf
  | none =>
    obtain ⟨hc1, hc2⟩ := sliceCubic_spec tbl dec dimId db chunkX chunkZ top imageX rbuf
    by_cases hcount : cubicFoundCount dimId db chunkX chunkZ ≤ 0
    · simp only [hcount, if_true]
      constructor
      · intro cx cz cy hcx hcz hcy
        rw [sliceClear_spec, if_pos (by omega),
          cubicSlicePixel_none_found tbl dec dimId db chunkX chunkZ hcount _ _ _ _ hcy]
      · intro cy cz1 x1 h
        rw [sliceClear_spec, if_neg h]
        exact hc2 cy cz1 x1 h
    · simp only [hcount, if_false]
      exact ⟨hc1, hc2⟩

/-- One band of `generateSlices`: when its loop ends every column of every chunk position of
the band holds the closed form of its chunk. -/
theorem generateSlices_band_spec (tbl : BlockTable) (dec : ChunkDecoders)
    (d : DimensionData_LevelDB) (db : List (List Byte × List Byte)) (kz : Nat)
    (rbuf : SliceBufs) (kx cx cz cy : Nat)
    (hkx : kx < bandSteps (imageGeometry d).imageW) (hcx : cx < 16) (hcz : cz < 16)
    (hcy : cy < 256) :
    generateSlices_band tbl dec d db kz rbuf cy cz (16 * (kx : Int) + cx)
      = slicePixel tbl dec d.dimId db (wrapInt32 (d.minChunkX + kx))
          (wrapInt32 (d.minChunkZ + kz))
          (sliceTop d (wrapInt32 (d.minChunkX + kx)) (wrapInt32 (d.minChunkZ + kz)) cx cz)
          cx cz cy := by
  have h := foldl_range_inv
    (fun r (k : Nat) =>
      generateSlices_chunk tbl dec d.dimId db
        (wrapInt32 (d.minChunkX + k)) (wrapInt32 (d.minChunkZ + kz))
        (sliceTop d (wrapInt32 (d.minChunkX + k)) (wrapInt32 (d.minChunkZ + kz)))
        (16 * (k : Int)) r)
    (fun n s => ∀ k a b c : Nat, k < n → a < 16 → b < 16 → c < 256 →
      s c b (16 * (k : Int) + a)
        = slicePixel tbl dec d.dimId db (wrapInt32 (d.minChunkX + k))
            (wrapInt32 (d.minChunkZ + kz))
            (sliceTop d (wrapInt32 (d.minChunkX + k)) (wrapInt32 (d.minChunkZ + kz)) a b)
            a b c)
    (bandSteps (imageGeometry d).imageW) rbuf
    (fun k _ _ _ h => absurd h (Nat.not_lt_zero k))
    (by
      intro n _ s hs k a b c hk ha hb hc
      beta_reduce
      obtain ⟨h1, h2⟩ := generateSlices_chunk_spec tbl dec d.dimId db
        (wrapInt32 (d.minChunkX + n)) (wrapInt32 (d.minChunkZ + kz))
        (sliceTop d (wrapInt32 (d.minChunkX + n)) (wrapInt32 (d.minChunkZ + kz)))
        (16 * (n : Int)) s
      by_cases e : k = n
      · rw [e]
        exact h1 a b c ha hb hc
      · rw [h2 c b (16 * (k : Int) + a) (by omega)]
        exact hs k a b c (by omega) ha hb hc)
  unfold generateSlices_band
  exact h kx cx cz cy hkx hcx hcz hcy


theorem legacyKey_ne_cubicKey (dimId chunkX chunkZ : Int) (k : Nat) :
    legacyKey dimId chunkX chunkZ ≠ cubicKey dimId chunkX chunkZ k := by
  intro h
  have hl := congrArg List.length h
  unfold legacyKey cubicKey int32Bytes at hl
  split_ifs at hl <;> simp at hl

theorem cubicKey_ne (dimId chunkX chunkZ : Int) (k1 k2 : Nat) (h1 : k1 < 256) (h2 : k2 < 256)
    (hne : k1 ≠ k2) : cubicKey dimId chunkX chunkZ k1 ≠ cubicKey dimId chunkX chunkZ k2 := by
  intro h
  have hb : (Fin.ofNat (k1 % 256) : Byte) = Fin.ofNat (k2 % 256) := by
    unfold cubicKey at h
    split_ifs at h
    · have := List.append_cancel_left h
      simpa using this
    · have := List.append_cancel_left h
      simpa using this
  have hv := congrArg Fin.val hb
  simp only [Fin.ofNat, Nat.mod_mod] at hv
  omega

/-- C11 (air continuity). For a column whose recorded top height is `top cx cz`, a height `y`
above it, and block id 0 decoded there by `generateSlices` (on the legacy or on the cubic
path): outside the nether the slice pixel of the column at height `y` is the slice pixel of the
same column at the top height, in the nether it is the colour of block id 0. -/
theorem generateSlices_air_continuity (tbl : BlockTable) (dec : ChunkDecoders) (dimId : Int)
    (db : List (List Byte × List Byte)) (chunkX chunkZ : Int) (top : Nat → Nat → Nat)
    (imageX : Int) (rbuf : SliceBufs) (cx cz y : Nat) (data : Int)
    (hcx : cx < 16) (hcz : cz < 16) (hy : y ≤ MAX_BLOCK_HEIGHT) (ht : top cx cz < y)
    (hair : sliceDecoded dec dimId db chunkX chunkZ cx cz y = some (0, data)) :
    (dimId ≠ kDimIdNether →
      generateSlices_chunk tbl dec dimId db chunkX chunkZ top imageX rbuf y cz (imageX + cx)
        = generateSlices_chunk tbl dec dimId db chunkX chunkZ top imageX rbuf
            (top cx cz) cz (imageX + cx)) ∧
    (dimId = kDimIdNether →
      generateSlices_chunk tbl dec dimId db chunkX chunkZ top imageX rbuf y cz (imageX + cx)
        = pixelOfColor (blockColor tbl 0 data)) := by
  unfold MAX_BLOCK_HEIGHT at hy
  obtain ⟨h1, _⟩ := generateSlices_chunk_spec tbl dec dimId db chunkX chunkZ top imageX rbuf
  rw [h1 cx cz y hcx hcz (by omega), h1 cx cz (top cx cz) hcx hcz (by omega)]
  unfold slicePixel
  unfold sliceDecoded at hair
  cases hl : dbGet db (legacyKey dimId chunkX chunkZ) with
  | some ochunk =>
    rw [hl] at hair
    dsimp only at hair ⊢
    unfold MAX_BLOCK_HEIGHT_127 at hair
    have hy127 : y ≤ 127 := by
      by_contra hc
      rw [if_neg hc] at hair
      exact Option.noConfusion hair
    rw [if_pos hy127] at hair
    have hpair := Option.some.inj hair
    have hid : dec.getBlockId_LevelDB_v2 ochunk cx cz y = 0 := congrArg Prod.fst hpair
    have hdata : dec.getBlockData_LevelDB_v2 ochunk cx cz y = data := congrArg Prod.snd hpair
    rw [legacySlicePixel_top tbl dec dimId ochunk (top cx cz) cx cz (by omega)]
    unfold legacySlicePixel
    simp only [hy127, if_true]
    constructor
    · intro hd
      rw [if_pos ⟨hid, ht, hd⟩]
    · intro hd
      rw [if_neg (fun h => h.2.2 hd)]
      unfold legacyDirectPixel
      rw [hid, hdata]
  | none =>
    rw [hl] at hair
    dsimp only at hair ⊢
    cases hc : dbGet db (cubicKey dimId chunkX chunkZ (y / 16)) with
    | none =>
      rw [hc] at hair
      exact Option.noConfusion hair
    | some svalue =>
      rw [hc] at hair
      have hpair := Option.some.inj hair
      have hid : sliceBlockId_v3 dec svalue cx cz (y % 16) = 0 := congrArg Prod.fst hpair
      have hdata : sliceBlockData_v3 dec svalue cx cz (y % 16) = data :=
        congrArg Prod.snd hpair
      have hyk : y = y / 16 * 16 + y % 16 := by omega
      have hrep := cubicRepaints_found dec dimId db chunkX chunkZ (y / 16) svalue hc
        (top cx cz) cx cz (y % 16) (by omega)
      rw [← hyk] at hrep
      rw [cubicSlicePixel_top]
      unfold cubicSlicePixel
      constructor
      · intro hd
        rw [if_pos (hrep.mpr ⟨hid, ht, hd⟩)]
      · intro hd
        rw [if_neg (fun h => (hrep.mp h).2.2 hd)]
        have hdir := cubicDirectPixel_found tbl dec dimId db chunkX chunkZ (y / 16) svalue hc
          cx cz (y % 16) (by omega)
        rw [← hyk] at hdir
        rw [hdir, hid, hdata]
        unfold sliceColor_v3
        rw [if_pos (by omega)]

/-- Witness for C11: the column with non-air up to height 10 and air above, at height 30, in
the overworld. -/
theorem generateSlices_air_continuity_witness :
    sliceDecoded decBytes 0 dbColumn10 0 0 0 0 30 = some (0, 0) ∧
    generateSlices_chunk tblPlain decBytes 0 dbColumn10 0 0 (fun _ _ => 10) 0
        (fun _ _ _ => blackPixel) 30 0 (0 + (0 : Nat))
      = generateSlices_chunk tblPlain decBytes 0 dbColumn10 0 0 (fun _ _ => 10) 0
          (fun _ _ _ => blackPixel) 10 0 (0 + (0 : Nat)) :=
  ⟨by decide,
   (generateSlices_air_continuity tblPlain decBytes 0 dbColumn10 0 0 (fun _ _ => 10) 0
      (fun _ _ _ => blackPixel) 0 0 30 0 (by decide) (by decide) (by decide) (by decide)
      (by decide)).1 (by decide)⟩

/-- C12 (legacy ceiling). For a chunk found as a legacy record, the slice pixel of every
column at every height from 128 to `MAX_BLOCK_HEIGHT` is the slice pixel of the same column
at height 127. -/
theorem generateSlices_legacy_mirrors_127 (tbl : BlockTable) (dec : ChunkDecoders)
    (dimId : Int) (db : List (List Byte × List Byte)) (chunkX chunkZ : Int)
    (top : Nat → Nat → Nat) (imageX : Int) (rbuf : SliceBufs) (ochunk : List Byte)
    (cx cz y : Nat)
    (hfound : dbGet db (legacyKey dimId chunkX chunkZ) = some ochunk)
    (hcx : cx < 16) (hcz : cz < 16) (hlo : 128 ≤ y) (hhi : y ≤ MAX_BLOCK_HEIGHT) :
    generateSlices_chunk tbl dec dimId db chunkX chunkZ top imageX rbuf y cz (imageX + cx)
      = generateSlices_chunk tbl dec dimId db chunkX chunkZ top imageX rbuf 127 cz
          (imageX + cx) := by
  unfold MAX_BLOCK_HEIGHT at hhi
  obtain ⟨h1, _⟩ := generateSlices_chunk_spec tbl dec dimId db chunkX chunkZ top imageX rbuf
  rw [h1 cx cz y hcx hcz (by omega), h1 cx cz 127 hcx hcz (by omega)]
  unfold slicePixel
  rw [hfound]
  dsimp only
  unfold legacySlicePixel
  rw [if_neg (by omega), if_pos (by omega)]

/-- Witness for C12: the legacy record of the chunk (0, 0) at height 200. -/
theorem generateSlices_legacy_mirrors_127_witness :
    dbGet dbColumn10 (legacyKey 0 0 0) = some (List.replicate 11 1) ∧
    generateSlices_chunk tblPlain decBytes 0 dbColumn10 0 0 (fun _ _ => 10) 0
        (fun _ _ _ => blackPixel) 200 5 (0 + (3 : Nat))
      = generateSlices_chunk tblPlain decBytes 0 dbColumn10 0 0 (fun _ _ => 10) 0
          (fun _ _ _ => blackPixel) 127 5 (0 + (3 : Nat)) :=
  ⟨by decide,
   generateSlices_legacy_mirrors_127 tblPlain decBytes 0 dbColumn10 0 0 (fun _ _ => 10) 0
     (fun _ _ _ => blackPixel) (List.replicate 11 1) 3 5 200 (by decide) (by decide)
     (by decide) (by decide) (by decide)⟩

/-- The pixel a column of a chunk without legacy record shows in subchunk `k` when the
subchunk is absent or holds only air, for a table whose air is black: the pixel of the top
height above it outside the nether, black otherwise. -/
theorem cubicSlicePixel_air (tbl : BlockTable) (dec : ChunkDecoders) (dimId : Int)
    (db : List (List Byte × List Byte)) (chunkX chunkZ : Int) (k : Nat)
    (hblack : ∀ data, pixelOfColor (blockColor tbl 0 data) = blackPixel)
    (hk : ∀ svalue, dbGet db (cubicKey dimId chunkX chunkZ k) = some svalue →
      ∀ c, c < 16 → ∀ cx cz, cx < 16 → cz < 16 → sliceBlockId_v3 dec svalue cx cz c = 0)
    (t cx cz c : Nat) (hcx : cx < 16) (hcz : cz < 16) (hc : c < 16) :
    cubicSlicePixel tbl dec dimId db chunkX chunkZ t cx cz (k * 16 + c)
      = if k * 16 + c > t ∧ dimId ≠ kDimIdNether then
          cubicDirectPixel tbl dec dimId db chunkX chunkZ cx cz t
        else blackPixel := by
  unfold cubicSlicePixel
  cases hget : dbGet db (cubicKey dimId chunkX chunkZ k) with
  | none =>
    have hrep := cubicRepaints_absent dec dimId db chunkX chunkZ k hget t cx cz c hc
    by_cases h : k * 16 + c > t ∧ dimId ≠ kDimIdNether
    · rw [if_pos (hrep.mpr h), if_pos h]
    · rw [if_neg (fun h1 => h (hrep.mp h1)), if_neg h,
        cubicDirectPixel_absent tbl dec dimId db chunkX chunkZ k hget cx cz c hc]
  | some svalue =>
    have hid := hk svalue hget c hc cx cz hcx hcz
    have hrep := cubicRepaints_found dec dimId db chunkX chunkZ k svalue hget t cx cz c hc
    by_cases h : k * 16 + c > t ∧ dimId ≠ kDimIdNether
    · rw [if_pos (hrep.mpr ⟨hid, h⟩), if_pos h]
    · rw [if_neg (fun h1 => h (hrep.mp h1).2), if_neg h,
        cubicDirectPixel_found tbl dec dimId db chunkX chunkZ k svalue hget cx cz c hc, hid]
      unfold sliceColor_v3
      rw [if_pos (by omega)]
      exact hblack _

/-- C13 (amended: absent subchunk, for a block table whose air is black). Take a chunk without
legacy record, a store `db1` where subchunk `k` of the chunk is absent and a store `db2` that
differs from it only in holding a record for that subchunk in which every decoded block id is
0. With a block table whose air colour is black (`hblack`: the three stored colour bytes of
block id 0 are 0), `generateSlices` produces the same 16 slice pixels for the subchunk from
both stores, in every column, for every dimension and every recorded top height. -/
theorem generateSlices_absent_subchunk_as_air (tbl : BlockTable) (dec : ChunkDecoders)
    (dimId : Int) (db1 db2 : List (List Byte × List Byte)) (chunkX chunkZ : Int)
    (top : Nat → Nat → Nat) (imageX : Int) (rbuf : SliceBufs) (k : Nat) (svalue : List Byte)
    (cx cz ccy : Nat)
    (hblack : ∀ data, pixelOfColor (blockColor tbl 0 data) = blackPixel)
    (hk : k < MAX_CUBIC_Y)
    (hlegacy : dbGet db1 (legacyKey dimId chunkX chunkZ) = none)
    (habsent : dbGet db1 (cubicKey dimId chunkX chunkZ k) = none)
    (hpresent : dbGet db2 (cubicKey dimId chunkX chunkZ k) = some svalue)
    (hair : ∀ c, c < 16 → ∀ x z, x < 16 → z < 16 → sliceBlockId_v3 dec svalue x z c = 0)
    (hsame : ∀ key, key ≠ cubicKey dimId chunkX chunkZ k → dbGet db2 key = dbGet db1 key)
    (hcx : cx < 16) (hcz : cz < 16) (hccy : ccy < 16) :
    generateSlices_chunk tbl dec dimId db1 chunkX chunkZ top imageX rbuf (k * 16 + ccy) cz
        (imageX + cx)
      = generateSlices_chunk tbl dec dimId db2 chunkX chunkZ top imageX rbuf (k * 16 + ccy) cz
          (imageX + cx) := by
  unfold MAX_CUBIC_Y at hk
  obtain ⟨h1, _⟩ := generateSlices_chunk_spec tbl dec dimId db1 chunkX chunkZ top imageX rbuf
  obtain ⟨h2, _⟩ := generateSlices_chunk_spec tbl dec dimId db2 chunkX chunkZ top imageX rbuf
  have hlegacy2 : dbGet db2 (legacyKey dimId chunkX chunkZ) = none := by
    rw [hsame _ (legacyKey_ne_cubicKey dimId chunkX chunkZ k)]
    exact hlegacy
  rw [h1 cx cz (k * 16 + ccy) hcx hcz (by omega), h2 cx cz (k * 16 + ccy) hcx hcz (by omega)]
  unfold slicePixel
  rw [hlegacy, hlegacy2]
  dsimp only
  rw [cubicSlicePixel_air tbl dec dimId db1 chunkX chunkZ k hblack
      (fun v hv => by rw [habsent] at hv; exact Option.noConfusion hv)
      (top cx cz) cx cz ccy hcx hcz hccy,
    cubicSlicePixel_air tbl dec dimId db2 chunkX chunkZ k hblack
      (fun v hv => by
        rw [hpresent] at hv
        rw [← Option.some.inj hv]
        exact hair)
      (top cx cz) cx cz ccy hcx hcz hccy]
  by_cases h : k * 16 + ccy > top cx cz ∧ dimId ≠ kDimIdNether
  · rw [if_pos h, if_pos h]
    have htk : top cx cz = top cx cz / 16 * 16 + top cx cz % 16 := by omega
    by_cases hsub : top cx cz / 16 = k
    · rw [htk, hsub,
        cubicDirectPixel_absent tbl dec dimId db1 chunkX chunkZ k habsent cx cz _ (by omega),
        cubicDirectPixel_found tbl dec dimId db2 chunkX chunkZ k svalue hpresent cx cz _
          (by omega),
        hair _ (by omega) cx cz hcx hcz]
      unfold sliceColor_v3
      rw [if_pos (by omega)]
      exact (hblack _).symm
    · unfold cubicDirectPixel
      rw [hsame _ (cubicKey_ne dimId chunkX chunkZ _ k (by omega) (by omega) hsub)]
  · rw [if_neg h, if_neg h]

/-- Witness for C13: the empty store against the store holding an all-air subchunk 1 of the
overworld chunk (0, 0). -/
theorem generateSlices_absent_subchunk_as_air_witness :
    generateSlices_chunk tblPlain decBytes 0 [] 0 0 (fun _ _ => 10) 0
        (fun _ _ _ => (1, 2, 3)) (1 * 16 + 4) 5 (0 + (3 : Nat))
      = generateSlices_chunk tblPlain decBytes 0 dbAirSubchunk 0 0 (fun _ _ => 10) 0
          (fun _ _ _ => (1, 2, 3)) (1 * 16 + 4) 5 (0 + (3 : Nat)) :=
  generateSlices_absent_subchunk_as_air tblPlain decBytes 0 [] dbAirSubchunk 0 0
    (fun _ _ => 10) 0 (fun _ _ _ => (1, 2, 3)) 1 [0] 3 5 4
    (by
      intro data
      have hc : blockColor tblPlain 0 data = 0 := by
        unfold blockColor tblPlain
        simp
      rw [hc]
      decide)
    (by decide) rfl rfl (by decide)
    (by
      intro c _ x z _ _
      show ((byteAt [0] (1 + (x * 16 + z) * 16 + c)).val : Int) = 0
      rw [show 1 + (x * 16 + z) * 16 + c = ((x * 16 + z) * 16 + c) + 1 by omega]
      rfl)
    (by
      intro key hne
      unfold dbGet dbAirSubchunk
      have hk : ([0, 0, 0, 0, 0, 0, 0, 0, 0x2f, 1] : List Byte) ≠ key := by
        intro h
        apply hne
        rw [← h]
        decide
      simp [List.find?, hk])
    (by decide) (by decide) (by decide)


/-! ## The sub-format test of the two passes -/

/-- The block id of the cubic path by byte 0 of the record: the stored byte when it is 0, the
word of the transcoded buffer otherwise. -/
theorem sliceBlockId_v3_eq (dec : ChunkDecoders) (svalue : List Byte) (cx cz ccy : Nat) :
    sliceBlockId_v3 dec svalue cx cz ccy
      = if byteAt svalue 0 = 0 then dec.getBlockId_LevelDB_v3 svalue cx cz ccy
        else dec.convertChunkV7toV3 svalue (1 + ((cx * 16 + cz) * 16 + ccy)) := by
  unfold sliceBlockId_v3 generateSlices_wordModeFlag byteAt
  by_cases hb : svalue.getD 0 0 = 0
  · rw [if_pos hb, if_neg (by rw [decide_eq_true_eq]; exact fun h => h hb)]
  · rw [if_neg hb, if_pos (by rw [decide_eq_true_eq]; exact hb)]

/-- The block data of the cubic path by byte 0 of the record. -/
theorem sliceBlockData_v3_eq (dec : ChunkDecoders) (svalue : List Byte) (cx cz ccy : Nat) :
    sliceBlockData_v3 dec svalue cx cz ccy
      = if byteAt svalue 0 = 0 then dec.getBlockData_LevelDB_v3 svalue svalue.length cx cz ccy
        else dec.getBlockData_LevelDB_v3__fake_v7 (dec.convertChunkV7toV3 svalue)
          NUM_BYTES_CHUNK_V3 cx cz ccy := by
  unfold sliceBlockData_v3 generateSlices_wordModeFlag byteAt
  by_cases hb : svalue.getD 0 0 = 0
  · rw [if_pos hb, if_neg (by rw [decide_eq_true_eq]; exact fun h => h hb)]
  · rw [if_neg hb, if_pos (by rw [decide_eq_true_eq]; exact hb)]

/-- C4 (amended). In a run of `dbParse` that gets past the bounds scan at its head, take a
scanned record with type tag 0x2f, key length 10 or 14 and a non-empty value, whose key the
text-key chain lets through, whose dimension id (length 14) normalizes to nether or the-end and
whose coordinates are not the corrupt pair. The one call made for it is `addChunk` with format
version 3 when byte 0 of the value is 0 and with format version 7 otherwise, with the dimension
(overworld for length 10, the normalized id for length 14), chunkX, chunkZ and the subchunk
index of the key, and it is among the calls of the run. `generateSlices` decides the same way
on a cubic record it finds for a chunk without legacy record: it decodes the block from the
stored bytes with `getBlockId_LevelDB_v3` when byte 0 is 0 and from the buffer of
`convertChunkV7toV3` otherwise, and the pixel of a block it does not repaint is the colour of
the block decoded this way. -/
theorem subchunk_format_from_first_byte (env : Env) (shortRunFlag : Bool)
    (dimDataList : List DimensionData_LevelDB) (lists : List (BlockIdLists × FastLists))
    (db : List (List Byte × List Byte)) (key cdata : List Byte)
    (hrun : (dbParse env shortRunFlag dimDataList lists db).isSome = true)
    (hrec : (key, cdata) ∈ scannedRecords shortRunFlag db)
    (hnamed : classifyNamed env key = none)
    (hlen : key.length = 10 ∨ key.length = 14)
    (htag : myParseInt8 (byteAt key) (if key.length = 10 then 8 else 12) = 0x2f)
    (hdim : key.length = 14 →
      (adjustDimId (myParseInt32 (byteAt key) 8) = kDimIdNether ∨
        adjustDimId (myParseInt32 (byteAt key) 8) = kDimIdTheEnd))
    (hlegal : legalChunkPos (myParseInt32 (byteAt key) 0) (myParseInt32 (byteAt key) 4) = true)
    (hv : cdata ≠ []) :
    (dbParse env shortRunFlag dimDataList lists db).map (fun r => r.actions)
      = some ((scannedRecords shortRunFlag db).flatMap
          (fun kv => dbParseRecord env kv.1 kv.2)) ∧
    dbParseRecord env key cdata =
      [Action.addChunk
        (if key.length = 10 then kDimIdOverworld else adjustDimId (myParseInt32 (byteAt key) 8))
        (if byteAt cdata 0 = 0 then 3 else 7)
        (myParseInt32 (byteAt key) 0)
        (myParseInt8 (byteAt key) (if key.length = 10 then 9 else 13))
        (myParseInt32 (byteAt key) 4) cdata] ∧
    Action.addChunk
        (if key.length = 10 then kDimIdOverworld else adjustDimId (myParseInt32 (byteAt key) 8))
        (if byteAt cdata 0 = 0 then 3 else 7)
        (myParseInt32 (byteAt key) 0)
        (myParseInt8 (byteAt key) (if key.length = 10 then 9 else 13))
        (myParseInt32 (byteAt key) 4) cdata
      ∈ (scannedRecords shortRunFlag db).flatMap (fun kv => dbParseRecord env kv.1 kv.2) ∧
    (∀ (tbl : BlockTable) (dec : ChunkDecoders) (dimId : Int)
        (sdb : List (List Byte × List Byte)) (chunkX chunkZ : Int) (top : Nat → Nat → Nat)
        (imageX : Int) (rbuf : SliceBufs) (k : Nat) (svalue : List Byte) (cx cz ccy : Nat),
      k < MAX_CUBIC_Y →
      dbGet sdb (legacyKey dimId chunkX chunkZ) = none →
      dbGet sdb (cubicKey dimId chunkX chunkZ k) = some svalue →
      cx < 16 → cz < 16 → ccy < 16 →
      sliceDecoded dec dimId sdb chunkX chunkZ cx cz (k * 16 + ccy)
        = some
          (if byteAt svalue 0 = 0 then
            (dec.getBlockId_LevelDB_v3 svalue cx cz ccy,
             dec.getBlockData_LevelDB_v3 svalue svalue.length cx cz ccy)
          else
            (dec.convertChunkV7toV3 svalue (1 + ((cx * 16 + cz) * 16 + ccy)),
             dec.getBlockData_LevelDB_v3__fake_v7 (dec.convertChunkV7toV3 svalue)
               NUM_BYTES_CHUNK_V3 cx cz ccy)) ∧
      (¬((if byteAt svalue 0 = 0 then dec.getBlockId_LevelDB_v3 svalue cx cz ccy
            else dec.convertChunkV7toV3 svalue (1 + ((cx * 16 + cz) * 16 + ccy))) = 0 ∧
          k * 16 + ccy > top cx cz ∧ dimId ≠ kDimIdNether) →
        generateSlices_chunk tbl dec dimId sdb chunkX chunkZ top imageX rbuf (k * 16 + ccy) cz
            (imageX + cx)
          = pixelOfColor (sliceColor_v3 tbl
              (if byteAt svalue 0 = 0 then dec.getBlockId_LevelDB_v3 svalue cx cz ccy
                else dec.convertChunkV7toV3 svalue (1 + ((cx * 16 + cz) * 16 + ccy)))
              (if byteAt svalue 0 = 0 then
                dec.getBlockData_LevelDB_v3 svalue svalue.length cx cz ccy
              else dec.getBlockData_LevelDB_v3__fake_v7 (dec.convertChunkV7toV3 svalue)
                NUM_BYTES_CHUNK_V3 cx cz ccy)))) := by
  have hcall : dbParseRecord env key cdata =
      [Action.addChunk
        (if key.length = 10 then kDimIdOverworld else adjustDimId (myParseInt32 (byteAt key) 8))
        (if byteAt cdata 0 = 0 then 3 else 7)
        (myParseInt32 (byteAt key) 0)
        (myParseInt8 (byteAt key) (if key.length = 10 then 9 else 13))
        (myParseInt32 (byteAt key) 4) cdata] := by
    obtain ⟨r, hp⟩ : ∃ r, parseChunkKey env key = some r := by
      rcases hlen with h | h
      · exact ⟨_, parseChunkKey_ten env key h⟩
      · have hnot : ¬(adjustDimId (myParseInt32 (byteAt key) 8) ≠ kDimIdNether ∧
            adjustDimId (myParseInt32 (byteAt key) 8) ≠ kDimIdTheEnd) := by
          rintro ⟨h1, h2⟩
          rcases hdim h with h3 | h3
          · exact h1 h3
          · exact h2 h3
        rw [parseChunkKey_fourteen env key h, if_neg hnot]
        exact ⟨_, rfl⟩
    obtain ⟨hx, hz⟩ := parseChunkKey_coords env key r hp
    have ht : r.chunkType = 0x2f := by
      rcases hlen with h | h
      · have hp1 := hp
        rw [parseChunkKey_ten env key h] at hp1
        rw [← Option.some.inj hp1]
        have e : key.length = 10 := h
        rw [if_pos e] at htag
        exact htag
      · have hp1 := hp
        have hnot : ¬(adjustDimId (myParseInt32 (byteAt key) 8) ≠ kDimIdNether ∧
            adjustDimId (myParseInt32 (byteAt key) 8) ≠ kDimIdTheEnd) := by
          rintro ⟨h1, h2⟩
          rcases hdim h with h3 | h3
          · exact h1 h3
          · exact h2 h3
        rw [parseChunkKey_fourteen env key h, if_neg hnot] at hp1
        rw [← Option.some.inj hp1]
        have e : ¬ key.length = 10 := by omega
        rw [if_neg e] at htag
        exact htag
    have hl : legalChunkPos r.chunkX r.chunkZ = true := by
      rw [hx, hz]
      exact hlegal
    have H := dbParseRecord_subchunk env key cdata r hnamed hlen hp hl ht hv
    rw [H.1, H.2.2.2.2.1, H.2.1, H.2.2.1, H.2.2.2.1]
  refine ⟨dbParse_actions env shortRunFlag dimDataList lists db hrun, hcall, ?_, ?_⟩
  · apply dbParseRecord_mem_loop env shortRunFlag db key cdata hrec
    rw [hcall]
    exact List.mem_singleton.mpr rfl
  · intro tbl dec dimId sdb chunkX chunkZ top imageX rbuf k svalue cx cz ccy hk hlegacy hfound
      hcx hcz hccy
    unfold MAX_CUBIC_Y at hk
    refine ⟨?_, ?_⟩
    · unfold sliceDecoded
      rw [hlegacy]
      dsimp only
      rw [show (k * 16 + ccy) / 16 = k by omega, show (k * 16 + ccy) % 16 = ccy by omega,
        hfound]
      dsimp only
      rw [sliceBlockId_v3_eq, sliceBlockData_v3_eq]
      by_cases hb : byteAt svalue 0 = 0
      · rw [if_pos hb, if_pos hb, if_pos hb]
      · rw [if_neg hb, if_neg hb, if_neg hb]
    · intro hno
      obtain ⟨h1, _⟩ :=
        generateSlices_chunk_spec tbl dec dimId sdb chunkX chunkZ top imageX rbuf
      rw [h1 cx cz (k * 16 + ccy) hcx hcz (by omega)]
      unfold slicePixel
      rw [hlegacy]
      dsimp only
      unfold cubicSlicePixel
      have hrep := cubicRepaints_found dec dimId sdb chunkX chunkZ k svalue hfound (top cx cz)
        cx cz ccy hccy
      rw [sliceBlockId_v3_eq] at hrep
      rw [if_neg (fun h => hno (hrep.mp h)),
        cubicDirectPixel_found tbl dec dimId sdb chunkX chunkZ k svalue hfound cx cz ccy hccy,
        sliceBlockId_v3_eq, sliceBlockData_v3_eq]

/-- Witness for C4: a store with a subchunk record of the nether chunk (1, -1) in the byte format
and one of the overworld chunk (1, -1) in the palette format, read by `dbParse` on a new world;
and the block at position (0, 0, 0) of subchunk 1 of `dbSubchunk1Id7`, whose byte 0 is 1, which
`generateSlices` reads from the transcoded buffer. -/
theorem subchunk_format_from_first_byte_witness :
    (dbParse env0 false newDimDataList [] [(key_chunk14_nether, [0, 9]),
      (key_chunk10, [8, 9])]).isSome = true ∧
    dbParseRecord env0 key_chunk14_nether [0, 9] = [Action.addChunk 1 3 1 5 (-1) [0, 9]] ∧
    dbParseRecord env0 key_chunk10 [8, 9] = [Action.addChunk 0 7 1 5 (-1) [8, 9]] ∧
    sliceDecoded decBytes 0 dbSubchunk1Id7 0 0 0 0 (1 * 16 + 0) = some (7, 0) ∧
    generateSlices_chunk tblPlain decBytes 0 dbSubchunk1Id7 0 0 (fun _ _ => 255) 0
        (fun _ _ _ => (1, 2, 3)) (1 * 16 + 0) 0 (0 + (0 : Nat)) = (7, 0, 0) :=
  ⟨by decide,
   (subchunk_format_from_first_byte env0 false newDimDataList []
      [(key_chunk14_nether, [0, 9]), (key_chunk10, [8, 9])] key_chunk14_nether [0, 9]
      (by decide) (by decide) (by decide) (by decide) (by decide) (by decide) (by decide)
      (by decide)).2.1.trans (by decide),
   (subchunk_format_from_first_byte env0 false newDimDataList []
      [(key_chunk14_nether, [0, 9]), (key_chunk10, [8, 9])] key_chunk10 [8, 9]
      (by decide) (by decide) (by decide) (by decide) (by decide) (by decide) (by decide)
      (by decide)).2.1.trans (by decide),
   ((subchunk_format_from_first_byte env0 false newDimDataList []
      [(key_chunk14_nether, [0, 9]), (key_chunk10, [8, 9])] key_chunk10 [8, 9]
      (by decide) (by decide) (by decide) (by decide) (by decide) (by decide) (by decide)
      (by decide)).2.2.2 tblPlain decBytes 0 dbSubchunk1Id7 0 0 (fun _ _ => 255) 0
      (fun _ _ _ => (1, 2, 3)) 1 [1, 7] 0 0 0 (by decide) (by decide) (by decide) (by decide)
      (by decide) (by decide)).1.trans (by decide),
   (((subchunk_format_from_first_byte env0 false newDimDataList []
      [(key_chunk14_nether, [0, 9]), (key_chunk10, [8, 9])] key_chunk10 [8, 9]
      (by decide) (by decide) (by decide) (by decide) (by decide) (by decide) (by decide)
      (by decide)).2.2.2 tblPlain decBytes 0 dbSubchunk1Id7 0 0 (fun _ _ => 255) 0
      (fun _ _ _ => (1, 2, 3)) 1 [1, 7] 0 0 0 (by decide) (by decide) (by decide) (by decide)
      (by decide) (by decide)).2 (by decide)).trans (by decide)⟩

/-- C4 (as stated) fails. Three records with type tag 0x2f, key length 10 or 14 and a non-empty
value for which `dbParse`, run on a new world, makes no call of `addChunk`: the 10-byte key
`"player_1/0"`, whose byte 8 is 0x2f, is decoded as a remote player; the 14-byte key with
dimension id 0 is skipped because the id is neither nether nor the-end; the 10-byte key with
the corrupt coordinate pair is skipped. -/
theorem subchunk_format_from_first_byte_counterexample :
    key_player_1_0.length = 10 ∧ myParseInt8 (byteAt key_player_1_0) 8 = 0x2f ∧
    (dbParse env0 false newDimDataList [] [(key_player_1_0, [0, 9])]).map (fun r => r.actions)
      = some [Action.parseNbt "Remote Player: " [0, 9],
          Action.parseNbt_entity (-1) "" false true "Remote Player" [49, 47, 48]] ∧
    key_chunk14_dim0.length = 14 ∧ myParseInt8 (byteAt key_chunk14_dim0) 12 = 0x2f ∧
    (dbParse env0 false newDimDataList [] [(key_chunk14_dim0, [0, 9])]).map
        (fun r => r.actions) = some [] ∧
    key_corrupt10.length = 10 ∧ myParseInt8 (byteAt key_corrupt10) 8 = 0x2f ∧
    (dbParse env0 false newDimDataList [] [(key_corrupt10, [0, 9])]).map (fun r => r.actions)
      = some [] := by
  refine ⟨by decide, by decide, by decide, by decide, by decide, by decide, by decide,
    by decide, by decide⟩

/-- C13 (as stated) fails for a block table whose air is not black. With the table `tblGreyAir`
(air has the colour bytes 0x40, 0x40, 0x40) and a recorded top height above every block, the
pixel of a block of subchunk 1 of the overworld chunk (0, 0) is black when the subchunk is
absent (from a store that holds subchunk 0 only, and from the empty store, where the whole
chunk is cleared), and has the air colour when the subchunk is present and all air. -/
theorem generateSlices_absent_subchunk_as_air_counterexample :
    dbGet dbSubchunk0 (cubicKey 0 0 0 1) = none ∧
    dbGet dbSubchunk01 (cubicKey 0 0 0 1) = some [0] ∧
    (∀ c x z : Nat, sliceBlockId_v3 decBytes [0] x z c = 0) ∧
    generateSlices_chunk tblGreyAir decBytes 0 dbSubchunk0 0 0 (fun _ _ => 255) 0
        (fun _ _ _ => (1, 2, 3)) (1 * 16 + 4) 5 (0 + (3 : Nat)) = (0, 0, 0) ∧
    generateSlices_chunk tblGreyAir decBytes 0 dbSubchunk01 0 0 (fun _ _ => 255) 0
        (fun _ _ _ => (1, 2, 3)) (1 * 16 + 4) 5 (0 + (3 : Nat)) = (64, 64, 64) ∧
    generateSlices_chunk tblGreyAir decBytes 0 [] 0 0 (fun _ _ => 255) 0
        (fun _ _ _ => (1, 2, 3)) (1 * 16 + 4) 5 (0 + (3 : Nat)) = (0, 0, 0) ∧
    generateSlices_chunk tblGreyAir decBytes 0 dbAirSubchunk 0 0 (fun _ _ => 255) 0
        (fun _ _ _ => (1, 2, 3)) (1 * 16 + 4) 5 (0 + (3 : Nat)) = (64, 64, 64) := by
  refine ⟨by decide, by decide, ?_, ?_, ?_, ?_, ?_⟩
  · intro c x z
    show ((byteAt [0] (1 + (x * 16 + z) * 16 + c)).val : Int) = 0
    rw [show 1 + (x * 16 + z) * 16 + c = ((x * 16 + z) * 16 + c) + 1 by omega]
    rfl
  · rw [(generateSlices_chunk_spec tblGreyAir decBytes 0 dbSubchunk0 0 0 (fun _ _ => 255) 0
      (fun _ _ _ => (1, 2, 3))).1 3 5 (1 * 16 + 4) (by decide) (by decide) (by decide)]
    decide
  · rw [(generateSlices_chunk_spec tblGreyAir decBytes 0 dbSubchunk01 0 0 (fun _ _ => 255) 0
      (fun _ _ _ => (1, 2, 3))).1 3 5 (1 * 16 + 4) (by decide) (by decide) (by decide)]
    decide
  · rw [(generateSlices_chunk_spec tblGreyAir decBytes 0 [] 0 0 (fun _ _ => 255) 0
      (fun _ _ _ => (1, 2, 3))).1 3 5 (1 * 16 + 4) (by decide) (by decide) (by decide)]
    decide
  · rw [(generateSlices_chunk_spec tblGreyAir decBytes 0 dbAirSubchunk 0 0 (fun _ _ => 255) 0
      (fun _ _ _ => (1, 2, 3))).1 3 5 (1 * 16 + 4) (by decide) (by decide) (by decide)]
    decide

/-! ## `generateBlockList` -/

theorem toUnsigned16_lt (x : Int) : toUnsigned16 x < 65536 := by
  unfold toUnsigned16
  omega

theorem toUnsigned16_of_nonneg (x : Int) (h0 : 0 ≤ x) (h1 : x < 65536) :
    (toUnsigned16 x : Int) = x := by
  unfold toUnsigned16
  omega

theorem blockListCount_fd (control : Control) (v : Coords) (blockid : Nat)
    (st : BlockListState) : (blockListCount control v blockid st).fd = st.fd := by
  unfold blockListCount
  dsimp only
  split_ifs <;> rfl

theorem blockListEmit_fd (control : Control) (block : BlockInfo) (v : Coords) (blockid : Nat)
    (st : BlockListState) :
    (blockListEmit control block v blockid st).fd
      = if blockid ≠ 0 then st.fd ++ [(v, pixelOfColor block.color)] else st.fd := by
  unfold blockListEmit
  dsimp only
  split_ifs <;> rfl

/-- The point-cloud lines after one execution of the block loop body. -/
theorem blockListStep_fd (tbl : BlockTable) (control : Control) (lim : BlockListLimits)
    (v : Coords) (blockid emptyId : Nat) (st : BlockListState) :
    (blockListStep tbl control lim v blockid emptyId st).fd
      = match tbl.get blockid with
        | some block =>
          if inLimits lim v.x v.y v.z = true ∧ blockid < 1024 ∧ emptyId ≠ blockid ∧
              (control.blockFilter = "<all>" ∨ block.name = control.blockFilter) ∧
              blockid ≠ 0 then
            st.fd ++ [(v, pixelOfColor block.color)]
          else st.fd
        | none => st.fd := by
  unfold blockListStep
  by_cases hbox : inLimits lim v.x v.y v.z = true
  · by_cases hlt : blockid < 1024
    · rw [if_pos hbox, if_pos hlt]
      cases hget : tbl.get blockid with
      | none => rfl
      | some block =>
        dsimp only
        by_cases he : emptyId = blockid
        · rw [if_pos he, if_neg (fun h => h.2.2.1 he)]
        · rw [if_neg he, blockListCount_fd]
          by_cases hf : control.blockFilter = "<all>" ∨ block.name = control.blockFilter
          · rw [if_pos hf, blockListEmit_fd]
            by_cases h0 : blockid ≠ 0
            · rw [if_pos h0, if_pos ⟨hbox, hlt, he, hf, h0⟩]
            · rw [if_neg h0, if_neg (fun h => h0 h.2.2.2.2)]
          · rw [if_neg hf, if_neg (fun h => hf h.2.2.2.1)]
    · rw [if_pos hbox, if_neg hlt]
      cases hget : tbl.get blockid with
      | none => rfl
      | some block =>
        dsimp only
        rw [if_neg (fun h => hlt h.2.1)]
  · rw [if_neg hbox]
    cases hget : tbl.get blockid with
    | none => rfl
    | some block =>
      dsimp only
      rw [if_neg (fun h => hbox h.1)]

/-- The block loop body of `generateBlockList`, run for the
position `(cx, cz, cy)` of a found subchunk, appends the line of the block to the point cloud
when the block id is not 0, is below 1024 and known to the block table, the coordinates pass
the bounding-box test, the filter is `<all>` or the name of the block, and (with a comparison
chunk) the word of the comparison chunk at the same position is another id; in every other
case the point cloud is left as it was. Without comparison chunk the comparison id differs
from every 16-bit block id. -/
theorem blockListStep_point_cloud (tbl : BlockTable) (control : Control)
    (lim : BlockListLimits) (v : Coords) (firstBlockId : Nat → Int)
    (emptyBlockId : Option (Nat → Int)) (cx cz cy : Nat) (st : BlockListState) :
    (∀ block, tbl.get (blockListBlockId firstBlockId cx cz cy) = some block →
      blockListBlockId firstBlockId cx cz cy ≠ 0 →
      blockListBlockId firstBlockId cx cz cy < 1024 →
      inLimits lim v.x v.y v.z = true →
      (control.blockFilter = "<all>" ∨ block.name = control.blockFilter) →
      (∀ e, emptyBlockId = some e →
        toUnsigned16 (e (1 + ((cx * 16 + cz) * 16 + cy)))
          ≠ blockListBlockId firstBlockId cx cz cy) →
      (blockListStep tbl control lim v (blockListBlockId firstBlockId cx cz cy)
          (blockListEmptyId emptyBlockId (blockListBlockId firstBlockId cx cz cy) cx cz cy)
          st).fd
        = st.fd ++ [(v, pixelOfColor block.color)]) ∧
    (¬(blockListBlockId firstBlockId cx cz cy ≠ 0 ∧
        blockListBlockId firstBlockId cx cz cy < 1024 ∧
        inLimits lim v.x v.y v.z = true ∧
        (∃ block, tbl.get (blockListBlockId firstBlockId cx cz cy) = some block ∧
          (control.blockFilter = "<all>" ∨ block.name = control.blockFilter)) ∧
        (∀ e, emptyBlockId = some e →
          toUnsigned16 (e (1 + ((cx * 16 + cz) * 16 + cy)))
            ≠ blockListBlockId firstBlockId cx cz cy)) →
      (blockListStep tbl control lim v (blockListBlockId firstBlockId cx cz cy)
          (blockListEmptyId emptyBlockId (blockListBlockId firstBlockId cx cz cy) cx cz cy)
          st).fd
        = st.fd) ∧
    (emptyBlockId = none →
      blockListEmptyId emptyBlockId (blockListBlockId firstBlockId cx cz cy) cx cz cy
        ≠ blockListBlockId firstBlockId cx cz cy) := by
  have hlt := toUnsigned16_lt (firstBlockId (1 + ((cx * 16 + cz) * 16 + cy)))
  have hdiff : blockListEmptyId emptyBlockId (blockListBlockId firstBlockId cx cz cy) cx cz cy
        ≠ blockListBlockId firstBlockId cx cz cy ↔
      (∀ e, emptyBlockId = some e →
        toUnsigned16 (e (1 + ((cx * 16 + cz) * 16 + cy)))
          ≠ blockListBlockId firstBlockId cx cz cy) := by
    cases emptyBlockId with
    | none =>
      unfold blockListEmptyId blockListBlockId
      dsimp only
      constructor
      · intro _ e he
        exact Option.noConfusion he
      · intro _
        omega
    | some e0 =>
      unfold blockListEmptyId
      dsimp only
      constructor
      · intro h e he
        rw [← Option.some.inj he]
        exact h
      · intro h
        exact h e0 rfl
  refine ⟨?_, ?_, ?_⟩
  · intro block hget h0 h1024 hbox hf hd
    rw [blockListStep_fd, hget]
    dsimp only
    rw [if_pos ⟨hbox, h1024, hdiff.mpr hd, hf, h0⟩]
  · intro hnot
    rw [blockListStep_fd]
    cases hget : tbl.get (blockListBlockId firstBlockId cx cz cy) with
    | none => rfl
    | some block =>
      dsimp only
      rw [if_neg]
      rintro ⟨hbox, h1024, he, hf, h0⟩
      exact hnot ⟨h0, h1024, hbox, ⟨block, hget, hf⟩, hdiff.mp he⟩
  · intro hnone
    rw [hdiff]
    intro e he
    rw [hnone] at he
    exact Option.noConfusion he


/-- The loop body on block id 7 at the position (0, 0, 1) of subchunk 1 of the chunk (0, 0),
no limits, no comparison chunk. -/
theorem blockListStep_point_cloud_example :
    (blockListStep tblPlain controlNoLimits (blockListLimits dimOneChunk controlNoLimits)
        (blockListCoords dimOneChunk 0 0 1 0 0 1)
        (blockListBlockId (fun _ => 7) 0 0 1)
        (blockListEmptyId none (blockListBlockId (fun _ => 7) 0 0 1) 0 1 1)
        blockListInit).fd
      = blockListInit.fd ++ [(blockListCoords dimOneChunk 0 0 1 0 0 1, pixelOfColor (7 * 256))] :=
  (blockListStep_point_cloud tblPlain controlNoLimits
    (blockListLimits dimOneChunk controlNoLimits) (blockListCoords dimOneChunk 0 0 1 0 0 1)
    (fun _ => 7) none 0 0 1 blockListInit).1
    { id := 7, name := "", color := 7 * 256, hasVariants := false,
      getVariantByBlockData := fun _ => none }
    rfl (by decide) (by decide) (by decide) (Or.inl rfl)
    (fun _ he => Option.noConfusion he)

/-- C15 (default box). With the chunk bounds (0, 0) .. (0, 0) and no limit set, `limMaxX` and
`limMaxZ` are 0, not 15: the block at `x = 5` of the only chunk fails the bounding-box test, and
the block loop body writes nothing for it. -/
theorem blockListLimits_default_excludes_last_chunk :
    blockListLimits dimOneChunk controlNoLimits
      = { limMinX := 0, limMaxX := 0, limMinZ := 0, limMaxZ := 0, limMinY := 0,
          limMaxY := 255 } ∧
    (16 * dimOneChunk.minChunkX ≤ 5 ∧ (5 : Int) ≤ 16 * dimOneChunk.maxChunkX + 15) ∧
    inLimits (blockListLimits dimOneChunk controlNoLimits) 5 64 0 = false ∧
    (blockListStep tblPlain controlNoLimits (blockListLimits dimOneChunk controlNoLimits)
        { x := 5, y := 64, z := 0 } 7 8 blockListInit).fd = [] := by
  refine ⟨by decide, by decide, by decide, ?_⟩
  rw [blockListStep_fd]
  cases tblPlain.get 7 with
  | none => rfl
  | some block =>
    dsimp only
    rw [if_neg]
    · rfl
    · intro h
      exact absurd h.1 (by decide)

/-- C16 (user limits). With the chunk bounds (0, 0) .. (1, 0) and the only limit
`control.minX = 5`, the test `5 / 16 > 0` fails and `limMinX` stays 0: the block at `x = 3`,
outside the box of the user, passes the bounding-box test and is written to the point cloud.
The height limits take the option itself. -/
theorem blockListLimits_min_inside_first_chunk :
    (blockListLimits dimTwoChunks controlMinX5).limMinX = 0 ∧
    max (16 * dimTwoChunks.minChunkX) controlMinX5.minX = 5 ∧
    inLimits (blockListLimits dimTwoChunks controlMinX5) 3 64 0 = true ∧
    (blockListStep tblPlain controlMinX5 (blockListLimits dimTwoChunks controlMinX5)
        { x := 3, y := 64, z := 0 } 7 8 blockListInit).fd
      = [({ x := 3, y := 64, z := 0 }, pixelOfColor (7 * 256))] ∧
    (blockListLimits dimTwoChunks { controlNoLimits with minY := 5 }).limMinY = 5 := by
  refine ⟨by decide, by decide, by decide, ?_, by decide⟩
  rw [blockListStep_fd]
  have hget : tblPlain.get ((7 : Nat) : Int) = some
      { id := 7, name := "", color := 7 * 256, hasVariants := false,
        getVariantByBlockData := fun _ => none } := rfl
  rw [hget]
  dsimp only
  rw [if_pos ⟨by decide, by decide, by decide, Or.inl rfl, by decide⟩]
  rfl

theorem findChunk_at_subchunk (dec : ChunkDecoders) (db : List (List Byte × List Byte))
    (dimId chunkX chunkZ : Int) (k : Nat) (hk : k < 16) :
    findChunk dec db dimId (16 * chunkX) (16 * k) (16 * chunkZ)
      = (dbGet db (cubicKey dimId chunkX chunkZ k)).map
          (fun svalue => dec.convertChunkV7toV3 svalue) := by
  unfold findChunk
  rw [Int.mul_tdiv_cancel_left chunkX (by decide : (16 : Int) ≠ 0),
    Int.mul_tdiv_cancel_left chunkZ (by decide : (16 : Int) ≠ 0),
    show 16 * k % 256 / 16 = k by omega]

/-- C17 (same ids as the slice decoder). For a palette-format subchunk (byte 0 of the record
is not 0) of a chunk without legacy record, `generateSlices` and `generateBlockList` read the
same word of the buffer `convertChunkV7toV3` fills: `generateSlices` as a signed value,
`generateBlockList` converted to `uint16_t`, the same id whenever the word is not negative. -/
theorem blockList_reads_slice_words (dec : ChunkDecoders) (dimId : Int)
    (db : List (List Byte × List Byte)) (chunkX chunkZ : Int) (k : Nat) (svalue : List Byte)
    (cx cz cy : Nat)
    (hk : k < MAX_CUBIC_Y) (hcy : cy < 16)
    (hlegacy : dbGet db (legacyKey dimId chunkX chunkZ) = none)
    (hget : dbGet db (cubicKey dimId chunkX chunkZ k) = some svalue)
    (hfmt : generateSlices_wordModeFlag svalue = true) :
    sliceDecoded dec dimId db chunkX chunkZ cx cz (k * 16 + cy)
      = some (dec.convertChunkV7toV3 svalue (1 + ((cx * 16 + cz) * 16 + cy)),
          sliceBlockData_v3 dec svalue cx cz cy) ∧
    blockListDecoded dec dimId db chunkX chunkZ cx cz (k * 16 + cy)
      = some (toUnsigned16 (dec.convertChunkV7toV3 svalue (1 + ((cx * 16 + cz) * 16 + cy)))) ∧
    (0 ≤ dec.convertChunkV7toV3 svalue (1 + ((cx * 16 + cz) * 16 + cy)) →
      dec.convertChunkV7toV3 svalue (1 + ((cx * 16 + cz) * 16 + cy)) < 32768 →
      (toUnsigned16 (dec.convertChunkV7toV3 svalue (1 + ((cx * 16 + cz) * 16 + cy))) : Int)
        = dec.convertChunkV7toV3 svalue (1 + ((cx * 16 + cz) * 16 + cy))) := by
  unfold MAX_CUBIC_Y at hk
  refine ⟨?_, ?_, ?_⟩
  · unfold sliceDecoded
    rw [hlegacy]
    dsimp only
    rw [show (k * 16 + cy) / 16 = k by omega, show (k * 16 + cy) % 16 = cy by omega, hget]
    dsimp only
    unfold sliceBlockId_v3
    rw [if_pos hfmt]
  · unfold blockListDecoded
    rw [show (k * 16 + cy) / 16 = k by omega, show (k * 16 + cy) % 16 = cy by omega,
      findChunk_at_subchunk dec db dimId chunkX chunkZ k hk, hget]
    rfl
  · intro h0 h1
    exact toUnsigned16_of_nonneg _ h0 (by omega)

/-- Witness for C17: a store with only subchunk 1 of the overworld chunk (0, 0), in the
palette format (byte 0 is 1). -/
theorem blockList_reads_slice_words_witness :
    dbGet [(([0, 0, 0, 0, 0, 0, 0, 0, 0x2f, 1] : List Byte), ([1, 5, 9] : List Byte))]
        (cubicKey 0 0 0 1) = some [1, 5, 9] ∧
    blockListDecoded decBytes 0 [([0, 0, 0, 0, 0, 0, 0, 0, 0x2f, 1], [1, 5, 9])] 0 0 0 0
        (1 * 16 + 1)
      = some (toUnsigned16 (decBytes.convertChunkV7toV3 [1, 5, 9] (1 + ((0 * 16 + 0) * 16 + 1)))) :=
  ⟨by decide,
   (blockList_reads_slice_words decBytes 0 [([0, 0, 0, 0, 0, 0, 0, 0, 0x2f, 1], [1, 5, 9])]
      0 0 1 [1, 5, 9] 0 0 1 (by decide) (by decide) (by decide) (by decide) (by decide)).2.1⟩

/-- Counterexample to C17 as stated: for a chunk stored as a legacy record, `generateSlices`
reads block id 1 at height 10 of the first column while `findChunk` returns no buffer, so
`generateBlockList` reads no block of the chunk. -/
theorem blockList_reads_slice_words_counterexample :
    sliceDecoded decBytes 0 dbColumn10 0 0 0 0 10 = some (1, 0) ∧
    blockListDecoded decBytes 0 dbColumn10 0 0 0 0 10 = none ∧
    (findChunk decBytes dbColumn10 0 0 0 0).isNone = true := by
  decide

/-- C18 (comparison chunk missing). When a comparison store is given and `findChunk` finds the
subchunk in the primary store but not in the comparison store, the subchunk is skipped: the
point cloud, the block log and its counter, the histogram, the rare lists and the counted
blocks are as before; only `worldChunksFound` has moved. -/
theorem blockListSubchunk_skips_without_reference (tbl : BlockTable) (dec : ChunkDecoders)
    (control : Control) (lim : BlockListLimits) (d : DimensionData_LevelDB)
    (db edb : List (List Byte × List Byte)) (cubicy : Nat) (imageX imageZ : Int)
    (st : BlockListState)
    (hfound : (findChunk dec db d.dimId (wrapInt32 (16 * d.minChunkX + imageX)) (16 * cubicy)
      (wrapInt32 (16 * d.minChunkZ + imageZ))).isSome = true)
    (habsent : (findChunk dec edb d.dimId (wrapInt32 (16 * d.minChunkX + imageX))
      (16 * cubicy) (wrapInt32 (16 * d.minChunkZ + imageZ))).isNone = true) :
    blockListSubchunk tbl dec control lim d db (some edb) cubicy imageX imageZ st
      = { st with worldChunksFound := (st.worldChunksFound + 1) % 2^32 } ∧
    (blockListSubchunk tbl dec control lim d db (some edb) cubicy imageX imageZ st).fd = st.fd ∧
    (blockListSubchunk tbl dec control lim d db (some edb) cubicy imageX imageZ st).ld = st.ld ∧
    (blockListSubchunk tbl dec control lim d db (some edb) cubicy imageX imageZ st).blockCnt
      = st.blockCnt ∧
    (blockListSubchunk tbl dec control lim d db (some edb) cubicy imageX imageZ st).blockLists
      = st.blockLists := by
  have h : blockListSubchunk tbl dec control lim d db (some edb) cubicy imageX imageZ st
      = { st with worldChunksFound := (st.worldChunksFound + 1) % 2^32 } := by
    unfold blockListSubchunk
    cases h1 : findChunk dec db d.dimId (wrapInt32 (16 * d.minChunkX + imageX)) (16 * cubicy)
        (wrapInt32 (16 * d.minChunkZ + imageZ)) with
    | none =>
      rw [h1] at hfound
      exact Bool.noConfusion hfound
    | some firstBlockId =>
      dsimp only
      cases h2 : findChunk dec edb d.dimId (wrapInt32 (16 * d.minChunkX + imageX))
          (16 * cubicy) (wrapInt32 (16 * d.minChunkZ + imageZ)) with
      | none => rfl
      | some e =>
        rw [h2] at habsent
        exact Bool.noConfusion habsent
  rw [h]
  exact ⟨rfl, rfl, rfl, rfl, rfl⟩

/-- Witness for C18: subchunk 1 of the chunk (0, 0) is in the primary store and the
comparison store is empty. -/
theorem blockListSubchunk_skips_without_reference_witness :
    (blockListSubchunk tblPlain decBytes controlNoLimits
        (blockListLimits dimOneChunk controlNoLimits) dimOneChunk dbAirSubchunk (some []) 1
        0 0 blockListInit).fd = blockListInit.fd :=
  (blockListSubchunk_skips_without_reference tblPlain decBytes controlNoLimits
    (blockListLimits dimOneChunk controlNoLimits) dimOneChunk dbAirSubchunk [] 1 0 0
    blockListInit (by decide) (by decide)).2.1


/-- A property kept by every iteration of a loop holds when the loop ends. -/
theorem foldl_range_keeps {S : Type} (f : S → Nat → S) (I : S → Prop) (n : Nat) (s0 : S)
    (h0 : I s0) (hstep : ∀ i s, I s → I (f s i)) : I ((List.range n).foldl f s0) :=
  foldl_range_inv f (fun _ s => I s) n s0 h0 (fun i _ s hs => hstep i s hs)

theorem BlockListInv_congr (control : Control) (s t : BlockListState)
    (h1 : t.counted = s.counted) (h2 : t.blockCnt = s.blockCnt)
    (h3 : t.blockLists = s.blockLists) (h : BlockListInv control s) :
    BlockListInv control t := by
  unfold BlockListInv countedOf at *
  rw [h1, h2, h3]
  exact h

theorem blockListEmit_inv (control : Control) (block : BlockInfo) (v : Coords) (blockid : Nat)
    (st : BlockListState) (h : BlockListInv control st) :
    BlockListInv control (blockListEmit control block v blockid st) := by
  apply BlockListInv_congr control st _ _ _ _ h
  · unfold blockListEmit
    dsimp only
    split_ifs <;> rfl
  · unfold blockListEmit
    dsimp only
    split_ifs <;> rfl
  · unfold blockListEmit
    dsimp only
    split_ifs <;> rfl

theorem filter_id_singleton (b id : Nat) (v : Coords) :
    List.filter (fun e => decide (e.1 = id)) [(b, v)] = if b = id then [(b, v)] else [] := by
  by_cases h : b = id
  · rw [if_pos h]
    simp [List.filter, h]
  · rw [if_neg h]
    simp [List.filter, h]

/-- The counting at the end of the block loop body keeps the relation. -/
theorem blockListCount_inv (control : Control) (v : Coords) (blockid : Nat)
    (st : BlockListState) (h : BlockListInv control st) :
    BlockListInv control (blockListCount control v blockid st) := by
  have hshape : (blockListCount control v blockid st).counted = st.counted ++ [(blockid, v)] ∧
      (blockListCount control v blockid st).blockCnt
        = Function.update st.blockCnt blockid ((st.blockCnt blockid + 1) % 2^64) ∧
      (blockListCount control v blockid st).blockLists
        = if (st.blockCnt blockid + 1) % 2^64 ≤ control.blockListRare then
            Function.update st.blockLists blockid (st.blockLists blockid ++ [v])
          else st.blockLists := by
    unfold blockListCount
    dsimp only
    split_ifs <;> exact ⟨rfl, rfl, rfl⟩
  obtain ⟨hc, hb, hl⟩ := hshape
  unfold BlockListInv countedOf
  rw [hc, hb, hl]
  intro hlen id
  rw [List.length_append, List.length_singleton] at hlen
  have hold := h (by omega)
  unfold countedOf at hold
  have hle : (List.filter (fun e => decide (e.1 = blockid)) st.counted).length
      ≤ st.counted.length := List.length_filter_le _ _
  have hcnt : (st.blockCnt blockid + 1) % 2^64
      = (List.filter (fun e => decide (e.1 = blockid)) st.counted).length + 1 := by
    rw [(hold blockid).1]
    exact Nat.mod_eq_of_lt (by omega)
  rw [List.filter_append, filter_id_singleton]
  by_cases hid : blockid = id
  · subst hid
    rw [if_pos rfl, Function.update_same, hcnt, List.length_append, List.length_singleton]
    refine ⟨rfl, ?_⟩
    rw [List.map_append, List.map_singleton]
    have hm : ((List.filter (fun e => decide (e.1 = blockid)) st.counted).map
        (fun e => e.2)).length
          = (List.filter (fun e => decide (e.1 = blockid)) st.counted).length :=
      List.length_map _ _
    by_cases hr : (List.filter (fun e => decide (e.1 = blockid)) st.counted).length + 1
        ≤ control.blockListRare
    · rw [if_pos hr, Function.update_same, (hold blockid).2,
        List.take_of_length_le (by omega), List.take_of_length_le]
      rw [List.length_append, List.length_singleton]
      omega
    · rw [if_neg hr, (hold blockid).2, List.take_append_of_le_length (by omega)]
  · rw [if_neg hid, List.append_nil, Function.update_noteq (Ne.symm hid)]
    refine ⟨(hold id).1, ?_⟩
    by_cases hr : (st.blockCnt blockid + 1) % 2^64 ≤ control.blockListRare
    · rw [if_pos hr, Function.update_noteq (Ne.symm hid)]
      exact (hold id).2
    · rw [if_neg hr]
      exact (hold id).2

theorem blockListStep_inv (tbl : BlockTable) (control : Control) (lim : BlockListLimits)
    (v : Coords) (blockid emptyId : Nat) (st : BlockListState) (h : BlockListInv control st) :
    BlockListInv control (blockListStep tbl control lim v blockid emptyId st) := by
  unfold blockListStep
  by_cases hbox : inLimits lim v.x v.y v.z = true
  · rw [if_pos hbox]
    by_cases hlt : blockid < 1024
    · rw [if_pos hlt]
      cases tbl.get blockid with
      | none => exact h
      | some block =>
        dsimp only
        by_cases he : emptyId = blockid
        · rw [if_pos he]
          exact h
        · rw [if_neg he]
          by_cases hf : control.blockFilter = "<all>" ∨ block.name = control.blockFilter
          · rw [if_pos hf]
            exact blockListCount_inv control v blockid _
              (blockListEmit_inv control block v blockid st h)
          · rw [if_neg hf]
            exact blockListCount_inv control v blockid _ h
    · rw [if_neg hlt]
      exact h
  · rw [if_neg hbox]
    exact h

theorem blockListChunk_inv (tbl : BlockTable) (control : Control) (lim : BlockListLimits)
    (d : DimensionData_LevelDB) (imageX imageZ : Int) (cubicy : Nat)
    (firstBlockId : Nat → Int) (emptyBlockId : Option (Nat → Int)) (st : BlockListState)
    (h : BlockListInv control st) :
    BlockListInv control
      (blockListChunk tbl control lim d imageX imageZ cubicy firstBlockId emptyBlockId st) := by
  unfold blockListChunk
  apply foldl_range_keeps _ _ _ _ h
  intro cx s hs
  apply foldl_range_keeps _ _ _ _ hs
  intro cz s1 hs1
  apply foldl_range_keeps _ _ _ _ hs1
  intro cy s2 hs2
  exact blockListStep_inv tbl control lim _ _ _ s2 hs2

theorem blockListSubchunk_inv (tbl : BlockTable) (dec : ChunkDecoders) (control : Control)
    (lim : BlockListLimits) (d : DimensionData_LevelDB) (db : List (List Byte × List Byte))
    (emptyDb : Option (List (List Byte × List Byte))) (cubicy : Nat) (imageX imageZ : Int)
    (st : BlockListState) (h : BlockListInv control st) :
    BlockListInv control
      (blockListSubchunk tbl dec control lim d db emptyDb cubicy imageX imageZ st) := by
  have h1 : BlockListInv control
      { st with worldChunksFound := (st.worldChunksFound + 1) % 2^32 } :=
    BlockListInv_congr control st _ rfl rfl rfl h
  unfold blockListSubchunk
  cases findChunk dec db d.dimId (wrapInt32 (16 * d.minChunkX + imageX)) (16 * cubicy)
      (wrapInt32 (16 * d.minChunkZ + imageZ)) with
  | none => exact h
  | some firstBlockId =>
    dsimp only
    cases emptyDb with
    | none => exact blockListChunk_inv tbl control lim d imageX imageZ cubicy _ _ _ h1
    | some edb =>
      dsimp only
      cases findChunk dec edb d.dimId (wrapInt32 (16 * d.minChunkX + imageX)) (16 * cubicy)
          (wrapInt32 (16 * d.minChunkZ + imageZ)) with
      | none => exact h1
      | some emptyBlockId =>
        exact blockListChunk_inv tbl control lim d imageX imageZ cubicy _ _ _
          (BlockListInv_congr control st _ rfl rfl rfl h)

/-- The scan of `generateBlockList` ends with the histogram and the rare lists in the relation
`BlockListInv` to the counted blocks. -/
theorem generateBlockList_scan_inv (tbl : BlockTable) (dec : ChunkDecoders) (control : Control)
    (d : DimensionData_LevelDB) (db : List (List Byte × List Byte))
    (emptyDb : Option (List (List Byte × List Byte))) :
    BlockListInv control (generateBlockList_scan tbl dec control d db emptyDb) := by
  unfold generateBlockList_scan
  apply foldl_range_keeps
  · intro _ id
    exact ⟨rfl, by simp [blockListInit, countedOf]⟩
  intro cubicy s hs
  apply foldl_range_keeps _ _ _ _ hs
  intro kz s1 hs1
  apply foldl_range_keeps _ _ _ _ hs1
  intro kx s2 hs2
  exact blockListSubchunk_inv tbl dec control _ d db emptyDb cubicy _ _ s2 hs2


/-- The lines of the rare-block report that carry the id `id`, for a sorted array without
repetition. -/
theorem rareReport_filter (control : Control) (st : BlockListState) (id : Nat) :
    ∀ (arrIdx : List Nat) (out : List (Nat × Coords)),
      arrIdx.Nodup →
      (arrIdx.foldl (fun out idx =>
          if st.blockCnt idx ≤ control.blockListRare then
            out ++ (st.blockLists idx).map (fun v => (idx, v))
          else out) out).filter (fun e => decide (e.1 = id))
        = out.filter (fun e => decide (e.1 = id)) ++
            (if id ∈ arrIdx ∧ st.blockCnt id ≤ control.blockListRare then
              (st.blockLists id).map (fun v => (id, v))
            else []) := by
  intro arrIdx
  induction arrIdx with
  | nil =>
    intro out _
    rw [if_neg (show ¬(id ∈ ([] : List Nat) ∧ st.blockCnt id ≤ control.blockListRare) from
      fun h => List.not_mem_nil id h.1), List.append_nil]
    rfl
  | cons a t ih =>
    intro out hnd
    rw [List.foldl_cons, ih _ (List.nodup_cons.mp hnd).2]
    by_cases ha : a = id
    · subst ha
      have hnot : a ∉ t := (List.nodup_cons.mp hnd).1
      rw [if_neg (show ¬(a ∈ t ∧ st.blockCnt a ≤ control.blockListRare) from
        fun h => hnot h.1), List.append_nil]
      by_cases hr : st.blockCnt a ≤ control.blockListRare
      · rw [if_pos hr, if_pos (show a ∈ a :: t ∧ st.blockCnt a ≤ control.blockListRare from
          ⟨List.mem_cons_self a t, hr⟩), List.filter_append]
        congr 1
        rw [List.filter_eq_self]
        intro e he
        obtain ⟨v, _, hv⟩ := List.mem_map.mp he
        rw [← hv]
        exact decide_eq_true rfl
      · rw [if_neg hr, if_neg (show ¬(a ∈ a :: t ∧ st.blockCnt a ≤ control.blockListRare) from
          fun h => hr h.2), List.append_nil]
    · have hmem : id ∈ a :: t ↔ id ∈ t := by
        rw [List.mem_cons]
        constructor
        · rintro (h | h)
          · exact absurd h.symm ha
          · exact h
        · exact Or.inr
      have hout : (if st.blockCnt a ≤ control.blockListRare then
            out ++ (st.blockLists a).map (fun v => (a, v))
          else out).filter (fun e => decide (e.1 = id))
          = out.filter (fun e => decide (e.1 = id)) := by
        by_cases hr : st.blockCnt a ≤ control.blockListRare
        · rw [if_pos hr, List.filter_append]
          have : ((st.blockLists a).map (fun v => (a, v))).filter (fun e => decide (e.1 = id))
              = [] := by
            rw [List.filter_eq_nil_iff]
            intro e he
            obtain ⟨v, _, hv⟩ := List.mem_map.mp he
            rw [← hv]
            simpa using ha
          rw [this, List.append_nil]
        · rw [if_neg hr]
      rw [hout]
      congr 1
      by_cases h : id ∈ t ∧ st.blockCnt id ≤ control.blockListRare
      · rw [if_pos h, if_pos (show id ∈ a :: t ∧ st.blockCnt id ≤ control.blockListRare from
          ⟨hmem.mpr h.1, h.2⟩)]
      · rw [if_neg h, if_neg (show ¬(id ∈ a :: t ∧ st.blockCnt id ≤ control.blockListRare) from
          fun h1 => h ⟨hmem.mp h1.1, h1.2⟩)]

theorem filter_id_map_snd (id : Nat) :
    ∀ l : List (Nat × Coords),
      ((l.filter (fun e => decide (e.1 = id))).map (fun e => e.2)).map (fun v => (id, v))
        = l.filter (fun e => decide (e.1 = id)) := by
  intro l
  induction l with
  | nil => rfl
  | cons e t ih =>
    by_cases h : e.1 = id
    · rw [List.filter_cons_of_pos (by simpa using h), List.map_cons, List.map_cons, ih]
      congr 1
      rw [← h]
    · rw [List.filter_cons_of_neg (by simpa using h), ih]

/-- C19 (rare-block report). After the scan of `generateBlockList` (fewer than 2^64 counted
blocks), with `arrIdx` any result of the sort: the histogram count of each id below 1024 is the
number of its counted blocks; when the count is at or below `blockListRare` the lines of the
report for the id are its counted blocks, each once and in the order they were counted; when
the count is above `blockListRare` the report has no line for the id. -/
theorem rareReport_lists_counted (tbl : BlockTable) (dec : ChunkDecoders) (control : Control)
    (d : DimensionData_LevelDB) (db : List (List Byte × List Byte))
    (emptyDb : Option (List (List Byte × List Byte))) (arrIdx : List Nat) (id : Nat)
    (hsort : IsSortedIdx (generateBlockList_scan tbl dec control d db emptyDb).blockCnt arrIdx)
    (hlen : (generateBlockList_scan tbl dec control d db emptyDb).counted.length < 2^64)
    (hid : id < 1024) :
    (generateBlockList_scan tbl dec control d db emptyDb).blockCnt id
      = (countedOf (generateBlockList_scan tbl dec control d db emptyDb) id).length ∧
    ((generateBlockList_scan tbl dec control d db emptyDb).blockCnt id ≤ control.blockListRare →
      (rareReport control (generateBlockList_scan tbl dec control d db emptyDb) arrIdx).filter
          (fun e => decide (e.1 = id))
        = countedOf (generateBlockList_scan tbl dec control d db emptyDb) id) ∧
    (control.blockListRare < (generateBlockList_scan tbl dec control d db emptyDb).blockCnt id →
      (rareReport control (generateBlockList_scan tbl dec control d db emptyDb) arrIdx).filter
          (fun e => decide (e.1 = id))
        = []) := by
  have hinv := generateBlockList_scan_inv tbl dec control d db emptyDb hlen id
  have hnd : arrIdx.Nodup := (List.Perm.nodup_iff hsort.1).mpr (List.nodup_range 1024)
  have hmem : id ∈ arrIdx := (List.Perm.mem_iff hsort.1).mpr (List.mem_range.mpr hid)
  have hrep := rareReport_filter control (generateBlockList_scan tbl dec control d db emptyDb)
    id arrIdx [] hnd
  refine ⟨hinv.1, ?_, ?_⟩
  · intro hr
    unfold rareReport
    rw [hrep, if_pos (show id ∈ arrIdx ∧ (generateBlockList_scan tbl dec control d db
      emptyDb).blockCnt id ≤ control.blockListRare from ⟨hmem, hr⟩), hinv.2,
      List.take_of_length_le]
    · unfold countedOf
      rw [filter_id_map_snd]
      rfl
    · rw [List.length_map, ← hinv.1]
      exact hr
  · intro hr
    unfold rareReport
    rw [hrep, if_neg (show ¬(id ∈ arrIdx ∧ (generateBlockList_scan tbl dec control d db
      emptyDb).blockCnt id ≤ control.blockListRare) from fun h => absurd h.2 (by omega))]
    rfl

theorem legend_eq (st : BlockListState) :
    ∀ (arrIdx : List Nat) (out : List (Nat × Nat)),
      arrIdx.foldl (fun out idx =>
          if st.blockCnt idx > 0 then out ++ [(idx, st.blockCnt idx)] else out) out
        = out ++ (arrIdx.filter (fun idx => decide (st.blockCnt idx > 0))).map
            (fun idx => (idx, st.blockCnt idx)) := by
  intro arrIdx
  induction arrIdx with
  | nil =>
    intro out
    simp
  | cons a t ih =>
    intro out
    rw [List.foldl_cons, ih]
    by_cases h : st.blockCnt a > 0
    · rw [if_pos h, List.filter_cons_of_pos (by simpa using h), List.map_cons,
        List.append_assoc]
      rfl
    · rw [if_neg h, List.filter_cons_of_neg (by simpa using h)]

/-- C20 (legend). With `arrIdx` any result of the sort, the legend holds no id twice, holds
the pair `(id, c)` exactly when `id` is below 1024, `c` is the histogram count of `id` and `c`
is not zero, and its counts never decrease along the list. -/
theorem legend_sorted_nonzero_counts (st : BlockListState) (arrIdx : List Nat)
    (hsort : IsSortedIdx st.blockCnt arrIdx) :
    ((legend st arrIdx).map (fun e => e.1)).Nodup ∧
    (∀ id c, (id, c) ∈ legend st arrIdx ↔ id < 1024 ∧ c = st.blockCnt id ∧ 0 < c) ∧
    (legend st arrIdx).Pairwise (fun a b => a.2 ≤ b.2) := by
  have hnd : arrIdx.Nodup := (List.Perm.nodup_iff hsort.1).mpr (List.nodup_range 1024)
  have hl : legend st arrIdx
      = (arrIdx.filter (fun idx => decide (st.blockCnt idx > 0))).map
          (fun idx => (idx, st.blockCnt idx)) := by
    unfold legend
    rw [legend_eq, List.nil_append]
  rw [hl]
  refine ⟨?_, ?_, ?_⟩
  · rw [List.map_map]
    have : ((fun e : Nat × Nat => e.1) ∘ fun idx => (idx, st.blockCnt idx)) = id := rfl
    rw [this, List.map_id]
    exact hnd.filter _
  · intro id c
    rw [List.mem_map]
    constructor
    · rintro ⟨idx, hidx, he⟩
      have h1 := List.mem_filter.mp hidx
      have hlt : idx < 1024 := List.mem_range.mp ((List.Perm.mem_iff hsort.1).mp h1.1)
      have hpos : st.blockCnt idx > 0 := by simpa using h1.2
      have hid : idx = id := congrArg Prod.fst he
      have hc : st.blockCnt idx = c := congrArg Prod.snd he
      rw [← hid, ← hc]
      exact ⟨hlt, rfl, hpos⟩
    · rintro ⟨hlt, hc, hpos⟩
      refine ⟨id, List.mem_filter.mpr ⟨?_, ?_⟩, ?_⟩
      · exact (List.Perm.mem_iff hsort.1).mpr (List.mem_range.mpr hlt)
      · rw [hc] at hpos
        simpa using hpos
      · rw [hc]
  · rw [List.pairwise_map]
    exact (hsort.2.filter _).imp (fun h => Nat.le_of_not_lt h)


/-- A loop whose body adds at most `c` to a measure adds at most `n * c` in `n` iterations. -/
theorem foldl_range_bound {S : Type} (f : S → Nat → S) (len : S → Nat) (c n : Nat) (s0 : S)
    (hstep : ∀ i s, len (f s i) ≤ len s + c) :
    len ((List.range n).foldl f s0) ≤ len s0 + n * c :=
  foldl_range_inv f (fun i s => len s ≤ len s0 + i * c) n s0 (by omega)
    (fun i _ s hs => by
      have h := hstep i s
      have hm : (i + 1) * c = i * c + c := Nat.succ_mul i c
      omega)

theorem blockListStep_counted_le (tbl : BlockTable) (control : Control) (lim : BlockListLimits)
    (v : Coords) (blockid emptyId : Nat) (st : BlockListState) :
    (blockListStep tbl control lim v blockid emptyId st).counted.length
      ≤ st.counted.length + 1 := by
  have hcount : ∀ s : BlockListState,
      (blockListCount control v blockid s).counted.length = s.counted.length + 1 := by
    intro s
    unfold blockListCount
    dsimp only
    split_ifs <;> simp
  have hemit : ∀ (block : BlockInfo) (s : BlockListState),
      (blockListEmit control block v blockid s).counted = s.counted := by
    intro block s
    unfold blockListEmit
    dsimp only
    split_ifs <;> rfl
  unfold blockListStep
  by_cases hbox : inLimits lim v.x v.y v.z = true
  · rw [if_pos hbox]
    by_cases hlt : blockid < 1024
    · rw [if_pos hlt]
      cases tbl.get blockid with
      | none => exact Nat.le_succ _
      | some block =>
        dsimp only
        by_cases he : emptyId = blockid
        · rw [if_pos he]
          exact Nat.le_succ _
        · rw [if_neg he, hcount]
          by_cases hf : control.blockFilter = "<all>" ∨ block.name = control.blockFilter
          · rw [if_pos hf, hemit]
          · rw [if_neg hf]
    · rw [if_neg hlt]
      exact Nat.le_succ _
  · rw [if_neg hbox]
    exact Nat.le_succ _

theorem blockListChunk_counted_le (tbl : BlockTable) (control : Control)
    (lim : BlockListLimits) (d : DimensionData_LevelDB) (imageX imageZ : Int) (cubicy : Nat)
    (firstBlockId : Nat → Int) (emptyBlockId : Option (Nat → Int)) (st : BlockListState) :
    (blockListChunk tbl control lim d imageX imageZ cubicy firstBlockId emptyBlockId
        st).counted.length ≤ st.counted.length + 4096 := by
  unfold blockListChunk
  refine foldl_range_bound _ (fun s => s.counted.length) (16 * (16 * 1)) 16 st ?_
  intro cx s
  refine foldl_range_bound _ (fun s => s.counted.length) (16 * 1) 16 s ?_
  intro cz s1
  refine foldl_range_bound _ (fun s => s.counted.length) 1 16 s1 ?_
  intro cy s2
  exact blockListStep_counted_le tbl control lim _ _ _ s2

theorem blockListSubchunk_counted_le (tbl : BlockTable) (dec : ChunkDecoders)
    (control : Control) (lim : BlockListLimits) (d : DimensionData_LevelDB)
    (db : List (List Byte × List Byte)) (emptyDb : Option (List (List Byte × List Byte)))
    (cubicy : Nat) (imageX imageZ : Int) (st : BlockListState) :
    (blockListSubchunk tbl dec control lim d db emptyDb cubicy imageX imageZ st).counted.length
      ≤ st.counted.length + 4096 := by
  unfold blockListSubchunk
  cases findChunk dec db d.dimId (wrapInt32 (16 * d.minChunkX + imageX)) (16 * cubicy)
      (wrapInt32 (16 * d.minChunkZ + imageZ)) with
  | none => exact Nat.le_add_right _ _
  | some firstBlockId =>
    dsimp only
    cases emptyDb with
    | none => exact blockListChunk_counted_le tbl control lim d imageX imageZ cubicy _ _ _
    | some edb =>
      dsimp only
      cases findChunk dec edb d.dimId (wrapInt32 (16 * d.minChunkX + imageX)) (16 * cubicy)
          (wrapInt32 (16 * d.minChunkZ + imageZ)) with
      | none => exact Nat.le_add_right _ _
      | some emptyBlockId =>
        exact blockListChunk_counted_le tbl control lim d imageX imageZ cubicy _ _ _

/-- The scan counts at most 4096 blocks for each subchunk position it visits. -/
theorem generateBlockList_scan_counted_le (tbl : BlockTable) (dec : ChunkDecoders)
    (control : Control) (d : DimensionData_LevelDB) (db : List (List Byte × List Byte))
    (emptyDb : Option (List (List Byte × List Byte))) :
    (generateBlockList_scan tbl dec control d db emptyDb).counted.length
      ≤ MAX_CUBIC_Y * (bandSteps (imageGeometry d).imageH *
          (bandSteps (imageGeometry d).imageW * 4096)) := by
  unfold generateBlockList_scan
  have h := foldl_range_bound
    (fun s (cubicy : Nat) =>
      (List.range (bandSteps (imageGeometry d).imageH)).foldl (fun s1 (kz : Nat) =>
        (List.range (bandSteps (imageGeometry d).imageW)).foldl (fun s2 (kx : Nat) =>
          blockListSubchunk tbl dec control (blockListLimits d control) d db emptyDb cubicy
            (16 * (kx : Int)) (16 * (kz : Int)) s2) s1) s)
    (fun s => s.counted.length)
    (bandSteps (imageGeometry d).imageH * (bandSteps (imageGeometry d).imageW * 4096))
    MAX_CUBIC_Y blockListInit
    (by
      intro cubicy s
      refine foldl_range_bound _ (fun s => s.counted.length) _ _ s ?_
      intro kz s1
      refine foldl_range_bound _ (fun s => s.counted.length) 4096 _ s1 ?_
      intro kx s2
      exact blockListSubchunk_counted_le tbl dec control _ d db emptyDb cubicy _ _ s2)
  beta_reduce at h
  have h0 : blockListInit.counted.length = 0 := rfl
  rw [h0, Nat.zero_add] at h
  exact h

theorem sortIdx_sorted (blockCnt : Nat → Nat) : IsSortedIdx blockCnt (sortIdx blockCnt) := by
  unfold IsSortedIdx sortIdx
  refine ⟨List.perm_insertionSort _ _, ?_⟩
  have hs : List.Sorted (fun a b => blockCnt a ≤ blockCnt b)
      ((List.range 1024).insertionSort (fun a b => blockCnt a ≤ blockCnt b)) :=
    @List.sorted_insertionSort Nat (fun a b => blockCnt a ≤ blockCnt b) _
      ⟨fun a b => Nat.le_total (blockCnt a) (blockCnt b)⟩
      ⟨fun _ _ _ h1 h2 => Nat.le_trans h1 h2⟩ _
  exact List.Pairwise.imp (fun h => Nat.not_lt.mpr h) hs

/-- Witness for C19: the scan of the one-chunk dimension over the store with an all-air
subchunk, id 0. -/
theorem rareReport_lists_counted_witness :
    (generateBlockList_scan tblPlain decBytes controlRare100 dimOneChunk dbAirSubchunk
        none).blockCnt 0
      = (countedOf (generateBlockList_scan tblPlain decBytes controlRare100 dimOneChunk
          dbAirSubchunk none) 0).length :=
  (rareReport_lists_counted tblPlain decBytes controlRare100 dimOneChunk dbAirSubchunk none
    (sortIdx (generateBlockList_scan tblPlain decBytes controlRare100 dimOneChunk
      dbAirSubchunk none).blockCnt) 0
    (sortIdx_sorted _)
    (Nat.lt_of_le_of_lt
      (generateBlockList_scan_counted_le tblPlain decBytes controlRare100 dimOneChunk
        dbAirSubchunk none)
      (by decide))
    (by decide)).1

/-- Witness for C20: the histogram with 3 for id 7, 3 for id 9 and 1 for id 4; the legend
holds the line of id 7. -/
theorem legend_sorted_nonzero_counts_witness :
    (7, 3) ∈ legend stateThreeIds (sortIdx stateThreeIds.blockCnt) :=
  ((legend_sorted_nonzero_counts stateThreeIds (sortIdx stateThreeIds.blockCnt)
    (sortIdx_sorted _)).2.1 7 3).mpr ⟨by decide, by decide, by decide⟩


/-! ## `generateImage`: colours -/

/-- C21 (terrain colour). In the terrain mode of `generateImage` the colour of a column before
the grid overlay is `kColorDefault` when the recorded top block id is unknown to the block
table, the colour of the variant that matches the recorded block data when the block has
variants and one matches, the colour of the block itself when it has variants and none
matches, and the colour of the block itself when it has no variants. -/
theorem generateImage_terrain_color (tbl : BlockTable) (img : ImageTables)
    (heightModeTop : Bool) (it : ChunkData_LevelDB) (cx cz : Nat) :
    (tbl.get (it.blocks cx cz) = none →
      generateImage_modeColor tbl img heightModeTop ImageModeType.kImageModeTerrain it cx cz
        = tbl.kColorDefault) ∧
    (∀ block variantColor, tbl.get (it.blocks cx cz) = some block →
      block.hasVariants = true →
      block.getVariantByBlockData (it.data cx cz) = some variantColor →
      generateImage_modeColor tbl img heightModeTop ImageModeType.kImageModeTerrain it cx cz
        = variantColor) ∧
    (∀ block, tbl.get (it.blocks cx cz) = some block →
      block.hasVariants = true →
      block.getVariantByBlockData (it.data cx cz) = none →
      generateImage_modeColor tbl img heightModeTop ImageModeType.kImageModeTerrain it cx cz
        = block.color) ∧
    (∀ block, tbl.get (it.blocks cx cz) = some block →
      block.hasVariants = false →
      generateImage_modeColor tbl img heightModeTop ImageModeType.kImageModeTerrain it cx cz
        = block.color) := by
  have hmode : generateImage_modeColor tbl img heightModeTop ImageModeType.kImageModeTerrain
      it cx cz
      = match tbl.get (it.blocks cx cz) with
        | some block =>
          if block.hasVariants then
            match block.getVariantByBlockData (it.data cx cz) with
            | some variantColor => variantColor
            | none => block.color
          else block.color
        | none => tbl.kColorDefault := by
    unfold generateImage_modeColor
    rw [if_neg (by decide), if_neg (by decide), if_neg (by decide), if_neg (by decide),
      if_neg (by decide), if_neg (by decide), if_neg (by decide)]
  rw [hmode]
  refine ⟨?_, ?_, ?_, ?_⟩
  · intro h
    rw [h]
  · intro block variantColor h hv hm
    rw [h]
    dsimp only
    rw [if_pos hv, hm]
  · intro block h hv hm
    rw [h]
    dsimp only
    rw [if_pos hv, hm]
  · intro block h hv
    rw [h]
    dsimp only
    rw [if_neg (by rw [hv]; decide)]

/-- C22 (grid overlay). With the grid enabled for the dimension, the final colour of a column
is the origin colour at local (0, 0) of chunk (0, 0) of any dimension, the grid colour at
every other column of the first row or first column of a chunk (`cx = 0` or `cz = 0`), and the
mode-specific colour where `cx` and `cz` are both not 0; with the grid not enabled every
column keeps its mode-specific colour. The two colours are the values the `int32_t color`
holds: `0x3333eb00 = 859040512` for the origin and `0xc4ffc100` wrapped, `-989871872`, for the
grid. -/
theorem generateImage_grid_overlay (doGrid : List Int) (dimId : Int) (chunkX chunkZ : Int)
    (cx cz : Nat) (color : Int) :
    wrapInt32 (local_htobe32 0xeb3333) = 859040512 ∧
    wrapInt32 (local_htobe32 0xc1ffc4) = -989871872 ∧
    (checkDoForDim dimId doGrid = true →
      (chunkX = 0 ∧ chunkZ = 0 ∧ cx = 0 ∧ cz = 0 →
        generateImage_gridColor doGrid dimId chunkX chunkZ cx cz color = 859040512) ∧
      (¬(chunkX = 0 ∧ chunkZ = 0 ∧ cx = 0 ∧ cz = 0) → (cx = 0 ∨ cz = 0) →
        generateImage_gridColor doGrid dimId chunkX chunkZ cx cz color = -989871872) ∧
      (cx ≠ 0 → cz ≠ 0 →
        generateImage_gridColor doGrid dimId chunkX chunkZ cx cz color = color)) ∧
    (checkDoForDim dimId doGrid = false →
      generateImage_gridColor doGrid dimId chunkX chunkZ cx cz color = color) := by
  have horigin : wrapInt32 (local_htobe32 0xeb3333) = 859040512 := by decide
  have hgrid : wrapInt32 (local_htobe32 0xc1ffc4) = -989871872 := by decide
  refine ⟨horigin, hgrid, ?_⟩
  rw [← horigin, ← hgrid]
  unfold generateImage_gridColor
  refine ⟨fun hg => ⟨?_, ?_, ?_⟩, ?_⟩
  · intro h
    rw [if_pos ⟨hg, Or.inl h.2.2.1⟩, if_pos h]
  · intro h hline
    rw [if_pos ⟨hg, hline⟩, if_neg h]
  · intro hx hz
    rw [if_neg]
    rintro ⟨_, h | h⟩
    · exact hx h
    · exact hz h
  · intro hg
    rw [if_neg]
    rintro ⟨h, _⟩
    rw [hg] at h
    exact Bool.noConfusion h

/-- Counterexample to C22 as stated: with the grid enabled, the column at local (0, 5) of the
overworld chunk (3, 4) is overpainted with the grid colour, and the column at local (0, 0) of
the nether chunk (0, 0) takes the origin colour; the colours differ from the ones the
statement gives. -/
theorem generateImage_grid_overlay_counterexample :
    generateImage_gridColor [0] 0 3 4 0 5 77 = -989871872 ∧
    gridColorOfSpec [0] 0 3 4 0 5 77 = 77 ∧
    generateImage_gridColor [0] 0 3 4 0 5 77 ≠ gridColorOfSpec [0] 0 3 4 0 5 77 ∧
    generateImage_gridColor [1] 1 0 0 0 0 77 = 859040512 ∧
    gridColorOfSpec [1] 1 0 0 0 0 77 = -989871872 ∧
    generateImage_gridColor [1] 1 0 0 0 0 77 ≠ gridColorOfSpec [1] 1 0 0 0 0 77 := by
  decide

/-! ## `updateFastLists` -/

theorem vectorContains_iff (v : List Int) (i : Int) : vectorContains v i = true ↔ i ∈ v := by
  induction v with
  | nil => simp [vectorContains]
  | cons a t ih =>
    unfold vectorContains
    by_cases h : a = i
    · rw [if_pos h]
      simp [h]
    · rw [if_neg h, ih, List.mem_cons]
      constructor
      · exact Or.inr
      · rintro (h1 | h1)
        · exact absurd h1.symm h
        · exact h1

/-- The three arrays after the loop of `updateFastLists` has run `n` times. -/
theorem updateFastLists_loop (l : BlockIdLists) (f : FastLists) (n : Nat) (bid : Nat) :
    ((List.range n).foldl (fun (f : FastLists) (bid : Nat) =>
      ({ fastBlockHideList :=
          Function.update f.fastBlockHideList bid (vectorContains l.blockHideList bid)
         fastBlockForceTopList :=
          Function.update f.fastBlockForceTopList bid (vectorContains l.blockForceTopList bid)
         fastBlockToGeoJSONList :=
          Function.update f.fastBlockToGeoJSONList bid
            (vectorContains l.blockToGeoJSONList bid) } : FastLists)) f).fastBlockHideList bid
      = (if bid < n then vectorContains l.blockHideList bid else f.fastBlockHideList bid) ∧
    ((List.range n).foldl (fun (f : FastLists) (bid : Nat) =>
      ({ fastBlockHideList :=
          Function.update f.fastBlockHideList bid (vectorContains l.blockHideList bid)
         fastBlockForceTopList :=
          Function.update f.fastBlockForceTopList bid (vectorContains l.blockForceTopList bid)
         fastBlockToGeoJSONList :=
          Function.update f.fastBlockToGeoJSONList bid
            (vectorContains l.blockToGeoJSONList bid) } : FastLists)) f).fastBlockForceTopList
        bid
      = (if bid < n then vectorContains l.blockForceTopList bid
          else f.fastBlockForceTopList bid) ∧
    ((List.range n).foldl (fun (f : FastLists) (bid : Nat) =>
      ({ fastBlockHideList :=
          Function.update f.fastBlockHideList bid (vectorContains l.blockHideList bid)
         fastBlockForceTopList :=
          Function.update f.fastBlockForceTopList bid (vectorContains l.blockForceTopList bid)
         fastBlockToGeoJSONList :=
          Function.update f.fastBlockToGeoJSONList bid
            (vectorContains l.blockToGeoJSONList bid) } : FastLists)) f).fastBlockToGeoJSONList
        bid
      = (if bid < n then vectorContains l.blockToGeoJSONList bid
          else f.fastBlockToGeoJSONList bid) := by
  induction n with
  | zero => exact ⟨rfl, rfl, rfl⟩
  | succ n ih =>
    rw [List.range_succ, List.foldl_append, List.foldl_cons, List.foldl_nil]
    obtain ⟨h1, h2, h3⟩ := ih
    by_cases hb : bid = n
    · subst hb
      dsimp only
      rw [Function.update_same, Function.update_same, Function.update_same,
        if_pos (Nat.lt_succ_self _), if_pos (Nat.lt_succ_self _), if_pos (Nat.lt_succ_self _)]
      exact ⟨rfl, rfl, rfl⟩
    · dsimp only
      rw [Function.update_noteq hb, Function.update_noteq hb, Function.update_noteq hb, h1, h2,
        h3]
      by_cases hlt : bid < n
      · rw [if_pos hlt, if_pos hlt, if_pos hlt, if_pos (by omega), if_pos (by omega),
          if_pos (by omega)]
        exact ⟨rfl, rfl, rfl⟩
      · rw [if_neg hlt, if_neg hlt, if_neg hlt, if_neg (by omega), if_neg (by omega),
          if_neg (by omega)]
        exact ⟨rfl, rfl, rfl⟩

theorem mem_inRangeIds (v : List Int) (bid : Nat) (h : bid < 1024) :
    (bid : Int) ∈ inRangeIds v ↔ (bid : Int) ∈ v := by
  unfold inRangeIds
  rw [List.mem_filter]
  constructor
  · exact fun h1 => h1.1
  · intro h1
    refine ⟨h1, ?_⟩
    rw [decide_eq_true_eq]
    omega

/-- C24 (fast lists). After `updateFastLists`, for every block id `bid` below 1024 the entry
`bid` of each fast list is true exactly when `bid` occurs in the matching vector; the entries
of the vectors outside `[0, 1024)` change no entry of the arrays. -/
theorem updateFastLists_entries (l : BlockIdLists) (f : FastLists) (bid : Nat)
    (hbid : bid < 1024) :
    ((updateFastLists l f).fastBlockHideList bid = true ↔ (bid : Int) ∈ l.blockHideList) ∧
    ((updateFastLists l f).fastBlockForceTopList bid = true
      ↔ (bid : Int) ∈ l.blockForceTopList) ∧
    ((updateFastLists l f).fastBlockToGeoJSONList bid = true
      ↔ (bid : Int) ∈ l.blockToGeoJSONList) ∧
    (updateFastLists l f).fastBlockHideList bid
      = (updateFastLists (inRangeLists l) f).fastBlockHideList bid ∧
    (updateFastLists l f).fastBlockForceTopList bid
      = (updateFastLists (inRangeLists l) f).fastBlockForceTopList bid ∧
    (updateFastLists l f).fastBlockToGeoJSONList bid
      = (updateFastLists (inRangeLists l) f).fastBlockToGeoJSONList bid := by
  obtain ⟨h1, h2, h3⟩ := updateFastLists_loop l f 1024 bid
  obtain ⟨g1, g2, g3⟩ := updateFastLists_loop (inRangeLists l) f 1024 bid
  rw [if_pos hbid] at h1 h2 h3 g1 g2 g3
  have e : ∀ v : List Int, vectorContains v bid = vectorContains (inRangeIds v) bid := by
    intro v
    rw [Bool.eq_iff_iff, vectorContains_iff, vectorContains_iff, mem_inRangeIds v bid hbid]
  unfold updateFastLists
  rw [h1, h2, h3, g1, g2, g3]
  exact ⟨vectorContains_iff _ _, vectorContains_iff _ _, vectorContains_iff _ _,
    e _, e _, e _⟩

/-- Witness for C24: the hide list holds 7, 2000 and -1; entry 7 is set. -/
theorem updateFastLists_entries_witness :
    (updateFastLists listsHide7 fastListsBefore).fastBlockHideList 7 = true :=
  (updateFastLists_entries listsHide7 fastListsBefore 7 (by decide)).1.mpr (by decide)


/-- Witness for C21: the top block of every column of the empty chunk is id 0, which the table
`tblPlain` knows without variants with colour 0. -/
theorem generateImage_terrain_color_witness :
    generateImage_modeColor tblPlain imgNone true ImageModeType.kImageModeTerrain
      (emptyChunk 0 0) 3 4 = 0 :=
  (generateImage_terrain_color tblPlain imgNone true (emptyChunk 0 0) 3 4).2.2.2
    { id := 0, name := "", color := 0 * 256, hasVariants := false,
      getVariantByBlockData := fun _ => none }
    rfl rfl

/-- Witness for C22: local (0, 0) of chunk (0, 0) with the grid enabled for the overworld. -/
theorem generateImage_grid_overlay_witness :
    generateImage_gridColor [0] 0 0 0 0 0 77 = 859040512 :=
  ((generateImage_grid_overlay [0] 0 0 0 0 0 77).2.2.1 (by decide)).1 ⟨rfl, rfl, rfl, rfl⟩

/-! ## The lookup table of the height-alpha mode -/

/-- The table entry for a value `n * n / 255`: the integer quotient, at most 235. -/
theorem lutEntry_of_square (n : Int) :
    lutEntry ((((n : ℚ) * n) / (255 * 255)) * 255) = min 235 (n * n / 255).toNat := by
  have hq : (((n : ℚ) * n) / (255 * 255)) * 255
      = ((n * n : Int) : ℚ) / ((255 : Nat) : ℚ) := by
    push_cast
    field_simp
    ring
  rw [hq]
  have hfl : Rat.floor (((n * n : Int) : ℚ) / ((255 : Nat) : ℚ)) = n * n / 255 :=
    Rat.floor_intCast_div_natCast (n * n) 255
  have hnn : (0 : Int) ≤ n * n := mul_self_nonneg n
  have h0 : (0 : ℚ) ≤ ((n * n : Int) : ℚ) / ((255 : Nat) : ℚ) :=
    div_nonneg (by exact_mod_cast hnn) (by norm_num)
  unfold lutEntry
  by_cases hbig : ((n * n : Int) : ℚ) / ((255 : Nat) : ℚ) > 235
  · have hint : (59925 : Int) < n * n := by
      have h1 : (235 : ℚ) * ((255 : Nat) : ℚ) < ((n * n : Int) : ℚ) :=
        (lt_div_iff₀ (by norm_num)).mp hbig
      have h2 : ((59925 : Int) : ℚ) < ((n * n : Int) : ℚ) := by
        have : ((59925 : Int) : ℚ) = (235 : ℚ) * ((255 : Nat) : ℚ) := by norm_num
        rw [this]
        exact h1
      exact_mod_cast h2
    simp only [hbig, if_true]
    rw [if_neg (by norm_num)]
    have hf : Rat.floor (235 : ℚ) = 235 := by rfl
    rw [hf]
    have hge : 235 ≤ (n * n / 255).toNat := by omega
    omega
  · simp only [hbig, if_false]
    rw [if_neg (not_lt.mpr h0), hfl]
    have hint : n * n ≤ 59925 := by
      have h1 : ((n * n : Int) : ℚ) ≤ (235 : ℚ) * ((255 : Nat) : ℚ) :=
        (div_le_iff₀ (by norm_num)).mp (not_lt.mp hbig)
      have h2 : ((n * n : Int) : ℚ) ≤ ((59925 : Int) : ℚ) := by
        have : ((59925 : Int) : ℚ) = (235 : ℚ) * ((255 : Nat) : ℚ) := by norm_num
        rw [this]
        exact h1
      exact_mod_cast h2
    have hle : (n * n / 255).toNat ≤ 235 := by omega
    omega

theorem lutValue_eq (i : Nat) :
    lutValue i = ((((288 - (i : Int) : Int) : ℚ) * ((288 - (i : Int) : Int) : ℚ))
      / (255 * 255)) * 255 := by
  unfold lutValue MAX_BLOCK_HEIGHT
  have h : ((((255 : Nat) : Int) + 1) + 32 - (i : Int) : Int) = 288 - (i : Int) := by omega
  rw [h]
  norm_num

theorem generateImage_lut_eq (i : Nat) :
    generateImage_lut i = min 235 ((288 - (i : Int)) * (288 - (i : Int)) / 255).toNat := by
  unfold generateImage_lut
  rw [lutValue_eq, lutEntry_of_square]

theorem lutOfSpec_eq (y : Nat) :
    lutOfSpec y = min 235 ((287 - (y : Int)) * (287 - (y : Int)) / 255).toNat := by
  unfold lutOfSpec MAX_BLOCK_HEIGHT
  have h : (((255 : Nat) : Int) + 32 - (y : Int) : Int) = 287 - (y : Int) := by omega
  rw [h]
  have e : ((((287 - (y : Int) : Int) : ℚ)) ^ 2 / (((255 : Nat) : ℚ)) ^ 2) * 255
      = ((((287 - (y : Int) : Int) : ℚ) * ((287 - (y : Int) : Int) : ℚ)) / (255 * 255))
        * 255 := by
    norm_num
    ring
  rw [e, lutEntry_of_square]


set_option maxRecDepth 20000 in
theorem square_not_multiple_of_255 :
    ∀ i : Nat, i < 256 → 44 ≤ i → ((288 - i) * (288 - i)) % 255 ≠ 0 := by
  decide

/-- The stored entry does not depend on the rounding of the quotient and of the product: every
value within 1/1000 of the exact one gives the same entry. -/
theorem lutEntry_stable (i : Nat) (hi : i ≤ MAX_BLOCK_HEIGHT) (v : ℚ)
    (hv : |v - lutValue i| ≤ 1 / 1000) : lutEntry v = generateImage_lut i := by
  unfold MAX_BLOCK_HEIGHT at hi
  rw [generateImage_lut_eq]
  obtain ⟨hv1, hv2⟩ := abs_le.mp hv
  have hq : lutValue i * 255 = (((288 - (i : Int)) * (288 - (i : Int)) : Int) : ℚ) := by
    rw [lutValue_eq]
    push_cast
    field_simp
    ring
  have hdm := Int.ediv_add_emod ((288 - (i : Int)) * (288 - (i : Int))) 255
  have hr0 := Int.emod_nonneg ((288 - (i : Int)) * (288 - (i : Int)))
    (by decide : (255 : Int) ≠ 0)
  have hr1 := Int.emod_lt_of_pos ((288 - (i : Int)) * (288 - (i : Int)))
    (by decide : (0 : Int) < 255)
  generalize hk : (288 - (i : Int)) * (288 - (i : Int)) / 255 = k at hdm ⊢
  generalize hr : (288 - (i : Int)) * (288 - (i : Int)) % 255 = r at hdm hr0 hr1
  have hsq : (((288 - (i : Int)) * (288 - (i : Int)) : Int) : ℚ)
      = 255 * (k : ℚ) + (r : ℚ) := by
    rw [← hdm]
    push_cast
    ring
  rw [hsq] at hq
  have hr0q : (0 : ℚ) ≤ (r : ℚ) := by exact_mod_cast hr0
  have hr1q : (r : ℚ) ≤ 254 := by
    have : r ≤ 254 := by omega
    exact_mod_cast this
  unfold lutEntry
  by_cases hn : i < 44
  · -- the exact value is above 235.3: the clamp applies
    have hsqge : (60025 : Int) ≤ (288 - (i : Int)) * (288 - (i : Int)) := by nlinarith
    have hkge : 235 ≤ k := by omega
    have hkq : (235 : ℚ) ≤ (k : ℚ) := by exact_mod_cast hkge
    have hrk : (60025 : ℚ) ≤ 255 * (k : ℚ) + (r : ℚ) := by
      rw [← hsq]
      exact_mod_cast hsqge
    have hbig : v > 235 := by linarith
    simp only [hbig, if_true]
    rw [if_neg (by norm_num)]
    have hf : Rat.floor (235 : ℚ) = 235 := by rfl
    rw [hf]
    omega
  · -- the exact value is at least 1/255 away from the integers around it
    have hne : r ≠ 0 := by
      have h1 := square_not_multiple_of_255 i (by omega) (by omega)
      intro h0
      apply h1
      have h2 : (((288 - i) * (288 - i) : Nat) : Int) = (288 - (i : Int)) * (288 - (i : Int)) := by
        push_cast [Nat.cast_sub (show i ≤ 288 by omega)]
        ring
      generalize (288 - i) * (288 - i) = m at h2 ⊢
      generalize (288 - (i : Int)) * (288 - (i : Int)) = p at h2 hr
      omega
    have hr1' : (1 : ℚ) ≤ (r : ℚ) := by
      have : 1 ≤ r := by omega
      exact_mod_cast this
    have hsqle : (288 - (i : Int)) * (288 - (i : Int)) ≤ 59536 := by nlinarith
    have hsqge : 0 ≤ (288 - (i : Int)) * (288 - (i : Int)) := mul_self_nonneg _
    have hk0 : 0 ≤ k := by omega
    have hkle : k ≤ 233 := by omega
    have hk0q : (0 : ℚ) ≤ (k : ℚ) := by exact_mod_cast hk0
    have hkq : (k : ℚ) ≤ 233 := by exact_mod_cast hkle
    have hlo : (k : ℚ) ≤ v := by linarith
    have hhi : v < (k : ℚ) + 1 := by linarith
    have hsmall : ¬ v > 235 := by
      intro h
      linarith
    simp only [hsmall, if_false]
    rw [if_neg (by intro h; linarith)]
    have hfl : Rat.floor v = k := Int.floor_eq_iff.mpr ⟨hlo, hhi⟩
    rw [hfl]
    omega

/-- C23 (height-alpha table). For every height `y` from 0 to `MAX_BLOCK_HEIGHT` the entry
`lut[y]` is `((H + 1 + 32 - y)^2 / H^2) * 255` with `H = MAX_BLOCK_HEIGHT`, clamped to
`[0, 235]` and truncated: the integer quotient of `(288 - y)^2` by 255, and 235 where that
quotient is larger. -/
theorem generateImage_lut_value (y : Nat) (hy : y ≤ MAX_BLOCK_HEIGHT) :
    generateImage_lut y
      = lutEntry ((((((MAX_BLOCK_HEIGHT : Int) + 1 + 32 - (y : Int) : Int) : ℚ)) ^ 2
          / ((MAX_BLOCK_HEIGHT : ℚ)) ^ 2) * 255) ∧
    generateImage_lut y = min 235 ((288 - y) * (288 - y) / 255) ∧
    generateImage_lut y ≤ 235 := by
  unfold MAX_BLOCK_HEIGHT at hy
  have h3 : generateImage_lut y = min 235 ((288 - y) * (288 - y) / 255) := by
    rw [generateImage_lut_eq]
    have e : ((288 - (y : Int)) * (288 - (y : Int)) / 255).toNat
        = (288 - y) * (288 - y) / 255 := by
      have h2 : (((288 - y) * (288 - y) : Nat) : Int)
          = (288 - (y : Int)) * (288 - (y : Int)) := by
        push_cast [Nat.cast_sub (show y ≤ 288 by omega)]
        ring
      rw [← h2]
      have : ((((288 - y) * (288 - y) : Nat) : Int) / 255)
          = (((288 - y) * (288 - y) / 255 : Nat) : Int) := by
        push_cast
        rfl
      rw [this, Int.toNat_natCast]
    rw [e]
  refine ⟨?_, h3, ?_⟩
  · unfold generateImage_lut lutValue
    congr 1
    ring
  · rw [h3]
    exact Nat.min_le_left _ _

/-- Witness for C23: the entry for height 100 is 138. -/
theorem generateImage_lut_value_witness : generateImage_lut 100 = 138 :=
  ((generateImage_lut_value 100 (by decide)).2.1).trans (by decide)

/-- Counterexample to C23 as stated: at height 100 the code stores 138, the integer part of
`188^2 / 255`, where the stated formula `((H + 32 - y)^2 / H^2) * 255` gives 137. -/
theorem generateImage_lut_value_counterexample :
    generateImage_lut 100 = 138 ∧ lutOfSpec 100 = 137 ∧
    generateImage_lut 100 ≠ lutOfSpec 100 := by
  have h1 : generateImage_lut 100 = 138 := by
    rw [generateImage_lut_eq]
    decide
  have h2 : lutOfSpec 100 = 137 := by
    rw [lutOfSpec_eq]
    decide
  refine ⟨h1, h2, ?_⟩
  rw [h1, h2]
  decide


/-! ## `parseLevelFile`, `init`, `dbOpen` -/

/-- C25 (level metadata). `init` returns -1 exactly when `parseLevelFile` returns a value other
than 0, which it does when the file cannot be opened (-1), when the payload length of the
header is not positive (-2), or when `parseNbt` fails on the payload (its return code);
`init` then leaves the list of dimensions as it was. When `parseLevelFile` returns 0, `init`
returns 0 whatever `parseLevelName` returns. -/
theorem init_fails_iff_level_file_fails (env : Env) (lenv : LevelEnv)
    (file : Option LevelFile) (w : MinecraftWorld_LevelDB) :
    ((MinecraftWorld_LevelDB.init env lenv file w).1 = -1
      ↔ (parseLevelFile env lenv file w).1 ≠ 0) ∧
    ((parseLevelFile env lenv file w).1 ≠ 0
      ↔ (file = none ∨
          ∃ f, file = some f ∧ (f.bufLen ≤ 0 ∨ env.parseNbt f.buf ≠ 0))) ∧
    (file = none → (parseLevelFile env lenv file w).1 = -1) ∧
    (∀ f, file = some f → f.bufLen ≤ 0 → (parseLevelFile env lenv file w).1 = -2) ∧
    (∀ f, file = some f → 0 < f.bufLen →
      (parseLevelFile env lenv file w).1 = env.parseNbt f.buf) ∧
    ((MinecraftWorld_LevelDB.init env lenv file w).1 = -1 →
      (MinecraftWorld_LevelDB.init env lenv file w).2.dimDataList = w.dimDataList) ∧
    ((parseLevelFile env lenv file w).1 = 0 →
      (MinecraftWorld_LevelDB.init env lenv file w).1 = 0) := by
  have hinit : ((MinecraftWorld_LevelDB.init env lenv file w).1 = -1
      ↔ (parseLevelFile env lenv file w).1 ≠ 0) := by
    unfold MinecraftWorld_LevelDB.init
    dsimp only
    by_cases h : (parseLevelFile env lenv file w).1 ≠ 0
    · rw [if_pos h]
      exact ⟨fun _ => h, fun _ => rfl⟩
    · rw [if_neg h]
      refine ⟨fun h1 => ?_, fun h1 => absurd h1 h⟩
      have h2 : (0 : Int) = -1 := h1
      exact absurd h2 (by decide)
  have hdims : (parseLevelFile env lenv file w).2.dimDataList = w.dimDataList := by
    unfold parseLevelFile
    cases file with
    | none => rfl
    | some f =>
      dsimp only
      split_ifs <;> rfl
  have hret : ∀ f, file = some f →
      (parseLevelFile env lenv file w).1
        = if f.bufLen > 0 then env.parseNbt f.buf else -2 := by
    intro f hf
    rw [hf]
    unfold parseLevelFile
    dsimp only
    by_cases hlen : f.bufLen > 0
    · rw [if_pos hlen, if_pos hlen]
      by_cases h0 : env.parseNbt f.buf = 0
      · rw [if_pos h0]
      · rw [if_neg h0]
    · rw [if_neg hlen, if_neg hlen]
  have hnone : file = none → (parseLevelFile env lenv file w).1 = -1 := by
    intro hf
    rw [hf]
    rfl
  refine ⟨hinit, ?_, hnone, ?_, ?_, ?_, ?_⟩
  · constructor
    · intro hne
      cases hfile : file with
      | none => exact Or.inl rfl
      | some f =>
        refine Or.inr ⟨f, rfl, ?_⟩
        rw [hret f hfile] at hne
        by_cases hlen : f.bufLen > 0
        · rw [if_pos hlen] at hne
          exact Or.inr hne
        · exact Or.inl (by omega)
    · rintro (hf | ⟨f, hf, hbad⟩)
      · rw [hnone hf]
        decide
      · rw [hret f hf]
        by_cases hlen : f.bufLen > 0
        · rw [if_pos hlen]
          rcases hbad with h | h
          · omega
          · exact h
        · rw [if_neg hlen]
          decide
  · intro f hf hlen
    rw [hret f hf, if_neg (by omega)]
  · intro f hf hlen
    rw [hret f hf, if_pos hlen]
  · intro h
    have hne := hinit.mp h
    unfold MinecraftWorld_LevelDB.init
    dsimp only
    rw [if_pos hne]
    exact hdims
  · intro h
    unfold MinecraftWorld_LevelDB.init
    dsimp only
    rw [if_neg (by rw [h]; decide)]

/-- C26 (store open). When `leveldb::DB::Open` fails and `control.tryDbRepair` is not set,
`dbOpen` returns 0, as it does after a successful open; only a failed repair ends otherwise
(`exit(-2)`). -/
theorem dbOpen_returns_zero_after_failed_open :
    dbOpen false false false = CallEnd.returned 0 ∧
    dbOpen false false true = CallEnd.returned 0 ∧
    dbOpen true false false = CallEnd.returned 0 ∧
    dbOpen false true false = CallEnd.exited (-2) ∧
    dbOpen false true true = CallEnd.returned 0 := by
  decide

/-! ## Rows given to the encoders -/

theorem imageH_multiple_of_16 (d : DimensionData_LevelDB) :
    (imageGeometry d).imageH % 16 = 0 := by
  unfold imageGeometry wrapInt32
  dsimp only
  omega

theorem bandSteps_rows (h : Int) (h0 : 0 ≤ h) (h16 : h % 16 = 0) :
    ((16 * bandSteps h : Nat) : Int) = h := by
  unfold bandSteps
  omega

theorem bandsWritten_step (imageW imageH minChunkZ : Int) (k : Nat) :
    PngWriter.writeRows (bandsWritten imageW imageH minChunkZ k) (wrapInt32 (minChunkZ + k))
      = bandsWritten imageW imageH minChunkZ (k + 1) := by
  unfold PngWriter.writeRows bandsWritten
  rw [List.range_succ, List.map_append, List.map_singleton, Nat.mul_succ]

/-- The band loop of `generateImage` on its encoder. -/
theorem generateImage_encoder_bands (d : DimensionData_LevelDB) (n : Nat) :
    (List.range n).foldl (fun p (kz : Nat) =>
        PngWriter.writeRows p (wrapInt32 (d.minChunkZ + kz)))
      (PngWriter.init (imageGeometry d).imageW (imageGeometry d).imageH)
      = bandsWritten (imageGeometry d).imageW (imageGeometry d).imageH d.minChunkZ n :=
  foldl_range_inv
    (fun p (kz : Nat) => PngWriter.writeRows p (wrapInt32 (d.minChunkZ + kz)))
    (fun k p => p = bandsWritten (imageGeometry d).imageW (imageGeometry d).imageH
      d.minChunkZ k)
    n _ rfl
    (fun k _ p hp => by
      rw [hp]
      exact bandsWritten_step _ _ _ k)

theorem slicesInitLoop_all (imageW imageH : Int) (initOk : Nat → Bool) :
    ∀ (l : List Nat) (png : Nat → Option PngWriter),
      (∀ cy, cy ∈ l → initOk cy = true) →
      (slicesInitLoop imageW imageH initOk l png).1 = true ∧
      ∀ cy, (slicesInitLoop imageW imageH initOk l png).2 cy
        = if cy ∈ l then some (PngWriter.init imageW imageH) else png cy := by
  intro l
  induction l with
  | nil =>
    intro png _
    exact ⟨rfl, fun cy => by rw [if_neg (List.not_mem_nil cy)]; rfl⟩
  | cons a t ih =>
    intro png hall
    have ha : initOk a = true := hall a (List.mem_cons_self a t)
    unfold slicesInitLoop
    rw [if_neg (by rw [ha]; decide)]
    obtain ⟨h1, h2⟩ := ih (Function.update png a (some (PngWriter.init imageW imageH)))
      (fun cy hcy => hall cy (List.mem_cons_of_mem a hcy))
    refine ⟨h1, fun cy => ?_⟩
    rw [h2 cy]
    by_cases hc : cy ∈ t
    · rw [if_pos hc, if_pos (List.mem_cons_of_mem a hc)]
    · rw [if_neg hc]
      by_cases hca : cy = a
      · rw [hca, Function.update_same, if_pos (List.mem_cons_self a t)]
      · rw [Function.update_noteq hca, if_neg]
        intro hmem
        rcases List.mem_cons.mp hmem with h | h
        · exact hca h
        · exact hc h

theorem slicesInitLoop_fails (imageW imageH : Int) (initOk : Nat → Bool) :
    ∀ (l : List Nat) (png : Nat → Option PngWriter),
      (∃ cy, cy ∈ l ∧ initOk cy = false) →
      (∀ cy p, png cy = some p → p.closedAfter = none) →
      (slicesInitLoop imageW imageH initOk l png).1 = false ∧
      ∀ cy p, (slicesInitLoop imageW imageH initOk l png).2 cy = some p →
        p.closedAfter = none := by
  intro l
  induction l with
  | nil =>
    rintro png ⟨cy, hcy, _⟩ _
    exact absurd hcy (List.not_mem_nil cy)
  | cons a t ih =>
    intro png hex hpng
    have hupd : ∀ cy p,
        Function.update png a (some (PngWriter.init imageW imageH)) cy = some p →
        p.closedAfter = none := by
      intro cy p hp
      by_cases hca : cy = a
      · rw [hca, Function.update_same] at hp
        rw [← Option.some.inj hp]
        rfl
      · rw [Function.update_noteq hca] at hp
        exact hpng cy p hp
    unfold slicesInitLoop
    by_cases ha : initOk a = false
    · rw [if_pos ha]
      exact ⟨rfl, hupd⟩
    · rw [if_neg ha]
      obtain ⟨cy, hcy, hbad⟩ := hex
      have hcyt : cy ∈ t := by
        rcases List.mem_cons.mp hcy with h | h
        · rw [h] at hbad
          exact absurd hbad ha
        · exact h
      exact ih _ ⟨cy, hcyt, hbad⟩ hupd

/-- One pass over the encoders `png[0 .. n - 1]` that applies `f` to each. -/
theorem encoders_pass (f : PngWriter → PngWriter) (n : Nat) (png : Nat → Option PngWriter)
    (cy : Nat) :
    (List.range n).foldl (fun png1 (c : Nat) => Function.update png1 c ((png1 c).map f)) png cy
      = if cy < n then (png cy).map f else png cy := by
  have h := foldl_range_inv
    (fun png1 (c : Nat) => Function.update png1 c ((png1 c).map f))
    (fun m s => ∀ c, s c = if c < m then (png c).map f else png c)
    n png
    (fun c => by rw [if_neg (Nat.not_lt_zero c)])
    (fun m _ s hs c => by
      beta_reduce
      by_cases hcm : c = m
      · rw [hcm, Function.update_same, hs m, if_neg (Nat.lt_irrefl m),
          if_pos (Nat.lt_succ_self m)]
      · rw [Function.update_noteq hcm, hs c]
        by_cases hlt : c < m
        · rw [if_pos hlt, if_pos (by omega)]
        · rw [if_neg hlt, if_neg (by omega)])
  exact h cy

/-- Witness for C25: `level.dat` cannot be opened. -/
theorem init_fails_iff_level_file_fails_witness :
    (MinecraftWorld_LevelDB.init env0 lenvDemo none newWorld).1 = -1 :=
  (init_fails_iff_level_file_fails env0 lenvDemo none newWorld).1.mpr (by decide)


/-- The encoders of `generateSlices` after `k` iterations of the band loop, when every
initialisation succeeded. -/
theorem generateSlices_encoders_bands (d : DimensionData_LevelDB) (k : Nat) (cy : Nat) :
    (List.range k).foldl (fun png (kz : Nat) =>
        (List.range (MAX_BLOCK_HEIGHT + 1)).foldl (fun png1 (c : Nat) =>
          Function.update png1 c
            ((png1 c).map (fun p => PngWriter.writeRows p (wrapInt32 (d.minChunkZ + kz)))))
          png)
      (fun c => if c ∈ List.range (MAX_BLOCK_HEIGHT + 1) then
        some (PngWriter.init (imageGeometry d).imageW (imageGeometry d).imageH) else none) cy
      = if cy < MAX_BLOCK_HEIGHT + 1 then
          some (bandsWritten (imageGeometry d).imageW (imageGeometry d).imageH d.minChunkZ k)
        else none := by
  have h := foldl_range_inv
    (fun png (kz : Nat) =>
      (List.range (MAX_BLOCK_HEIGHT + 1)).foldl (fun png1 (c : Nat) =>
        Function.update png1 c
          ((png1 c).map (fun p => PngWriter.writeRows p (wrapInt32 (d.minChunkZ + kz)))))
        png)
    (fun m s => ∀ c, s c = if c < MAX_BLOCK_HEIGHT + 1 then
        some (bandsWritten (imageGeometry d).imageW (imageGeometry d).imageH d.minChunkZ m)
      else none)
    k
    (fun c => if c ∈ List.range (MAX_BLOCK_HEIGHT + 1) then
      some (PngWriter.init (imageGeometry d).imageW (imageGeometry d).imageH) else none)
    (fun c => by
      beta_reduce
      by_cases hc : c < MAX_BLOCK_HEIGHT + 1
      · rw [if_pos (List.mem_range.mpr hc), if_pos hc]
        rfl
      · rw [if_neg (fun h => hc (List.mem_range.mp h)), if_neg hc])
    (fun m _ s hs c => by
      beta_reduce
      rw [encoders_pass, hs c]
      by_cases hc : c < MAX_BLOCK_HEIGHT + 1
      · simp only [if_pos hc, Option.map_some', bandsWritten_step]
      · simp only [if_neg hc])
  exact h cy

/-- C27 (rows before close). An encoder of `generateImage` whose initialisation succeeded is
closed after one 16-row band per chunk row from `minChunkZ` on, and each of the
`MAX_BLOCK_HEIGHT + 1` encoders of `generateSlices` is closed after the same bands when all
initialisations succeeded; the rows of these bands are `imageH` in all when `imageH` is not
negative, and never fewer than `imageH`. When an initialisation fails the pass returns -1 and
closes no encoder. `imageH` is `16 * (maxChunkZ - minChunkZ + 1)` when that fits 32 bits. -/
theorem encoders_get_every_row (d : DimensionData_LevelDB) (slicesInitOk : Nat → Bool) :
    generateImage_encoder d true
      = (0, PngWriter.close (bandsWritten (imageGeometry d).imageW (imageGeometry d).imageH
          d.minChunkZ (bandSteps (imageGeometry d).imageH))) ∧
    ((generateImage_encoder d false).1 = -1 ∧
      (generateImage_encoder d false).2.closedAfter = none) ∧
    ((∀ cy, cy ≤ MAX_BLOCK_HEIGHT → slicesInitOk cy = true) →
      (generateSlices_encoders d slicesInitOk).1 = 0 ∧
      ∀ cy, cy ≤ MAX_BLOCK_HEIGHT →
        (generateSlices_encoders d slicesInitOk).2 cy
          = some (PngWriter.close (bandsWritten (imageGeometry d).imageW
              (imageGeometry d).imageH d.minChunkZ (bandSteps (imageGeometry d).imageH)))) ∧
    ((∃ cy, cy ≤ MAX_BLOCK_HEIGHT ∧ slicesInitOk cy = false) →
      (generateSlices_encoders d slicesInitOk).1 = -1 ∧
      ∀ cy p, (generateSlices_encoders d slicesInitOk).2 cy = some p →
        p.closedAfter = none) ∧
    (PngWriter.close (bandsWritten (imageGeometry d).imageW (imageGeometry d).imageH
        d.minChunkZ (bandSteps (imageGeometry d).imageH))).closedAfter
      = some (16 * bandSteps (imageGeometry d).imageH) ∧
    (0 ≤ (imageGeometry d).imageH →
      ((16 * bandSteps (imageGeometry d).imageH : Nat) : Int) = (imageGeometry d).imageH) ∧
    (imageGeometry d).imageH ≤ ((16 * bandSteps (imageGeometry d).imageH : Nat) : Int) ∧
    (d.minChunkZ ≤ d.maxChunkZ → 16 * (d.maxChunkZ - d.minChunkZ + 1) ≤ 2147483647 →
      (imageGeometry d).imageH = 16 * (d.maxChunkZ - d.minChunkZ + 1)) := by
  refine ⟨?_, ⟨rfl, rfl⟩, ?_, ?_, rfl,
    fun hH => bandSteps_rows _ hH (imageH_multiple_of_16 d), ?_, ?_⟩
  · unfold generateImage_encoder
    dsimp only
    rw [if_neg (by decide), generateImage_encoder_bands]
  · intro hall
    obtain ⟨h1, h2⟩ := slicesInitLoop_all (imageGeometry d).imageW (imageGeometry d).imageH
      slicesInitOk (List.range (MAX_BLOCK_HEIGHT + 1)) (fun _ => none)
      (fun cy hcy => hall cy (by have := List.mem_range.mp hcy; omega))
    have h2f : (slicesInitLoop (imageGeometry d).imageW (imageGeometry d).imageH
        slicesInitOk (List.range (MAX_BLOCK_HEIGHT + 1)) (fun _ => none)).2
        = fun c => if c ∈ List.range (MAX_BLOCK_HEIGHT + 1) then
            some (PngWriter.init (imageGeometry d).imageW (imageGeometry d).imageH)
          else none := funext h2
    unfold generateSlices_encoders
    dsimp only
    rw [if_neg (by rw [h1]; decide)]
    refine ⟨rfl, fun cy hcy => ?_⟩
    dsimp only
    rw [encoders_pass, if_pos (by omega), h2f, generateSlices_encoders_bands,
      if_pos (by omega), Option.map_some']
  · rintro ⟨cy, hcy, hbad⟩
    obtain ⟨h1, h2⟩ := slicesInitLoop_fails (imageGeometry d).imageW (imageGeometry d).imageH
      slicesInitOk (List.range (MAX_BLOCK_HEIGHT + 1)) (fun _ => none)
      ⟨cy, List.mem_range.mpr (by omega), hbad⟩
      (fun c p hp => Option.noConfusion hp)
    unfold generateSlices_encoders
    dsimp only
    rw [if_pos h1]
    exact ⟨rfl, h2⟩
  · by_cases hH : 0 ≤ (imageGeometry d).imageH
    · rw [bandSteps_rows _ hH (imageH_multiple_of_16 d)]
    · omega
  · intro hz hfit
    unfold imageGeometry
    dsimp only
    rw [wrapInt32_of_range (d.maxChunkZ - d.minChunkZ) (by omega) (by omega),
      wrapInt32_of_range (d.maxChunkZ - d.minChunkZ + 1) (by omega) (by omega),
      wrapInt32_of_range _ (by omega) (by omega)]
    omega

/-- Witness for C27: the dimension with chunk rows 2 and 3; the encoder of `generateImage` is
closed after the two bands. -/
theorem encoders_get_every_row_witness :
    generateImage_encoder dimSmall true
      = (0, PngWriter.close (bandsWritten (imageGeometry dimSmall).imageW
          (imageGeometry dimSmall).imageH dimSmall.minChunkZ
          (bandSteps (imageGeometry dimSmall).imageH))) :=
  (encoders_get_every_row dimSmall (fun _ => true)).1

/-! ## Buffers -/

theorem map_const_range (n : Nat) (c : Int) :
    (List.range n).map (fun _ => c) = List.replicate n c := by
  induction n with
  | zero => rfl
  | succ n ih =>
    rw [List.range_succ, List.map_append, ih, List.map_singleton, List.replicate_succ']

/-- C28 (buffer sizes). With an image whose width and height are not negative and whose band
fits 32 bits, `generateImage` allocates one band buffer of `imageW * 16 * bpp` bytes, and
`generateSlices` allocates `MAX_BLOCK_HEIGHT + 1` band buffers of `imageW * 3 * 16` bytes, the
transcoding buffer of fixed size, and the helper buffer `tbuf` of `imageW * imageH` bytes, one
byte for every column of the image. -/
theorem raster_buffers (d : DimensionData_LevelDB) (imageMode : ImageModeType)
    (hW : 0 ≤ (imageGeometry d).imageW) (hfit : (imageGeometry d).imageW * 64 ≤ 2147483647)
    (hH : 0 ≤ (imageGeometry d).imageH) (hHfit : (imageGeometry d).imageH ≤ 2147483647) :
    generateImage_buffers d imageMode
      = [(imageGeometry d).imageW * 16 * bytesPerPixel imageMode] ∧
    (generateSlices_buffers d).rbuf
      = List.replicate (MAX_BLOCK_HEIGHT + 1) ((imageGeometry d).imageW * 3 * 16) ∧
    (generateSlices_buffers d).emuchunk = 2 * NUM_BYTES_CHUNK_V3 ∧
    ((generateSlices_buffers d).tbuf : Int)
      = (imageGeometry d).imageW * (imageGeometry d).imageH := by
  refine ⟨?_, ?_, rfl, ?_⟩
  · unfold generateImage_buffers bandBufferSize bytesPerPixel
    rw [wrapInt32_of_range ((imageGeometry d).imageW * 16) (by omega) (by omega)]
    by_cases hm : imageMode = ImageModeType.kImageModeHeightColAlpha
    · rw [if_pos hm, wrapInt32_of_range _ (by omega) (by omega)]
    · rw [if_neg hm, wrapInt32_of_range _ (by omega) (by omega)]
  · unfold generateSlices_buffers
    dsimp only
    rw [map_const_range, wrapInt32_of_range ((imageGeometry d).imageW * 3) (by omega) (by omega),
      wrapInt32_of_range _ (by omega) (by omega)]
  · unfold generateSlices_buffers toSizeT
    dsimp only
    generalize (imageGeometry d).imageW = w at hW hfit
    generalize (imageGeometry d).imageH = h at hH hHfit
    have hw : (w % 2 ^ 64).toNat = w.toNat := by
      congr 1
      omega
    have hh : (h % 2 ^ 64).toNat = h.toNat := by
      congr 1
      omega
    rw [hw, hh]
    have hwn : w.toNat < 2 ^ 31 := by omega
    have hhn : h.toNat < 2 ^ 31 := by omega
    have hprod : w.toNat * h.toNat < 2 ^ 64 :=
      calc w.toNat * h.toNat < 2 ^ 31 * 2 ^ 31 := by
            apply Nat.mul_lt_mul'' hwn hhn
        _ < 2 ^ 64 := by norm_num
    rw [Nat.mod_eq_of_lt hprod]
    push_cast
    rw [Int.toNat_of_nonneg hW, Int.toNat_of_nonneg hH]

/-- Witness for C28: the dimension of 32 x 32 columns. -/
theorem raster_buffers_witness :
    ((generateSlices_buffers dimSmall).tbuf : Int)
      = (imageGeometry dimSmall).imageW * (imageGeometry dimSmall).imageH :=
  (raster_buffers dimSmall ImageModeType.kImageModeTerrain (by decide) (by decide) (by decide)
    (by decide)).2.2.2

/-- Counterexample to C28 as stated: `generateSlices` allocates a buffer that grows with
`imageH`. The two dimensions have the same width of 32 columns; with 32 rows `tbuf` has 1024
bytes, with 48 rows 1536 bytes, `imageW * imageH` each time. -/
theorem raster_buffers_counterexample :
    (imageGeometry dimSmall).imageW = 32 ∧ (imageGeometry dimSmall).imageH = 32 ∧
    (imageGeometry dimTall).imageW = 32 ∧ (imageGeometry dimTall).imageH = 48 ∧
    (generateSlices_buffers dimSmall).tbuf = 32 * 32 ∧
    (generateSlices_buffers dimTall).tbuf = 32 * 48 := by
  decide

/-! ## The dimension index of `calcChunkBounds` -/

/-- C29 (dimension index of the bounds scan). For the 13-byte key of chunk (1, -1) with the
dimension id `0x33373639` and tag `0x30`, `calcChunkBounds` indexes `dimDataList` with the raw
id, outside the list, where `dbParse` attributes the record to the nether; for the 14-byte key
with the unknown id 7 it indexes with 7, where `dbParse` skips the record. -/
theorem calcChunkBounds_indexes_with_raw_dimension_id :
    myParseInt32 (byteAt key_chunk13_alt) 8 = 0x33373639 ∧
    legalChunkPos (myParseInt32 (byteAt key_chunk13_alt) 0)
      (myParseInt32 (byteAt key_chunk13_alt) 4) = true ∧
    (addToChunkBoundsAt newDimDataList 0x33373639 1 (-1)).isNone = true ∧
    (calcChunkBoundsRecord env0 newDimDataList key_chunk13_alt).isNone = true ∧
    (calcChunkBounds env0 false newDimDataList [(key_chunk13_alt, [0])]).isNone = true ∧
    dbParseRecord env0 key_chunk13_alt [0] = [Action.addChunk 1 2 1 0 (-1) [0]] ∧
    myParseInt32 (byteAt key_chunk14_dim7) 8 = 7 ∧
    (calcChunkBoundsRecord env0 newDimDataList key_chunk14_dim7).isNone = true ∧
    dbParseRecord env0 key_chunk14_dim7 [0] = [] := by
  decide


/-! ## Keys built by the raster passes, read back by `dbParse` -/

/-- The four bytes `memcpy` takes from a 32-bit value are read back by `myParseInt32` as the
value. -/
theorem parse_int32Bytes (x : Int) (h1 : -2147483648 ≤ x) (h2 : x ≤ 2147483647)
    (p : Nat → Byte) (s : Nat) (h : ∀ i, i < 4 → p (s + i) = (int32Bytes x).getD i 0) :
    myParseInt32 p s = x := by
  have e0 := h 0 (by omega)
  have e1 := h 1 (by omega)
  have e2 := h 2 (by omega)
  have e3 := h 3 (by omega)
  simp only [Nat.add_zero] at e0
  unfold myParseInt32
  rw [e0, e1, e2, e3]
  unfold int32Bytes
  simp only [List.getD_cons_zero, List.getD_cons_succ, Fin.ofNat]
  unfold toUnsigned32 wrapInt32
  omega

theorem chunkSwitch_block (env : Env) (r : ChunkKeyInfo) (cdata : List Byte)
    (h : r.chunkType = 0x2f) :
    chunkSwitch env r cdata
      = [Action.addChunk r.chunkDimId (if cdata0 env cdata ≠ 0 then 7 else r.chunkFormatVersion)
          r.chunkX r.chunkTypeSub r.chunkZ cdata] := by
  unfold chunkSwitch
  rw [if_neg (by rw [h]; decide), if_neg (by rw [h]; decide), if_neg (by rw [h]; decide),
    if_pos h]
  dsimp only
  by_cases hc : cdata0 env cdata ≠ 0
  · rw [if_pos hc, if_pos hc]
  · rw [if_neg hc, if_neg hc]

theorem chunkSwitch_legacy (env : Env) (r : ChunkKeyInfo) (cdata : List Byte)
    (h : r.chunkType = 0x30) :
    chunkSwitch env r cdata = [Action.addChunk r.chunkDimId 2 r.chunkX 0 r.chunkZ cdata] := by
  unfold chunkSwitch
  rw [if_pos h]

theorem subchunk_byte (s : Nat) (hs : s < 16) :
    (((Fin.ofNat (s % 256) : Byte).val : Nat) : Int) = s := by
  simp only [Fin.ofNat]
  omega

theorem roundtrip_cubic_overworld (env : Env) (cdata : List Byte) (X Z : Int) (s : Nat)
    (hX1 : -2147483648 ≤ X) (hX2 : X ≤ 2147483647) (hZ1 : -2147483648 ≤ Z)
    (hZ2 : Z ≤ 2147483647) (hlegal : legalChunkPos X Z = true) (hs : s < 16)
    (hnamed : classifyNamed env (cubicKey 0 X Z s) = none) :
    dbParseRecord env (cubicKey 0 X Z s) cdata
      = [Action.addChunk 0 (if cdata0 env cdata ≠ 0 then 7 else 3) X s Z cdata] := by
  have hlen : (cubicKey 0 X Z s).length = 10 := rfl
  have hx : myParseInt32 (byteAt (cubicKey 0 X Z s)) 0 = X :=
    parse_int32Bytes X hX1 hX2 _ 0 (by intro i hi; interval_cases i <;> rfl)
  have hz : myParseInt32 (byteAt (cubicKey 0 X Z s)) 4 = Z :=
    parse_int32Bytes Z hZ1 hZ2 _ 4 (by intro i hi; interval_cases i <;> rfl)
  have ht : myParseInt8 (byteAt (cubicKey 0 X Z s)) 8 = 0x2f := rfl
  have hsub : myParseInt8 (byteAt (cubicKey 0 X Z s)) 9 = s := subchunk_byte s hs
  rw [dbParseRecord_of_chunk env _ cdata hnamed (Or.inr (Or.inl hlen)),
    chunkRecord_of_parse env _ cdata _ (parseChunkKey_ten env _ hlen)
      (by dsimp only; rw [hx, hz]; exact hlegal),
    chunkSwitch_block env _ cdata ht]
  dsimp only
  rw [hx, hz, hsub]

theorem roundtrip_legacy_overworld (env : Env) (cdata : List Byte) (X Z : Int)
    (hX1 : -2147483648 ≤ X) (hX2 : X ≤ 2147483647) (hZ1 : -2147483648 ≤ Z)
    (hZ2 : Z ≤ 2147483647) (hlegal : legalChunkPos X Z = true)
    (hnamed : classifyNamed env (legacyKey 0 X Z) = none) :
    dbParseRecord env (legacyKey 0 X Z) cdata = [Action.addChunk 0 2 X 0 Z cdata] := by
  have hlen : (legacyKey 0 X Z).length = 9 := rfl
  have hx : myParseInt32 (byteAt (legacyKey 0 X Z)) 0 = X :=
    parse_int32Bytes X hX1 hX2 _ 0 (by intro i hi; interval_cases i <;> rfl)
  have hz : myParseInt32 (byteAt (legacyKey 0 X Z)) 4 = Z :=
    parse_int32Bytes Z hZ1 hZ2 _ 4 (by intro i hi; interval_cases i <;> rfl)
  have ht : myParseInt8 (byteAt (legacyKey 0 X Z)) 8 = 0x30 := rfl
  rw [dbParseRecord_of_chunk env _ cdata hnamed (Or.inl hlen),
    chunkRecord_of_parse env _ cdata _ (parseChunkKey_nine env _ hlen)
      (by dsimp only; rw [hx, hz]; exact hlegal),
    chunkSwitch_legacy env _ cdata ht]
  dsimp only
  rw [hx, hz]


theorem roundtrip_cubic_other (env : Env) (cdata : List Byte) (d X Z : Int) (s : Nat)
    (hd : d = 1 ∨ d = 2)
    (hX1 : -2147483648 ≤ X) (hX2 : X ≤ 2147483647) (hZ1 : -2147483648 ≤ Z)
    (hZ2 : Z ≤ 2147483647) (hlegal : legalChunkPos X Z = true) (hs : s < 16)
    (hnamed : classifyNamed env (cubicKey d X Z s) = none) :
    dbParseRecord env (cubicKey d X Z s) cdata
      = [Action.addChunk d (if cdata0 env cdata ≠ 0 then 7 else 3) X s Z cdata] := by
  have hsub : ∀ e : Int, myParseInt8 (byteAt (cubicKey e X Z s)) 13 = s ∨ e = 0 := by
    intro e
    by_cases he : e = 0
    · exact Or.inr he
    · left
      have : cubicKey e X Z s
          = int32Bytes X ++ int32Bytes Z ++ int32Bytes e ++ [0x2f, Fin.ofNat (s % 256)] := by
        unfold cubicKey kDimIdOverworld
        rw [if_neg he]
      rw [this]
      exact subchunk_byte s hs
  rcases hd with rfl | rfl
  · have hlen : (cubicKey 1 X Z s).length = 14 := rfl
    have hx : myParseInt32 (byteAt (cubicKey 1 X Z s)) 0 = X :=
      parse_int32Bytes X hX1 hX2 _ 0 (by intro i hi; interval_cases i <;> rfl)
    have hz : myParseInt32 (byteAt (cubicKey 1 X Z s)) 4 = Z :=
      parse_int32Bytes Z hZ1 hZ2 _ 4 (by intro i hi; interval_cases i <;> rfl)
    have hdim : myParseInt32 (byteAt (cubicKey 1 X Z s)) 8 = 1 :=
      parse_int32Bytes 1 (by decide) (by decide) _ 8 (by intro i hi; interval_cases i <;> rfl)
    have ht : myParseInt8 (byteAt (cubicKey 1 X Z s)) 12 = 0x2f := rfl
    have hs13 : myParseInt8 (byteAt (cubicKey 1 X Z s)) 13 = s :=
      (hsub 1).resolve_right (by decide)
    have hp := parseChunkKey_fourteen env (cubicKey 1 X Z s) hlen
    rw [hdim, if_neg (by decide)] at hp
    rw [dbParseRecord_of_chunk env _ cdata hnamed (Or.inr (Or.inr (Or.inr hlen))),
      chunkRecord_of_parse env _ cdata _ hp (by dsimp only; rw [hx, hz]; exact hlegal),
      chunkSwitch_block env _ cdata ht]
    dsimp only
    rw [hx, hz, hs13]
    rfl
  · have hlen : (cubicKey 2 X Z s).length = 14 := rfl
    have hx : myParseInt32 (byteAt (cubicKey 2 X Z s)) 0 = X :=
      parse_int32Bytes X hX1 hX2 _ 0 (by intro i hi; interval_cases i <;> rfl)
    have hz : myParseInt32 (byteAt (cubicKey 2 X Z s)) 4 = Z :=
      parse_int32Bytes Z hZ1 hZ2 _ 4 (by intro i hi; interval_cases i <;> rfl)
    have hdim : myParseInt32 (byteAt (cubicKey 2 X Z s)) 8 = 2 :=
      parse_int32Bytes 2 (by decide) (by decide) _ 8 (by intro i hi; interval_cases i <;> rfl)
    have ht : myParseInt8 (byteAt (cubicKey 2 X Z s)) 12 = 0x2f := rfl
    have hs13 : myParseInt8 (byteAt (cubicKey 2 X Z s)) 13 = s :=
      (hsub 2).resolve_right (by decide)
    have hp := parseChunkKey_fourteen env (cubicKey 2 X Z s) hlen
    rw [hdim, if_neg (by decide)] at hp
    rw [dbParseRecord_of_chunk env _ cdata hnamed (Or.inr (Or.inr (Or.inr hlen))),
      chunkRecord_of_parse env _ cdata _ hp (by dsimp only; rw [hx, hz]; exact hlegal),
      chunkSwitch_block env _ cdata ht]
    dsimp only
    rw [hx, hz, hs13]
    rfl

theorem roundtrip_legacy_other (env : Env) (cdata : List Byte) (d X Z : Int)
    (hd : d = 1 ∨ d = 2)
    (hX1 : -2147483648 ≤ X) (hX2 : X ≤ 2147483647) (hZ1 : -2147483648 ≤ Z)
    (hZ2 : Z ≤ 2147483647) (hlegal : legalChunkPos X Z = true)
    (hnamed : classifyNamed env (legacyKey d X Z) = none) :
    dbParseRecord env (legacyKey d X Z) cdata = [Action.addChunk d 2 X 0 Z cdata] := by
  rcases hd with rfl | rfl
  · have hlen : (legacyKey 1 X Z).length = 13 := rfl
    have hx : myParseInt32 (byteAt (legacyKey 1 X Z)) 0 = X :=
      parse_int32Bytes X hX1 hX2 _ 0 (by intro i hi; interval_cases i <;> rfl)
    have hz : myParseInt32 (byteAt (legacyKey 1 X Z)) 4 = Z :=
      parse_int32Bytes Z hZ1 hZ2 _ 4 (by intro i hi; interval_cases i <;> rfl)
    have hdim : myParseInt32 (byteAt (legacyKey 1 X Z)) 8 = 1 :=
      parse_int32Bytes 1 (by decide) (by decide) _ 8 (by intro i hi; interval_cases i <;> rfl)
    have ht : myParseInt8 (byteAt (legacyKey 1 X Z)) 12 = 0x30 := rfl
    have hp := parseChunkKey_thirteen env (legacyKey 1 X Z) hlen
    rw [hdim, if_neg (by decide)] at hp
    rw [dbParseRecord_of_chunk env _ cdata hnamed (Or.inr (Or.inr (Or.inl hlen))),
      chunkRecord_of_parse env _ cdata _ hp (by dsimp only; rw [hx, hz]; exact hlegal),
      chunkSwitch_legacy env _ cdata ht]
    dsimp only
    rw [hx, hz]
    rfl
  · have hlen : (legacyKey 2 X Z).length = 13 := rfl
    have hx : myParseInt32 (byteAt (legacyKey 2 X Z)) 0 = X :=
      parse_int32Bytes X hX1 hX2 _ 0 (by intro i hi; interval_cases i <;> rfl)
    have hz : myParseInt32 (byteAt (legacyKey 2 X Z)) 4 = Z :=
      parse_int32Bytes Z hZ1 hZ2 _ 4 (by intro i hi; interval_cases i <;> rfl)
    have hdim : myParseInt32 (byteAt (legacyKey 2 X Z)) 8 = 2 :=
      parse_int32Bytes 2 (by decide) (by decide) _ 8 (by intro i hi; interval_cases i <;> rfl)
    have ht : myParseInt8 (byteAt (legacyKey 2 X Z)) 12 = 0x30 := rfl
    have hp := parseChunkKey_thirteen env (legacyKey 2 X Z) hlen
    rw [hdim, if_neg (by decide)] at hp
    rw [dbParseRecord_of_chunk env _ cdata hnamed (Or.inr (Or.inr (Or.inl hlen))),
      chunkRecord_of_parse env _ cdata _ hp (by dsimp only; rw [hx, hz]; exact hlegal),
      chunkSwitch_legacy env _ cdata ht]
    dsimp only
    rw [hx, hz]
    rfl

/-- C30 (keys read back). For a dimension `d` among overworld, nether and the-end, a chunk
coordinate `(chunkX, chunkZ)` of 32-bit values that is not the corrupt pair and a subchunk
index `s` below 16: when the text-key chain of `dbParse` lets the key through, the cubic key
that `generateSlices` and `findChunk` build is handed to `addChunk` for dimension `d`, chunk
`(chunkX, chunkZ)` and subchunk `s` (format 7 or 3 after byte 0 of the value), and the legacy
key that `generateSlices` builds is handed to `addChunk` as a legacy record (format 2,
subchunk 0) of the same dimension and chunk. -/
theorem built_keys_read_back (env : Env) (cdata : List Byte) (d chunkX chunkZ : Int) (s : Nat)
    (hd : d = kDimIdOverworld ∨ d = kDimIdNether ∨ d = kDimIdTheEnd)
    (hX1 : -2147483648 ≤ chunkX) (hX2 : chunkX ≤ 2147483647)
    (hZ1 : -2147483648 ≤ chunkZ) (hZ2 : chunkZ ≤ 2147483647)
    (hlegal : legalChunkPos chunkX chunkZ = true) (hs : s < MAX_CUBIC_Y) :
    (classifyNamed env (cubicKey d chunkX chunkZ s) = none →
      dbParseRecord env (cubicKey d chunkX chunkZ s) cdata
        = [Action.addChunk d (if cdata0 env cdata ≠ 0 then 7 else 3) chunkX s chunkZ cdata]) ∧
    (classifyNamed env (legacyKey d chunkX chunkZ) = none →
      dbParseRecord env (legacyKey d chunkX chunkZ) cdata
        = [Action.addChunk d 2 chunkX 0 chunkZ cdata]) := by
  unfold MAX_CUBIC_Y at hs
  unfold kDimIdOverworld kDimIdNether kDimIdTheEnd at hd
  rcases hd with h0 | h12
  · rw [h0]
    exact ⟨roundtrip_cubic_overworld env cdata chunkX chunkZ s hX1 hX2 hZ1 hZ2 hlegal hs,
      roundtrip_legacy_overworld env cdata chunkX chunkZ hX1 hX2 hZ1 hZ2 hlegal⟩
  · exact ⟨roundtrip_cubic_other env cdata d chunkX chunkZ s h12 hX1 hX2 hZ1 hZ2 hlegal hs,
      roundtrip_legacy_other env cdata d chunkX chunkZ h12 hX1 hX2 hZ1 hZ2 hlegal⟩

/-- Witness for C30: subchunk 5 of the nether chunk (1, -1). -/
theorem built_keys_read_back_witness :
    dbParseRecord env0 (cubicKey 1 1 (-1) 5) [0]
      = [Action.addChunk 1 (if cdata0 env0 [0] ≠ 0 then 7 else 3) 1 (5 : Nat) (-1) [0]] :=
  (built_keys_read_back env0 [0] 1 1 (-1) 5 (by decide) (by decide) (by decide) (by decide)
    (by decide) (by decide) (by decide)).1 (by decide)

/-- Counterexample to C30 as stated: the legacy key of the overworld chunk
(2036427888, 828338789), a legal coordinate, is the text `player_10`, and the cubic key of its
subchunk 5 starts with `player_`; `dbParse` decodes both records as remote players and calls
`addChunk` for neither. -/
theorem built_keys_read_back_counterexample :
    legalChunkPos 2036427888 828338789 = true ∧
    legacyKey 0 2036427888 828338789 = key_player_10 ∧
    dbParseRecord env0 (legacyKey 0 2036427888 828338789) [0]
      = [Action.parseNbt "Remote Player: " [0],
         Action.parseNbt_entity (-1) "" false true "Remote Player" [49, 48]] ∧
    cubicKey 0 2036427888 828338789 5 = key_player_1_sub5 ∧
    dbParseRecord env0 (cubicKey 0 2036427888 828338789 5) [0]
      = [Action.parseNbt "Remote Player: " [0],
         Action.parseNbt_entity (-1) "" false true "Remote Player" [49, 0x2f, 5]] := by
  decide


end mcpe_viz
